import Mathlib

/-!
Verification development for the terrain-graph document core of this
repository (the `.terrain` file I/O module: read, write, and manipulate
`.terrain` JSON files using Newtonsoft.Json reference-preserving
serialization).

The module is shallowly embedded: JavaScript JSON values (as they exist
in memory after `JSON.parse`, i.e. plain trees in which `$ref` objects
are ordinary objects) become the inductive type `Json`; JS objects are
modelled as association lists in enumeration order; JS numbers are
modelled as exact decimals `m * 10 ^ e` kept in a normal form that
mirrors the value-identification performed by binary floating point on
the decimal literals occurring in these documents.
-/

set_option maxHeartbeats 1000000

namespace Gaea

/-- A JS number, modelled as the exact decimal `m * 10 ^ e`.
Kept in normal form (see `Dec.normal`): `e ≤ 0`, no trailing zero in `m`
while `e < 0`, and `m = 0` forces `e = 0`.  This mirrors the fact that
distinct decimal spellings of one value collapse to one JS number. -/
structure Dec where
  m : Int
  e : Int
deriving DecidableEq, Repr

/-- JSON values as JavaScript sees them after `JSON.parse`: `$id` / `$ref`
entries are ordinary object fields, not resolved references.  Objects are
association lists in JS enumeration order. -/
inductive Json where
  | null : Json
  | bool (b : Bool) : Json
  | num (n : Dec) : Json
  | str (s : String) : Json
  | arr (elems : List Json) : Json
  | obj (fields : List (String × Json)) : Json

namespace Dec

/-- The exact rational value of a decimal. -/
def val (d : Dec) : ℚ := (d.m : ℚ) * (10 : ℚ) ^ (d.e)

/-- Normal form: exponent non-positive, mantissa not a multiple of ten
while the exponent is negative, and zero is `(0, 0)`. -/
def normal (d : Dec) : Prop :=
  d.e ≤ 0 ∧ (d.m = 0 → d.e = 0) ∧ (d.e < 0 → ¬ (10 ∣ d.m))

instance : DecidablePred normal := fun d => by unfold normal; infer_instance

/-- The decimal denoting the integer `n`. -/
def ofInt (n : Int) : Dec := ⟨n, 0⟩

theorem ofInt_normal (n : Int) : (ofInt n).normal := by
  refine ⟨le_refl 0, fun _ => rfl, fun h => absurd h (lt_irrefl 0)⟩

end Dec

/-- JS strict equality `v === n` between a JSON value and an integer
number (values of different runtime types are never strictly equal).
The decimal `m * 10 ^ e` equals `n` iff `m * 10 ^ e = n` over ℤ when
`e ≥ 0`, and iff `m = n * 10 ^ (-e)` when `e < 0`. -/
def jsEqInt (v : Json) (n : Int) : Bool :=
  match v with
  | .num d => if 0 ≤ d.e then d.m * 10 ^ d.e.toNat == n else d.m == n * 10 ^ (-d.e).toNat
  | _ => false

/-- JS strict equality `v === s` between a JSON value and a string. -/
def jsEqStr (v : Json) (s : String) : Bool :=
  match v with
  | .str t => t == s
  | _ => false

/-- JS truthiness of a JSON value (`undefined` is represented by
`Option.none` at use sites, never by a `Json` constructor). -/
def jsTruthy (v : Json) : Bool :=
  match v with
  | .null => false
  | .bool b => b
  | .num d => d.m != 0
  | .str s => s ≠ ""
  | .arr _ => true
  | .obj _ => true

/-- JS nullish test (`null`; `undefined` is `Option.none` at use sites). -/
def jsNullish (v : Json) : Bool :=
  match v with
  | .null => true
  | _ => false

/-- JS property read `v[k]` (absent property / property access on a
primitive yields `undefined`, i.e. `none`). -/
def jsGet (v : Json) (k : String) : Option Json :=
  match v with
  | .obj l => l.lookup k
  | _ => none

/-- Optional-chaining step `o?.[k]` on an intermediate result. -/
def jsChain (o : Option Json) (k : String) : Option Json :=
  match o with
  | none => none
  | some v => if jsNullish v then none else jsGet v k

/-- JS canonical array-index test: the enumeration order of a JS object
places keys that spell canonical array indices first, in ascending
numeric order.  Returns the index when `s` is such a key. -/
def jsArrayIndex? (s : String) : Option Nat :=
  if s = "" then none
  else if !(s.all Char.isDigit) then none
  else if s != "0" && s.front == '0' then none
  else
    let n := s.foldl (fun acc c => acc * 10 + (c.toNat - 48)) 0
    if n < 4294967295 then some n else none

/-- Whether key `k₁` sorts strictly before key `k₂` in JS enumeration
order (array-index keys ascending, before all other keys). -/
def jsKeyBefore (k₁ k₂ : String) : Bool :=
  match jsArrayIndex? k₁, jsArrayIndex? k₂ with
  | some i, some j => i < j
  | some _, none => true
  | _, _ => false

/-- JS property write `o[k] = v` on an object: overwrites in place when
the key exists; otherwise inserts at the position JS enumeration order
dictates (array-index keys ascending before all other keys, other keys
in insertion order). -/
def jsObjSet (l : List (String × Json)) (k : String) (v : Json) :
    List (String × Json) :=
  match l with
  | [] => [(k, v)]
  | (k', v') :: rest =>
    if k = k' then (k, v) :: rest
    else if jsKeyBefore k k' ∧ (rest.lookup k).isNone then (k, v) :: (k', v') :: rest
    else (k', v') :: jsObjSet rest k v

/-- JS property delete `delete o[k]`. -/
def jsObjDelete (l : List (String × Json)) (k : String) :
    List (String × Json) :=
  l.filter (fun p => p.1 != k)

/-- `Object.values(v)` (only ever applied to objects and arrays by the
translated code; other cases enumerate nothing). -/
def jsValues (v : Json) : List Json :=
  match v with
  | .obj l => l.map Prod.snd
  | .arr xs => xs
  | _ => []

/-- The whitespace skipped by `parseInt`. -/
def wsChar (c : Char) : Bool := c == ' ' || c == '\t' || c == '\n' || c == '\r'

/-- The leading decimal-digit run of a character list, as a number
(`none` when there is no leading digit). -/
def digitRun (l : List Char) : Option Nat :=
  let ds := l.takeWhile Char.isDigit
  if ds = [] then none
  else some (ds.foldl (fun acc c => acc * 10 + (c.toNat - 48)) 0)

/-- The integer prefix accepted by JS `parseInt(s, 10)`: optional
whitespace, optional sign, then a non-empty run of decimal digits;
`none` models a `NaN` result. -/
def jsParseInt (s : String) : Option Int :=
  match s.data.dropWhile wsChar with
  | [] => none
  | c :: rest =>
    if c = '-' then (digitRun rest).map (fun n => -(n : Int))
    else if c = '+' then (digitRun rest).map (fun n => (n : Int))
    else (digitRun (c :: rest)).map (fun n => (n : Int))

/-- The character for a single decimal digit. -/
def digitChar (d : Nat) : Char :=
  match d with
  | 0 => '0' | 1 => '1' | 2 => '2' | 3 => '3' | 4 => '4'
  | 5 => '5' | 6 => '6' | 7 => '7' | 8 => '8' | _ => '9'

/-- Decimal digits (as characters, most significant first) of a
positive number, with enough fuel. -/
def natDigitsAux (fuel : Nat) (n : Nat) : List Char :=
  match fuel with
  | 0 => []
  | fuel + 1 => if n = 0 then [] else natDigitsAux fuel (n / 10) ++ [digitChar (n % 10)]

/-- Decimal digits of a natural number, most significant first. -/
def natDigits (n : Nat) : List Char :=
  if n = 0 then ['0'] else natDigitsAux n n

/-- JS `String(n)` for a non-negative integer number. -/
def natToString (n : Nat) : String := String.mk (natDigits n)

/-- JS `String(n)` for an integer number. -/
def intToString (n : Int) : String :=
  if n < 0 then "-" ++ natToString n.natAbs else natToString n.toNat

/-- The contribution of the own `$id` field of an object to `findMaxId`
(the running max right after the `typeof obj["$id"] === "string"` step,
starting from 0). -/
def idStart (l : List (String × Json)) : Int :=
  match jsGet (Json.obj l) "$id" with
  | some (.str s) =>
    match jsParseInt s with
    | some n => if 0 < n then n else 0
    | _ => 0
  | _ => 0

/-- Scan the entire JSON tree and return the max numeric `$id` found
(`findMaxId` in the source). -/
def findMaxId : Json → Int
  | .obj l =>
    (l.attach.map (fun p => findMaxId p.1.2)).foldl max (idStart l)
  | .arr xs => (xs.attach.map (fun p => findMaxId p.1)).foldl max 0
  | _ => 0
decreasing_by
  · rcases p with ⟨⟨k, v⟩, hv⟩
    have h := List.sizeOf_lt_of_mem hv
    simp at h ⊢; omega
  · rcases p with ⟨v, hv⟩
    have h := List.sizeOf_lt_of_mem hv
    simp at h ⊢; omega

/-- An ID allocator is just its next value (the captured mutable `next`
of `createIdAlloc`). -/
def createIdAlloc (root : Json) : Int := findMaxId root + 1

/-- One `alloc()` call: return the current value as a string, increment. -/
def allocate (a : Int) : String × Int := (intToString a, a + 1)

/-- Allocator state after `k` calls. -/
def allocIter (a : Int) : Nat → Int
  | 0 => a
  | k + 1 => allocIter (allocate a).2 k

/-- The value returned by the `k`-th `alloc()` call (0-based) of an
allocator constructed against `root`. -/
def allocNth (root : Json) (k : Nat) : String :=
  (allocate (allocIter (createIdAlloc root) k)).1

/-- Whether the string `s` occurs as a (string-valued) `$id` field
anywhere in the tree, i.e. is present as a reference id. -/
def idOccurs (v : Json) (s : String) : Bool :=
  match v with
  | .obj l =>
    (match jsGet (Json.obj l) "$id" with
     | some (.str t) => t == s
     | _ => false)
    || (l.attach.map (fun p => idOccurs p.1.2 s)).any id
  | .arr xs => (xs.attach.map (fun p => idOccurs p.1 s)).any id
  | _ => false
termination_by sizeOf v
decreasing_by
  · rcases p with ⟨⟨k1, v1⟩, hv⟩
    have h := List.sizeOf_lt_of_mem hv
    simp at h ⊢; omega
  · rcases p with ⟨v1, hv⟩
    have h := List.sizeOf_lt_of_mem hv
    simp at h ⊢; omega

-- ═══════════════ The ordered serializer ═══════════════

/-- The keys the serializer always places first (`PRIORITY`). -/
def PRIORITY : List String := ["$id", "$ref", "$type", "$values"]

/-- The entry order the serializer uses for an object: for each priority
key present (`pk in value`), its entry, in the fixed `PRIORITY` order;
then every entry whose key is not a priority key, in the enumeration
order of the object. -/
def orderedEntries (l : List (String × Json)) : List (String × Json) :=
  (PRIORITY.filterMap (fun pk => (l.lookup pk).map (fun v => (pk, v))))
  ++ l.filter (fun kv => !(PRIORITY.contains kv.1))

theorem mem_of_lookup_eq_some {l : List (String × Json)} {k : String} {v : Json}
    (h : l.lookup k = some v) : (k, v) ∈ l := by
  obtain ⟨l₁, l₂, rfl, -⟩ := List.lookup_eq_some_iff.mp h
  simp

theorem mem_of_mem_orderedEntries {kv : String × Json} {l : List (String × Json)}
    (h : kv ∈ orderedEntries l) : kv ∈ l := by
  unfold orderedEntries at h
  rcases List.mem_append.mp h with h | h
  · obtain ⟨pk, _, hmap⟩ := List.mem_filterMap.mp h
    cases hl : l.lookup pk with
    | none => rw [hl] at hmap; simp at hmap
    | some v =>
      rw [hl] at hmap
      simp at hmap
      subst hmap
      exact mem_of_lookup_eq_some hl
  · exact List.mem_of_mem_filter h

/-- Lowercase hexadecimal digit. -/
def hexDigitChar (n : Nat) : Char :=
  match n with
  | 0 => '0' | 1 => '1' | 2 => '2' | 3 => '3' | 4 => '4'
  | 5 => '5' | 6 => '6' | 7 => '7' | 8 => '8' | 9 => '9'
  | 10 => 'a' | 11 => 'b' | 12 => 'c' | 13 => 'd' | 14 => 'e' | _ => 'f'

/-- The escape `JSON.stringify` applies to one character of a string. -/
def escChar (c : Char) : List Char :=
  if c = '"' then ['\\', '"']
  else if c = '\\' then ['\\', '\\']
  else if c = '\x08' then ['\\', 'b']
  else if c = '\x0C' then ['\\', 'f']
  else if c = '\n' then ['\\', 'n']
  else if c = '\r' then ['\\', 'r']
  else if c = '\t' then ['\\', 't']
  else if c.toNat < 32 then
    ['\\', 'u', '0', '0', hexDigitChar (c.toNat / 16), hexDigitChar (c.toNat % 16)]
  else [c]

/-- `JSON.stringify` of a string value. -/
def jsonQuote (s : String) : String :=
  String.mk ('"' :: (s.data.flatMap escChar ++ ['"']))

/-- `" ".repeat(n)`. -/
def padStr (n : Nat) : String := String.mk (List.replicate n ' ')

/-- JS `String(n)` for a number rendered from an exact decimal: the
plain decimal notation (sign, integer digits, then fractional digits
when the exponent is negative). -/
def renderDec (d : Dec) : String :=
  if 0 ≤ d.e then
    (if d.m < 0 then "-" else "") ++ natToString (d.m.natAbs * 10 ^ d.e.toNat)
  else
    if (-d.e).toNat < (natDigits d.m.natAbs).length then
      (if d.m < 0 then "-" else "")
        ++ String.mk ((natDigits d.m.natAbs).take
            ((natDigits d.m.natAbs).length - (-d.e).toNat))
        ++ "." ++ String.mk ((natDigits d.m.natAbs).drop
            ((natDigits d.m.natAbs).length - (-d.e).toNat))
    else
      (if d.m < 0 then "-" else "") ++ "0."
        ++ String.mk (List.replicate ((-d.e).toNat - (natDigits d.m.natAbs).length) '0')
        ++ String.mk (natDigits d.m.natAbs)

/-- The custom serializer (`serializeValue`): standard JSON literals,
pretty-printing with the given indent, and the priority-key reordering
applied to every object at every depth. -/
def serializeValue (value : Json) (depth indent : Nat) : String :=
  match value with
  | .null => "null"
  | .bool b => if b then "true" else "false"
  | .num d => renderDec d
  | .str s => jsonQuote s
  | .arr xs =>
    if xs.isEmpty then "[]"
    else
      let pad := padStr (depth * indent)
      let innerPad := padStr ((depth + 1) * indent)
      let items := xs.attach.map
        (fun p => innerPad ++ serializeValue p.1 (depth + 1) indent)
      "[\n" ++ String.intercalate ",\n" items ++ "\n" ++ pad ++ "]"
  | .obj l =>
    if l.isEmpty then "\x7b\x7d"
    else
      let pad := padStr (depth * indent)
      let innerPad := padStr ((depth + 1) * indent)
      let entries := (orderedEntries l).attach.map
        (fun p => innerPad ++ jsonQuote p.1.1 ++ ": " ++ serializeValue p.1.2 (depth + 1) indent)
      "\x7b\n" ++ String.intercalate ",\n" entries ++ "\n" ++ pad ++ "\x7d"
termination_by sizeOf value
decreasing_by
  · rcases p with ⟨v1, hv⟩
    have h := List.sizeOf_lt_of_mem hv
    simp at h ⊢; omega
  · rcases p with ⟨⟨k1, v1⟩, hv⟩
    have h := List.sizeOf_lt_of_mem (mem_of_mem_orderedEntries hv)
    simp at h ⊢; omega

/-- `serializeJson` with the default indent of 2. -/
def serializeJson (value : Json) : String := serializeValue value 0 2

-- ═══════════════ The TerrainFile model and the graph mutators ═══════════════

/-- `o === n` where `o` may be `undefined`. -/
def jsOptEqInt (o : Option Json) (n : Int) : Bool :=
  match o with
  | some v => jsEqInt v n
  | none => false

/-- `o === s` where `o` may be `undefined`. -/
def jsOptEqStr (o : Option Json) (s : String) : Bool :=
  match o with
  | some v => jsEqStr v s
  | none => false

/-- JS `v[0]` (array head, object key "0", or first character of a
string). -/
def jsIdx0 (v : Json) : Option Json :=
  match v with
  | .arr (x :: _) => some x
  | .obj l => l.lookup "0"
  | .str s =>
    match s.data with
    | [] => none
    | c :: _ => some (.str (String.mk [c]))
  | _ => none

/-- Optional-chaining step `o?.[0]`. -/
def jsChain0 (o : Option Json) : Option Json :=
  match o with
  | none => none
  | some v => if jsNullish v then none else jsIdx0 v

/-- `raw.Assets?.$values?.[0]` — the asset shortcut computed by
`readTerrain`. -/
def assetOf (raw : Json) : Option Json :=
  jsChain0 (jsChain (jsGet raw "Assets") "$values")

/-- `asset.Terrain.Nodes` — the value the `nodes` shortcut aliases when
it is not nullish. -/
def nodesPath (raw : Json) : Option Json :=
  match assetOf raw with
  | none => none
  | some a =>
    match jsGet a "Terrain" with
    | none => none
    | some t => jsGet t "Nodes"

/-- The in-memory terrain file (`TerrainFile` in the source): the raw
parsed tree plus, when `terrain.Nodes ?? \x7b\x7d` took the fallback, the
fresh detached nodes object produced by `?? \x7b\x7d` (an object separate
from `raw`).  When `detached` is `none`, the `nodes` shortcut aliases
`raw.Assets.$values[0].Terrain.Nodes`, so mutations through it are
modelled by rebuilding `raw` along that path.  The file path is external
I/O state and is not modelled. -/
structure TerrainFile where
  raw : Json
  detached : Option (List (String × Json))

/-- The value of the `nodes` shortcut. -/
def TerrainFile.nodesVal (tf : TerrainFile) : Json :=
  match tf.detached with
  | some l => .obj l
  | none => (nodesPath tf.raw).getD .null

/-- The entry list of the nodes object (empty for the unreachable
malformed states). -/
def TerrainFile.nodesObj (tf : TerrainFile) : List (String × Json) :=
  match tf.nodesVal with
  | .obj l => l
  | _ => []

/-- `tf.nodes[String(nodeId)]`. -/
def TerrainFile.getNode (tf : TerrainFile) (nodeId : Int) : Option Json :=
  jsGet tf.nodesVal (intToString nodeId)

/-- Rebuild `raw` with a new value for
`raw.Assets.$values[0].Terrain.Nodes` (the write-through of a mutation
performed on the aliasing `nodes` shortcut). -/
def setNodesRaw (raw : Json) (nv : Json) : Json :=
  match raw with
  | .obj rl =>
    match rl.lookup "Assets" with
    | some (.obj al) =>
      match al.lookup "$values" with
      | some (.arr (a0 :: rest)) =>
        match a0 with
        | .obj a0l =>
          match a0l.lookup "Terrain" with
          | some (.obj tl) =>
            .obj (jsObjSet rl "Assets" (.obj (jsObjSet al "$values" (.arr (
              (.obj (jsObjSet a0l "Terrain" (.obj (jsObjSet tl "Nodes" nv)))) :: rest)))))
          | _ => raw
        | _ => raw
      | _ => raw
    | _ => raw
  | _ => raw

/-- Replace the contents of the nodes object (through the alias when
attached, in the detached object otherwise). -/
def TerrainFile.withNodes (tf : TerrainFile) (nl : List (String × Json)) : TerrainFile :=
  match tf.detached with
  | some _ => { tf with detached := some nl }
  | none => { raw := setNodesRaw tf.raw (.obj nl), detached := none }

/-- Rebuild `raw` with `asset.State.SelectedNode = -1`. -/
def setSelectedRaw (raw : Json) : Json :=
  match raw with
  | .obj rl =>
    match rl.lookup "Assets" with
    | some (.obj al) =>
      match al.lookup "$values" with
      | some (.arr (a0 :: rest)) =>
        match a0 with
        | .obj a0l =>
          match a0l.lookup "State" with
          | some (.obj sl) =>
            .obj (jsObjSet rl "Assets" (.obj (jsObjSet al "$values" (.arr (
              (.obj (jsObjSet a0l "State" (.obj (jsObjSet sl "SelectedNode"
                (.num (.ofInt (-1))))))) :: rest)))))
          | _ => raw
        | _ => raw
      | _ => raw
    | _ => raw
  | _ => raw

/-- `if (tf.asset.State?.SelectedNode === nodeId) tf.asset.State.SelectedNode = -1`. -/
def updateSelected (raw : Json) (nodeId : Int) : Json :=
  match assetOf raw with
  | none => raw
  | some a =>
    if jsOptEqInt (jsChain (jsGet a "State") "SelectedNode") nodeId then setSelectedRaw raw
    else raw

/-- `node.Ports?.$values ?? []`, then demanded to be an array by `.find`
or `for…of` (a truthy non-array, non-string value raises `TypeError`). -/
def portsArr (node : Json) : Except String (List Json) :=
  match jsChain (jsGet node "Ports") "$values" with
  | none => .ok []
  | some v =>
    if jsNullish v then .ok []
    else match v with
      | .arr ps => .ok ps
      | _ => .error "TypeError"

/-- Replace the first list element satisfying `p` (the in-place mutation
of the object returned by `Array.prototype.find`). -/
def setFirstWhere (p : α → Bool) (f : α → α) : List α → List α
  | [] => []
  | x :: xs => if p x then f x :: xs else x :: setFirstWhere p f xs

/-- `delete port.Record`. -/
def deleteRecord (port : Json) : Json :=
  match port with
  | .obj pl => .obj (jsObjDelete pl "Record")
  | o => o

/-- `port.Record = recObj`. -/
def setRecord (recObj : Json) (port : Json) : Json :=
  match port with
  | .obj pl => .obj (jsObjSet pl "Record" recObj)
  | o => o

/-- Rebuild `node.Ports.$values` after its ports were mutated in place. -/
def setPortsValues (node : Json) (ps : List Json) : Json :=
  match node with
  | .obj ol =>
    match ol.lookup "Ports" with
    | some (.obj pol) => .obj (jsObjSet ol "Ports" (.obj (jsObjSet pol "$values" (.arr ps))))
    | _ => node
  | _ => node

/-- The name test `p.Name === portName`. -/
def portNameIs (portName : String) (p : Json) : Bool :=
  jsOptEqStr (jsGet p "Name") portName

/-- Clear every Record with `Record?.From === nodeId` on the ports of one
node of the `removeNode` scan, skipping the node when it is falsy or its
`Id` field strictly equals `nodeId`; a truthy non-iterable `Ports.$values`
raises `TypeError` before any port of that node is touched. -/
def clearFromRecords (nodeId : Int) (node : Json) : Option String × Json :=
  if !(jsTruthy node) || jsOptEqInt (jsGet node "Id") nodeId then (none, node)
  else
    match jsChain (jsGet node "Ports") "$values" with
    | none => (none, node)
    | some pv =>
      if !(jsTruthy pv) then (none, node)
      else match pv with
        | .arr ps =>
          let ps2 := ps.map (fun port =>
            if jsOptEqInt (jsChain (jsGet port "Record") "From") nodeId then deleteRecord port
            else port)
          (none, setPortsValues node (ps2))
        | .str _ => (none, node)
        | _ => (some "TypeError", node)

/-- The record-clearing loop of `removeNode` over all node entries; on a
`TypeError` the loop stops, leaving the remaining entries untouched. -/
def clearAllFromRecords (nodeId : Int) (nl : List (String × Json)) :
    Option String × List (String × Json) :=
  nl.foldl (fun acc kv =>
    match acc.1 with
    | some _ => (acc.1, acc.2 ++ [kv])
    | none =>
      let r := clearFromRecords nodeId kv.2
      (r.1, acc.2 ++ [(kv.1, r.2)])) (none, [])

/-- `removeNode`: fail `NotFound` when `tf.nodes[String(nodeId)]` is
absent or falsy; otherwise clear in every node any Record whose `From`
strictly equals the removed id (skipping nodes whose `Id` field equals
it), delete the entry, and reset the selected-node pointer when it
pointed at the removed node.  The error component is `some msg` exactly
when the original throws; the state component is the document the
original leaves behind. -/
def removeNode (tf : TerrainFile) (nodeId : Int) : Option String × TerrainFile :=
  let key := intToString nodeId
  match jsGet tf.nodesVal key with
  | none => (some ("Node " ++ key ++ " not found"), tf)
  | some nv =>
    if !(jsTruthy nv) then (some ("Node " ++ key ++ " not found"), tf)
    else
      let r := clearAllFromRecords nodeId tf.nodesObj
      match r.1 with
      | some e => (some e, tf.withNodes r.2)
      | none =>
        let tf2 := tf.withNodes (jsObjDelete r.2 key)
        (none, { tf2 with raw := updateSelected tf2.raw nodeId })

/-- The Connection Record literal `connectNodes` writes onto the
destination port (`IsValid = true`, `$id` freshly allocated against the
document). -/
def connRecord (tf : TerrainFile) (fromId toId : Int)
    (fromPortName toPortName : String) : Json :=
  Json.obj [("$id", .str (allocate (createIdAlloc tf.raw)).1),
    ("From", .num (.ofInt fromId)), ("To", .num (.ofInt toId)),
    ("FromPort", .str fromPortName), ("ToPort", .str toPortName),
    ("IsValid", .bool true)]

/-- `connectNodes`: after the four existence checks, unconditionally
overwrite the destination port Record with a fresh one (`IsValid = true`)
whose `$id` is newly allocated against the document. -/
def connectNodes (tf : TerrainFile) (fromId : Int) (fromPortName : String)
    (toId : Int) (toPortName : String) : Option String × TerrainFile :=
  let toKey := intToString toId
  let fromKey := intToString fromId
  match jsGet tf.nodesVal toKey with
  | none => (some ("Destination node " ++ toKey ++ " not found"), tf)
  | some toNode =>
    if !(jsTruthy toNode) then (some ("Destination node " ++ toKey ++ " not found"), tf)
    else match jsGet tf.nodesVal fromKey with
    | none => (some ("Source node " ++ fromKey ++ " not found"), tf)
    | some fromNode =>
      if !(jsTruthy fromNode) then (some ("Source node " ++ fromKey ++ " not found"), tf)
      else match portsArr fromNode with
      | .error e => (some e, tf)
      | .ok fromPorts =>
        if (fromPorts.find? (portNameIs fromPortName)).isNone then
          (some ("Port \"" ++ fromPortName ++ "\" not found on node " ++ fromKey), tf)
        else match portsArr toNode with
        | .error e => (some e, tf)
        | .ok toPorts =>
          if (toPorts.find? (portNameIs toPortName)).isNone then
            (some ("Port \"" ++ toPortName ++ "\" not found on node " ++ toKey), tf)
          else
            let recObj := connRecord tf fromId toId fromPortName toPortName
            let ps2 := setFirstWhere (portNameIs toPortName) (setRecord recObj) toPorts
            (none, tf.withNodes (jsObjSet tf.nodesObj toKey (setPortsValues toNode ps2)))

/-- `disconnectPort`: fail `NotFound` when the node or port is absent,
fail `AlreadyDisconnected` when the port has no (truthy) Record,
otherwise delete the Record. -/
def disconnectPort (tf : TerrainFile) (nodeId : Int) (portName : String) :
    Option String × TerrainFile :=
  let key := intToString nodeId
  match jsGet tf.nodesVal key with
  | none => (some ("Node " ++ key ++ " not found"), tf)
  | some node =>
    if !(jsTruthy node) then (some ("Node " ++ key ++ " not found"), tf)
    else match portsArr node with
    | .error e => (some e, tf)
    | .ok ports =>
      match ports.find? (portNameIs portName) with
      | none => (some ("Port \"" ++ portName ++ "\" not found on node " ++ key), tf)
      | some port =>
        match jsGet port "Record" with
        | none => (some ("Port \"" ++ portName ++ "\" on node " ++ key ++ " is not connected"), tf)
        | some r =>
          if !(jsTruthy r) then
            (some ("Port \"" ++ portName ++ "\" on node " ++ key ++ " is not connected"), tf)
          else
            let ps2 := setFirstWhere (portNameIs portName) deleteRecord ports
            (none, tf.withNodes (jsObjSet tf.nodesObj key (setPortsValues node ps2)))

/-- `setNodeProperty`: fail `NotFound` when the node is absent or falsy,
otherwise `node[property] = value` with no schema or reserved-key guard. -/
def setNodeProperty (tf : TerrainFile) (nodeId : Int) (property : String)
    (value : Json) : Option String × TerrainFile :=
  let key := intToString nodeId
  match jsGet tf.nodesVal key with
  | none => (some ("Node " ++ key ++ " not found"), tf)
  | some node =>
    if !(jsTruthy node) then (some ("Node " ++ key ++ " not found"), tf)
    else match node with
    | .obj ol => (none, tf.withNodes (jsObjSet tf.nodesObj key (.obj (jsObjSet ol property value))))
    | _ => (some "TypeError", tf)

/-- One entry of the `portSchema` handed to `addNode` (`PortDef`). -/
structure PortDef where
  name : String
  type : String

/-- Whether a character counts for the `\\w` class of the short-name
regular expression. -/
def isWordChar (c : Char) : Bool := c.isAlphanum || c == '_'

/-- Left-to-right scan for the first match of `\\.(\\w+),`: a dot,
then a non-empty greedy run of word characters, then a comma; yields the
captured run. -/
def shortTypeScan : List Char → Option String
  | [] => none
  | '.' :: rest =>
    let run := rest.takeWhile isWordChar
    if run ≠ [] ∧ (rest.drop run.length).head? = some ',' then some (String.mk run)
    else shortTypeScan rest
  | _ :: rest => shortTypeScan rest

/-- `extractShortType`: the regex capture, or the full string when the
pattern does not occur. -/
def extractShortType (dotnetType : String) : String :=
  match shortTypeScan dotnetType.data with
  | some t => t
  | none => dotnetType

/-- Build one Port object of `addNode` (allocating its `$id`). -/
def buildPort (nodeRefId : String) (a : Int) (pd : PortDef) : Json × Int :=
  let p := allocate a
  (Json.obj [("$id", .str p.1), ("Name", .str pd.name), ("Type", .str pd.type),
    ("IsExporting", .bool true), ("Parent", .obj [("$ref", .str nodeRefId)])], p.2)

/-- Build the `$values` array of Ports (threading the allocator). -/
def buildPorts (nodeRefId : String) (portDefs : List PortDef) (a : Int) :
    List Json × Int :=
  portDefs.foldl (fun acc pd =>
    let r := buildPort nodeRefId acc.2 pd
    (acc.1 ++ [r.1], r.2)) ([], a)

/-- The running maximum of the numeric node-mapping keys
(`parseInt(key, 10)`, `NaN` ignored), starting from 0 — the
`maxNodeId` loop of `addNode`. -/
def maxNodeKey (nl : List (String × Json)) : Int :=
  nl.foldl (fun acc kv =>
    match jsParseInt kv.1 with
    | some n => if acc < n then n else acc
    | none => acc) 0

/-- The node object literal built by `addNode`: `$id`, `$type`, the
spread initial properties, then the fixed keys `Id`, `Name`, `Position`,
`Ports` and `Modifiers` (a later duplicate key in a JS object literal
overwrites the value); reference ids are allocated in source order
starting from `a0`. -/
def builtNode (a0 : Int) (dotnetType : String) (portDefs : List PortDef)
    (nameOpt : Option String) (posOpt : Option (Int × Int))
    (props : List (String × Json)) (nodeId : Int) : Json :=
  let r1 := allocate a0
  let nodeRefId := r1.1
  let shortName := extractShortType dotnetType
  let rPorts := buildPorts nodeRefId portDefs r1.2
  let rPos := allocate rPorts.2
  let rPortsId := allocate rPos.2
  let rMods := allocate rPortsId.2
  let base := props.foldl (fun acc kv => jsObjSet acc kv.1 kv.2)
    (jsObjSet (jsObjSet [] "$id" (.str nodeRefId)) "$type" (.str dotnetType))
  Json.obj (jsObjSet (jsObjSet (jsObjSet (jsObjSet (jsObjSet base
    "Id" (.num (.ofInt nodeId)))
    "Name" (.str (nameOpt.getD shortName)))
    "Position" (.obj [("$id", .str rPos.1),
      ("X", .num (.ofInt ((posOpt.map Prod.fst).getD 26500))),
      ("Y", .num (.ofInt ((posOpt.map Prod.snd).getD 26250)))]))
    "Ports" (.obj [("$id", .str rPortsId.1), ("$values", .arr rPorts.1)]))
    "Modifiers" (.obj [("$id", .str rMods.1), ("$values", .arr [])]))

/-- `addNode`: allocate a fresh reference id chain, pick
`max(existing numeric node keys) + 1` as the node id, build the node
object, insert it under `String(nodeId)` and return the id.  The error
case is the strict-mode `TypeError` of inserting into a non-object
nodes value. -/
def addNode (tf : TerrainFile) (dotnetType : String) (portDefs : List PortDef)
    (nameOpt : Option String) (posOpt : Option (Int × Int))
    (props : List (String × Json)) : Except String (TerrainFile × Int) :=
  let a0 := createIdAlloc tf.raw
  match tf.nodesVal with
  | .obj nl =>
    let nodeId := maxNodeKey nl + 1
    .ok (tf.withNodes (jsObjSet nl (intToString nodeId)
      (builtNode a0 dotnetType portDefs nameOpt posOpt props nodeId)), nodeId)
  | _ => .error "TypeError"

/-- The standard attached shape of a loaded document along the
`Assets.$values[0].Terrain.Nodes` path. -/
def attachedOk (raw : Json) : Prop :=
  ∃ rl al a0l rest tl nv,
    raw = Json.obj rl
    ∧ rl.lookup "Assets" = some (.obj al)
    ∧ al.lookup "$values" = some (.arr (.obj a0l :: rest))
    ∧ a0l.lookup "Terrain" = some (.obj tl)
    ∧ tl.lookup "Nodes" = some nv
    ∧ jsNullish nv = false

/-- Well-shapedness of a `TerrainFile`: when the nodes shortcut is an
alias (not detached), the raw tree has the standard path it aliases
into.  Every state reachable from a successful load satisfies this. -/
def stdShape (tf : TerrainFile) : Prop :=
  tf.detached = none → attachedOk tf.raw

-- ═══════════════ The JSON.parse model ═══════════════

/-- Skip JSON whitespace. -/
def skipWs (l : List Char) : List Char := l.dropWhile wsChar

/-- Value of a hexadecimal digit character. -/
def hexVal (c : Char) : Option Nat :=
  if c.isDigit then some (c.toNat - 48)
  else if 'a' ≤ c && c ≤ 'f' then some (c.toNat - 87)
  else if 'A' ≤ c && c ≤ 'F' then some (c.toNat - 55)
  else none

/-- The character named by a single-character JSON escape. -/
def unescChar (c : Char) : Option Char :=
  if c = '"' then some '"'
  else if c = '\\' then some '\\'
  else if c = '/' then some '/'
  else if c = 'b' then some '\x08'
  else if c = 'f' then some '\x0C'
  else if c = 'n' then some '\n'
  else if c = 'r' then some '\r'
  else if c = 't' then some '\t'
  else none

/-- JSON string-body parsing, after the opening quote: the decoded
characters and the input following the closing quote. -/
def parseStrAux : List Char → Option (List Char × List Char)
  | [] => none
  | '"' :: rest => some ([], rest)
  | '\\' :: 'u' :: a :: b :: c :: d :: rest =>
    match hexVal a, hexVal b, hexVal c, hexVal d with
    | some ha, some hb, some hc, some hd =>
      match parseStrAux rest with
      | some (s, r) => some (Char.ofNat (((ha * 16 + hb) * 16 + hc) * 16 + hd) :: s, r)
      | none => none
    | _, _, _, _ => none
  | '\\' :: e :: rest =>
    match unescChar e with
    | some ch =>
      match parseStrAux rest with
      | some (s, r) => some (ch :: s, r)
      | none => none
    | none => none
  | c :: rest =>
    if c.toNat < 32 then none
    else
      match parseStrAux rest with
      | some (s, r) => some (c :: s, r)
      | none => none

/-- Numeric value of a digit run. -/
def digitsVal (l : List Char) : Nat :=
  l.foldl (fun acc c => acc * 10 + (c.toNat - 48)) 0

/-- The digits of an exponent, after `e` or `E`. -/
def parseExpTail (r : List Char) : Option (Int × List Char) :=
  let p :=
    match r with
    | '+' :: t => (false, t)
    | '-' :: t => (true, t)
    | _ => (false, r)
  let ds := p.2.takeWhile Char.isDigit
  if ds = [] then none
  else some (if p.1 then -(digitsVal ds : Int) else (digitsVal ds : Int),
    p.2.dropWhile Char.isDigit)

/-- The optional exponent part of a JSON number (0 when absent). -/
def parseExpPart (input : List Char) : Option (Int × List Char) :=
  match input with
  | 'e' :: r => parseExpTail r
  | 'E' :: r => parseExpTail r
  | _ => some (0, input)

/-- JSON number parsing after the sign: the integer digit run `ds`
(checked non-empty and without leading zeros), the rest `r2`, an
optional fraction, an optional exponent, collected into an exact
decimal. -/
def parseNumFrom (neg : Bool) (ds r2 : List Char) : Option (Dec × List Char) :=
  if ds = [] then none
  else if 1 < ds.length && ds.head? == some '0' then none
  else
    match r2 with
    | '.' :: r3 =>
      if r3.takeWhile Char.isDigit = [] then none
      else
        match parseExpPart (r3.dropWhile Char.isDigit) with
        | some (ex, r5) =>
          some (⟨if neg then -(digitsVal (ds ++ r3.takeWhile Char.isDigit) : Int)
              else (digitsVal (ds ++ r3.takeWhile Char.isDigit) : Int),
            ex - (r3.takeWhile Char.isDigit).length⟩, r5)
        | none => none
    | _ =>
      match parseExpPart r2 with
      | some (ex, r5) =>
        some (⟨if neg then -(digitsVal ds : Int) else (digitsVal ds : Int), ex⟩, r5)
      | none => none

/-- JSON number parsing, from the first character of the number:
optional minus sign, then `parseNumFrom` on the digit run. -/
def parseNumAux : List Char → Option (Dec × List Char)
  | '-' :: t => parseNumFrom true (t.takeWhile Char.isDigit) (t.dropWhile Char.isDigit)
  | input => parseNumFrom false (input.takeWhile Char.isDigit) (input.dropWhile Char.isDigit)

mutual

/-- `JSON.parse`, value level, with fuel: skip whitespace, parse one
JSON value, return it and the remaining input. -/
def parseVal : Nat → List Char → Option (Json × List Char)
  | 0, _ => none
  | fuel + 1, input =>
    match skipWs input with
    | 'n' :: 'u' :: 'l' :: 'l' :: r => some (.null, r)
    | 't' :: 'r' :: 'u' :: 'e' :: r => some (.bool true, r)
    | 'f' :: 'a' :: 'l' :: 's' :: 'e' :: r => some (.bool false, r)
    | '"' :: r =>
      match parseStrAux r with
      | some (s, r2) => some (.str (String.mk s), r2)
      | none => none
    | '[' :: r =>
      match skipWs r with
      | ']' :: r2 => some (.arr [], r2)
      | r2 =>
        match parseElems fuel r2 with
        | some (xs, r3) => some (.arr xs, r3)
        | none => none
    | '\x7b' :: r =>
      match skipWs r with
      | '\x7d' :: r2 => some (.obj [], r2)
      | r2 =>
        match parseMembers fuel [] r2 with
        | some (l, r3) => some (.obj l, r3)
        | none => none
    | c :: r =>
      if c = '-' || c.isDigit then
        match parseNumAux (c :: r) with
        | some (d, r2) => some (.num d, r2)
        | none => none
      else none
    | [] => none

/-- The element loop of a JSON array: one value, then either a comma
and more elements or the closing bracket. -/
def parseElems : Nat → List Char → Option (List Json × List Char)
  | 0, _ => none
  | fuel + 1, input =>
    match parseVal fuel input with
    | none => none
    | some (v, r) =>
      match skipWs r with
      | ',' :: r2 =>
        match parseElems fuel r2 with
        | some (xs, r3) => some (v :: xs, r3)
        | none => none
      | ']' :: r2 => some ([v], r2)
      | _ => none

/-- The member loop of a JSON object: a quoted key, a colon, a value —
inserted with JS object-key semantics — then either a comma and more
members or the closing brace. -/
def parseMembers : Nat → List (String × Json) → List Char →
    Option (List (String × Json) × List Char)
  | 0, _, _ => none
  | fuel + 1, acc, input =>
    match skipWs input with
    | '"' :: r =>
      match parseStrAux r with
      | none => none
      | some (k, r2) =>
        match skipWs r2 with
        | ':' :: r3 =>
          match parseVal fuel r3 with
          | none => none
          | some (v, r4) =>
            match skipWs r4 with
            | ',' :: r5 => parseMembers fuel (jsObjSet acc (String.mk k) v) r5
            | '\x7d' :: r5 => some (jsObjSet acc (String.mk k) v, r5)
            | _ => none
        | _ => none
    | _ => none

end

/-- `JSON.parse`: parse one value and require only whitespace after it. -/
def parseText (s : String) : Option Json :=
  match parseVal (s.data.length + 1) s.data with
  | some (v, r) => if skipWs r = [] then some v else none
  | none => none

/-- The tree produced by re-parsing serialized output: each object is
rebuilt by inserting its serialized entries, in serialized order, with
JS object-key insertion semantics. -/
def canonJson : Json → Json
  | .null => .null
  | .bool b => .bool b
  | .num d => .num d
  | .str s => .str s
  | .arr xs => .arr (xs.attach.map (fun p => canonJson p.1))
  | .obj l => .obj ((orderedEntries l).attach.foldl
      (fun acc p => jsObjSet acc p.1.1 (canonJson p.1.2)) [])
decreasing_by
  · rcases p with ⟨v1, hv⟩
    have h := List.sizeOf_lt_of_mem hv
    simp at h ⊢; omega
  · rcases p with ⟨⟨k1, v1⟩, hv⟩
    have h := List.sizeOf_lt_of_mem (mem_of_mem_orderedEntries hv)
    simp at h ⊢; omega

/-- Fuel sufficient to parse a serialized value: one unit per value plus
one per element or member step. -/
def jsonWeight : Json → Nat
  | .arr xs => 1 + (xs.attach.map (fun p => 1 + jsonWeight p.1)).sum
  | .obj l => 1 + ((orderedEntries l).attach.map (fun p => 1 + jsonWeight p.1.2)).sum
  | _ => 1
decreasing_by
  · rcases p with ⟨v1, hv⟩
    have h := List.sizeOf_lt_of_mem hv
    simp at h ⊢; omega
  · rcases p with ⟨⟨k1, v1⟩, hv⟩
    have h := List.sizeOf_lt_of_mem (mem_of_mem_orderedEntries hv)
    simp at h ⊢; omega

/-- Key well-ordering of a JS object: keys are distinct and no later
key enumerates before an earlier one (array-index keys ascending and
before all other keys). -/
def pairwiseKeys : List (String × Json) → Bool
  | [] => true
  | (k, _) :: rest =>
    rest.all (fun q => !jsKeyBefore q.1 k && q.1 != k) && pairwiseKeys rest

/-- Boolean decimal normal-form test. -/
def decNormalB (d : Dec) : Bool :=
  decide (d.e ≤ 0) && (d.m != 0 || d.e == 0) && (d.e == 0 || d.m % 10 != 0)

/-- The invariant of every in-memory tree obtained from `JSON.parse`:
objects carry their keys in JS enumeration order without duplicates,
and numbers are decimals in normal form. -/
def goodJson : Json → Bool
  | .num d => decNormalB d
  | .arr xs => xs.attach.all (fun p => goodJson p.1)
  | .obj l => pairwiseKeys l && l.attach.all (fun p => goodJson p.1.2)
  | _ => true
decreasing_by
  · rcases p with ⟨v1, hv⟩
    have h := List.sizeOf_lt_of_mem hv
    simp at h ⊢; omega
  · rcases p with ⟨⟨k1, v1⟩, hv⟩
    have h := List.sizeOf_lt_of_mem hv
    simp at h ⊢; omega

/-- Structural identity of two JSON trees: equal atoms, pointwise equal
arrays, and objects equal as key-value maps (the enumeration order of
keys is not part of the structure). -/
def jsonEquiv : Json → Json → Bool
  | .null, .null => true
  | .bool a, .bool b => a == b
  | .num a, .num b => a == b
  | .str a, .str b => a == b
  | .arr xs, .arr ys =>
    xs.length == ys.length
      && (xs.zip ys).attach.all (fun p => jsonEquiv p.1.1 p.1.2)
  | .obj l1, .obj l2 =>
    (l1.attach.all (fun p =>
      match l2.lookup p.1.1 with
      | some w => jsonEquiv p.1.2 w
      | none => false))
      && l2.all (fun q => (l1.lookup q.1).isSome)
  | _, _ => false
termination_by a _ => sizeOf a
decreasing_by
  · rcases p with ⟨⟨x, y⟩, hv⟩
    have h := List.sizeOf_lt_of_mem (List.of_mem_zip hv).1
    simp at h ⊢; omega
  · rcases p with ⟨⟨k1, v1⟩, hv⟩
    have h := List.sizeOf_lt_of_mem hv
    simp at h ⊢; omega

/-- `readTerrain` on file text: `JSON.parse`, the `Assets.$values[0]`
and `Terrain` truthiness checks, and the `Nodes ?? \x7b\x7d` fallback
deciding whether the nodes shortcut aliases the tree or a fresh
detached object. -/
def readText (text : String) : Option TerrainFile :=
  match parseText text with
  | none => none
  | some raw =>
    match assetOf raw with
    | none => none
    | some a =>
      if jsTruthy a = false then none
      else
        match jsGet a "Terrain" with
        | none => none
        | some t =>
          if jsTruthy t = false then none
          else
            match jsGet t "Nodes" with
            | none => some ⟨raw, some []⟩
            | some nv => if jsNullish nv then some ⟨raw, some []⟩ else some ⟨raw, none⟩

/-- `.replace("T", " ")` for a single-character pattern: replace the
first occurrence. -/
def replaceFirstChar (c r : Char) : List Char → List Char
  | [] => []
  | x :: xs => if x = c then r :: xs else x :: replaceFirstChar c r xs

/-- `.replace(/\.\d+Z$/, "Z")`: when the string ends in a dot, a
non-empty digit run and `Z`, drop the dot and the digits. -/
def stripFractionZ (cs : List Char) : List Char :=
  match cs.reverse with
  | 'Z' :: rest =>
    if (rest.takeWhile Char.isDigit) ≠ []
        ∧ (rest.drop (rest.takeWhile Char.isDigit).length).head? = some '.' then
      ('Z' :: rest.drop ((rest.takeWhile Char.isDigit).length + 1)).reverse
    else cs
  | _ => cs

/-- The timestamp written by `writeTerrain`:
`new Date().toISOString().replace("T", " ").replace(/\.\d+Z$/, "Z")`,
as a function of the ISO string the clock produced. -/
def formatNow (iso : String) : String :=
  String.mk (stripFractionZ (replaceFirstChar 'T' ' ' iso.data))

/-- Rebuild `raw` with
`raw.Assets.$values[0].Terrain.Metadata.DateLastSaved = now`. -/
def setTerrainMetaRaw (raw : Json) (now : String) : Json :=
  match raw with
  | .obj rl =>
    match rl.lookup "Assets" with
    | some (.obj al) =>
      match al.lookup "$values" with
      | some (.arr (a0 :: rest)) =>
        match a0 with
        | .obj a0l =>
          match a0l.lookup "Terrain" with
          | some (.obj tl) =>
            match tl.lookup "Metadata" with
            | some (.obj ml) =>
              .obj (jsObjSet rl "Assets" (.obj (jsObjSet al "$values" (.arr (
                (.obj (jsObjSet a0l "Terrain" (.obj (jsObjSet tl "Metadata"
                  (.obj (jsObjSet ml "DateLastSaved" (.str now))))))) :: rest)))))
            | _ => raw
          | _ => raw
        | _ => raw
      | _ => raw
    | _ => raw
  | _ => raw

/-- The `tf.terrain` shortcut recomputed from the raw tree. -/
def terrainValOf (raw : Json) : Option Json :=
  match assetOf raw with
  | none => none
  | some a => jsGet a "Terrain"

/-- `if (tf.terrain.Metadata) tf.terrain.Metadata.DateLastSaved = now`;
`none` models the strict-mode `TypeError` of assigning a property on a
truthy primitive. -/
def stampTerrainMeta (now : String) (raw : Json) : Option Json :=
  match terrainValOf raw with
  | none => some raw
  | some t =>
    match jsGet t "Metadata" with
    | none => some raw
    | some mv =>
      if jsTruthy mv then
        match mv with
        | .obj _ => some (setTerrainMetaRaw raw now)
        | _ => none
      else some raw

/-- Rebuild `raw` with `raw.Metadata.DateLastSaved = now`. -/
def setOuterMetaRaw (raw : Json) (now : String) : Json :=
  match raw with
  | .obj rl =>
    match rl.lookup "Metadata" with
    | some (.obj ml) =>
      .obj (jsObjSet rl "Metadata" (.obj (jsObjSet ml "DateLastSaved" (.str now))))
    | _ => raw
  | _ => raw

/-- `if (tf.raw.Metadata) tf.raw.Metadata.DateLastSaved = now`. -/
def stampOuterMeta (now : String) (raw : Json) : Option Json :=
  match jsGet raw "Metadata" with
  | none => some raw
  | some mv =>
    if jsTruthy mv then
      match mv with
      | .obj _ => some (setOuterMetaRaw raw now)
      | _ => none
    else some raw

/-- The timestamp-update step of `writeTerrain`. -/
def stampRaw (now : String) (raw : Json) : Option Json :=
  (stampTerrainMeta now raw).bind (stampOuterMeta now)

/-- `writeTerrain` as a text producer: update the two timestamps, then
serialize the raw tree (the file contents written to disk). -/
def writeText (nowIso : String) (tf : TerrainFile) : Option String :=
  (stampRaw (formatNow nowIso) tf.raw).map serializeJson

/-- The shape of `new Date().toISOString()` output (for years 0–9999):
a 10-character date of digits and dashes, `T`, an 8-character time of
digits and colons, a dot, a non-empty digit millisecond field, `Z`. -/
def isoShape (s : String) : Prop :=
  ∃ (d t ms : List Char),
    s.data = d ++ 'T' :: (t ++ '.' :: (ms ++ ['Z']))
    ∧ d.length = 10 ∧ t.length = 8 ∧ ms ≠ []
    ∧ (∀ c ∈ d, c.isDigit = true ∨ c = '-')
    ∧ (∀ c ∈ t, c.isDigit = true ∨ c = ':')
    ∧ (∀ c ∈ ms, c.isDigit = true)

/-- A concrete one-node document (detached nodes object) used by the
failure witnesses: node "1" has a single unconnected port "In". -/
def tfC7 : TerrainFile :=
  { raw := Json.obj [("$id", .str "1")],
    detached := some [("1", Json.obj [("Id", .num (.ofInt 1)),
      ("Ports", .obj [("$values", .arr [Json.obj [("Name", .str "In")]])])])] }

/-- A concrete empty document (zero nodes). -/
def tfEmpty : TerrainFile :=
  { raw := Json.obj [("$id", .str "1")], detached := some [] }

/-- Concrete ports and three-node document for the C4 witness. -/
def portOut : Json := Json.obj [("Name", .str "Out")]

def portIn : Json := Json.obj [("Name", .str "In")]

def tfC4 : TerrainFile :=
  { raw := Json.obj [("$id", .str "1")],
    detached := some [
      ("1", Json.obj [("Id", .num (.ofInt 1)), ("Ports", .obj [("$values", .arr [portOut])])]),
      ("2", Json.obj [("Id", .num (.ofInt 2)), ("Ports", .obj [("$values", .arr [portIn])])]),
      ("3", Json.obj [("Id", .num (.ofInt 3)), ("Ports", .obj [("$values", .arr [portOut])])])] }

/-- The Connection Records attached to the ports of one node (the
`Record` fields of the elements of `Ports.$values`). -/
def recordsOfNode (v : Json) : List Json :=
  match jsChain (jsGet v "Ports") "$values" with
  | some (.arr ps) => ps.filterMap (fun p => jsGet p "Record")
  | _ => []

/-- Whether any Connection Record on any port of any node of the
document has `From === k`. -/
def hasRecordFrom (tf : TerrainFile) (k : Int) : Bool :=
  tf.nodesObj.any (fun kv =>
    (recordsOfNode kv.2).any (fun r => jsOptEqInt (jsGet r "From") k))

/-- A document in which the entry under key "2" falsely declares
`Id = 1` and holds a Record with `From = 1`. -/
def tfC2 : TerrainFile :=
  { raw := Json.obj [("$id", .str "1")],
    detached := some [
      ("1", Json.obj [("Id", .num (.ofInt 1))]),
      ("2", Json.obj [("Id", .num (.ofInt 1)),
        ("Ports", .obj [("$values", .arr [Json.obj [("Name", .str "In"),
          ("Record", .obj [("From", .num (.ofInt 1)), ("IsValid", .bool true)])]])])])] }

/-- A minimal well-formed document for the C8 witness: both metadata
objects carry an old `DateLastSaved`. -/
def tfC8 : TerrainFile :=
  { raw := Json.obj [("$id", .str "1"),
      ("Assets", .obj [("$values", .arr [Json.obj [("Terrain",
        .obj [("Metadata", .obj [("DateLastSaved", .str "old")])])]])]),
      ("Metadata", .obj [("DateLastSaved", .str "old")])],
    detached := none }

/-- The characters that may legally follow a serialized number (so that
the number parse stops exactly there). -/
def numStop (rest : List Char) : Prop :=
  ∀ c r, rest = c :: r → c.isDigit = false ∧ ¬ c = '.' ∧ ¬ c = 'e' ∧ ¬ c = 'E'

/-- A minimal well-formed document for the C1 witness: the standard
shape, both metadata objects carrying an old `DateLastSaved`, and a
(present, empty) node mapping. -/
def tfC1 : TerrainFile :=
  { raw := Json.obj [("$id", .str "1"),
      ("Assets", .obj [("$values", .arr [Json.obj [("Terrain",
        .obj [("Metadata", .obj [("DateLastSaved", .str "old")]),
              ("Nodes", .obj [])])]])]),
      ("Metadata", .obj [("DateLastSaved", .str "old")])],
    detached := none }

-- ═══════════════ Supporting lemmas: digits and parseInt ═══════════════


theorem digitChar_toNat {d : Nat} (h : d < 10) : (digitChar d).toNat = 48 + d := by
  interval_cases d <;> rfl

theorem digitChar_isDigit (d : Nat) : (digitChar d).isDigit = true := by
  unfold digitChar
  split <;> decide

theorem natDigitsAux_zero (fuel : Nat) : natDigitsAux fuel 0 = [] := by
  cases fuel <;> simp [natDigitsAux]

theorem natDigitsAux_spec (fuel : Nat) : ∀ n, 0 < n → n ≤ fuel →
    (∀ c ∈ natDigitsAux fuel n, c.isDigit = true)
    ∧ natDigitsAux fuel n ≠ []
    ∧ (∀ (a : Nat), (natDigitsAux fuel n).foldl (fun acc c => acc * 10 + (c.toNat - 48)) a
        = a * 10 ^ (natDigitsAux fuel n).length + n) := by
  induction fuel with
  | zero => intro n h1 h2; omega
  | succ fuel ih =>
    intro n h1 h2
    rw [natDigitsAux, if_neg (by omega)]
    by_cases hq : n / 10 = 0
    · rw [hq, natDigitsAux_zero]
      have h10 : n < 10 := by
        by_contra hcon
        have := Nat.div_le_div_right (c := 10) (Nat.le_of_not_lt hcon)
        simp at this
        omega
      have hm : n % 10 = n := Nat.mod_eq_of_lt h10
      refine ⟨?_, by simp, ?_⟩
      · intro c hcm
        simp at hcm
        subst hcm
        exact digitChar_isDigit _
      · intro a
        simp only [List.nil_append, List.foldl_cons, List.foldl_nil, List.length_cons,
          List.length_nil, pow_one]
        rw [digitChar_toNat (show n % 10 < 10 by omega)]
        omega
    · have hq1 : 0 < n / 10 := Nat.pos_of_ne_zero hq
      have hq2 : n / 10 ≤ fuel := by
        have := Nat.div_lt_self h1 (by norm_num : 1 < 10)
        omega
      obtain ⟨ha, hb, hc⟩ := ih (n / 10) hq1 hq2
      refine ⟨?_, by simp, ?_⟩
      · intro c hcm
        rcases List.mem_append.mp hcm with hm | hm
        · exact ha c hm
        · simp at hm
          subst hm
          exact digitChar_isDigit _
      · intro a
        rw [List.foldl_append]
        simp only [List.foldl_cons, List.foldl_nil]
        rw [hc a, digitChar_toNat (show n % 10 < 10 by omega)]
        simp only [List.length_append, List.length_cons, List.length_nil]
        have h48 : 48 + n % 10 - 48 = n % 10 := by omega
        rw [h48, pow_succ]
        have hdm := Nat.div_add_mod n 10
        calc (a * 10 ^ (natDigitsAux fuel (n / 10)).length + n / 10) * 10 + n % 10
            = a * (10 ^ (natDigitsAux fuel (n / 10)).length * 10) + (10 * (n / 10) + n % 10) := by ring
          _ = a * (10 ^ (natDigitsAux fuel (n / 10)).length * 10) + n := by rw [hdm]
          _ = a * 10 ^ ((natDigitsAux fuel (n / 10)).length + (1 + 0)) + n := by
                rw [pow_add, pow_one]

theorem foldl_natDigits (n : Nat) :
    (natDigits n).foldl (fun acc c => acc * 10 + (c.toNat - 48)) 0 = n := by
  unfold natDigits
  split
  · next h => subst h; decide
  · next h =>
    obtain ⟨-, -, hc⟩ := natDigitsAux_spec n n (Nat.pos_of_ne_zero h) (le_refl n)
    rw [hc 0]
    simp

theorem natDigits_ne_nil (n : Nat) : natDigits n ≠ [] := by
  unfold natDigits
  split
  · simp
  · next h =>
    obtain ⟨-, hb, -⟩ := natDigitsAux_spec n n (Nat.pos_of_ne_zero h) (le_refl n)
    exact hb

theorem natDigits_all_digit (n : Nat) : ∀ c ∈ natDigits n, c.isDigit = true := by
  intro c hcm
  unfold natDigits at hcm
  split at hcm
  · simp at hcm; subst hcm; decide
  · next h =>
    obtain ⟨ha, -, -⟩ := natDigitsAux_spec n n (Nat.pos_of_ne_zero h) (le_refl n)
    exact ha c hcm

theorem digitRun_natDigits (n : Nat) : digitRun (natDigits n) = some n := by
  unfold digitRun
  rw [List.takeWhile_eq_self_iff.mpr (natDigits_all_digit n)]
  simp [natDigits_ne_nil n, foldl_natDigits n]

theorem wsChar_of_isDigit {c : Char} (h : c.isDigit = true) : wsChar c = false := by
  unfold wsChar
  simp only [Bool.or_eq_false_iff, beq_eq_false_iff_ne, ne_eq]
  refine ⟨⟨⟨?_, ?_⟩, ?_⟩, ?_⟩ <;> rintro rfl <;> exact absurd h (by decide)

theorem jsParseInt_natToString (n : Nat) : jsParseInt (natToString n) = some (n : Int) := by
  obtain ⟨c, t, hct⟩ := List.exists_cons_of_ne_nil (natDigits_ne_nil n)
  have hc : c.isDigit = true := natDigits_all_digit n c (by rw [hct]; exact List.mem_cons_self c t)
  have hdata : (natToString n).data = natDigits n := rfl
  unfold jsParseInt
  rw [hdata, hct, List.dropWhile_cons, wsChar_of_isDigit hc]
  simp only [Bool.false_eq_true, if_false]
  have h1 : ¬ (c = '-') := by rintro rfl; exact absurd hc (by decide)
  have h2 : ¬ (c = '+') := by rintro rfl; exact absurd hc (by decide)
  rw [if_neg h1, if_neg h2, ← hct, digitRun_natDigits n]
  rfl

theorem jsParseInt_intToString {n : Int} (h : 0 ≤ n) :
    jsParseInt (intToString n) = some n := by
  unfold intToString
  rw [if_neg (by omega)]
  rw [jsParseInt_natToString]
  congr 1
  omega

-- ═══════════════ Supporting lemmas: findMaxId and the allocator ═══════════════

theorem findMaxId_obj (l : List (String × Json)) :
    findMaxId (.obj l) = (l.map (fun x => findMaxId x.2)).foldl max (idStart l) := by
  rw [findMaxId]
  congr 1
  exact List.attach_map_val l (fun x => findMaxId x.2)

theorem findMaxId_arr (xs : List Json) :
    findMaxId (.arr xs) = (xs.map findMaxId).foldl max 0 := by
  rw [findMaxId]
  congr 1
  exact List.attach_map_val xs findMaxId

theorem any_map_id {α : Type} (l : List α) (f : α → Bool) :
    (l.map f).any id = l.any f := by
  induction l with
  | nil => rfl
  | cons a t ih =>
    simp only [List.map_cons, List.any_cons, ih]
    rfl

theorem idOccurs_obj (l : List (String × Json)) (s : String) :
    idOccurs (.obj l) s =
      ((match jsGet (Json.obj l) "$id" with
        | some (.str t) => t == s
        | _ => false)
       || l.any (fun x => idOccurs x.2 s)) := by
  rw [idOccurs]
  congr 1
  rw [List.attach_map_val l (fun x => idOccurs x.2 s)]
  exact any_map_id l (fun x => idOccurs x.2 s)

theorem idOccurs_arr (xs : List Json) (s : String) :
    idOccurs (.arr xs) s = xs.any (fun x => idOccurs x s) := by
  rw [idOccurs]
  rw [List.attach_map_val xs (fun x => idOccurs x s)]
  exact any_map_id xs (fun x => idOccurs x s)

theorem le_foldl_max (l : List Int) (a : Int) : a ≤ l.foldl max a := by
  induction l generalizing a with
  | nil => simp
  | cons x xs ih => exact le_trans (le_max_left a x) (ih (max a x))

theorem mem_le_foldl_max : ∀ {l : List Int} (a : Int) {x : Int}, x ∈ l → x ≤ l.foldl max a := by
  intro l
  induction l with
  | nil => intro a x hx; simp at hx
  | cons y ys ih =>
    intro a x hx
    rcases List.mem_cons.mp hx with rfl | h
    · exact le_trans (le_max_right a x) (le_foldl_max ys (max a x))
    · exact ih (max a y) h

theorem idStart_nonneg (l : List (String × Json)) : 0 ≤ idStart l := by
  unfold idStart
  split
  · split
    · split <;> omega
    · omega
  · omega

theorem findMaxId_nonneg (v : Json) : 0 ≤ findMaxId v := by
  cases v with
  | obj l => rw [findMaxId_obj]; exact le_trans (idStart_nonneg l) (le_foldl_max _ _)
  | arr xs => rw [findMaxId_arr]; exact le_foldl_max _ _
  | null => simp [findMaxId]
  | bool b => simp [findMaxId]
  | num d => simp [findMaxId]
  | str t => simp [findMaxId]

theorem idStart_ge {l : List (String × Json)} {s : String} {n : Int}
    (hid : (match jsGet (Json.obj l) "$id" with
            | some (.str t) => t == s
            | _ => false) = true)
    (hparse : jsParseInt s = some n) : n ≤ idStart l := by
  unfold idStart
  cases hjs : jsGet (Json.obj l) "$id" with
  | none => rw [hjs] at hid; simp at hid
  | some v =>
    cases v with
    | str t =>
      rw [hjs] at hid
      simp at hid
      subst hid
      simp only [hparse]
      split <;> omega

    | null => rw [hjs] at hid; simp at hid
    | bool b => rw [hjs] at hid; simp at hid
    | num d => rw [hjs] at hid; simp at hid
    | arr xs => rw [hjs] at hid; simp at hid
    | obj l2 => rw [hjs] at hid; simp at hid

theorem findMaxId_ge_aux (N : Nat) :
    ∀ (v : Json), sizeOf v ≤ N → ∀ (s : String) (n : Int),
      idOccurs v s = true → jsParseInt s = some n → n ≤ findMaxId v := by
  induction N with
  | zero =>
    intro v hv
    exfalso
    cases v <;> simp at hv
  | succ N ih =>
    intro v hv s n hocc hparse
    cases v with
    | obj l =>
      rw [idOccurs_obj] at hocc
      rw [findMaxId_obj]
      rcases Bool.or_eq_true_iff.mp hocc with hid | hany
      · exact le_trans (idStart_ge hid hparse) (le_foldl_max _ _)
      · obtain ⟨x, hxl, hx⟩ := List.any_eq_true.mp hany
        have hsz : sizeOf x.2 ≤ N := by
          have h1 := List.sizeOf_lt_of_mem hxl
          have h2 : sizeOf (Json.obj l) ≤ N + 1 := hv
          cases x with
          | mk k v2 => simp at h1 h2 ⊢; omega
        have := ih x.2 hsz s n hx hparse
        refine le_trans this (mem_le_foldl_max _ ?_)
        exact List.mem_map.mpr ⟨x, hxl, rfl⟩
    | arr xs =>
      rw [idOccurs_arr] at hocc
      rw [findMaxId_arr]
      obtain ⟨x, hxl, hx⟩ := List.any_eq_true.mp hocc
      have hsz : sizeOf x ≤ N := by
        have h1 := List.sizeOf_lt_of_mem hxl
        have h2 : sizeOf (Json.arr xs) ≤ N + 1 := hv
        simp at h1 h2 ⊢; omega
      have := ih x hsz s n hx hparse
      refine le_trans this (mem_le_foldl_max _ ?_)
      exact List.mem_map.mpr ⟨x, hxl, rfl⟩
    | null => simp [idOccurs] at hocc
    | bool b => simp [idOccurs] at hocc
    | num d => simp [idOccurs] at hocc
    | str t => simp [idOccurs] at hocc

theorem findMaxId_ge {v : Json} {s : String} {n : Int} (hocc : idOccurs v s = true)
    (hparse : jsParseInt s = some n) : n ≤ findMaxId v :=
  findMaxId_ge_aux (sizeOf v) v (le_refl _) s n hocc hparse

theorem allocIter_eq (a : Int) (k : Nat) : allocIter a k = a + k := by
  induction k generalizing a with
  | zero => simp [allocIter]
  | succ k ih =>
    rw [allocIter, ih]
    simp [allocate]
    omega

theorem allocNth_eq (root : Json) (k : Nat) :
    allocNth root k = intToString (findMaxId root + 1 + k) := by
  unfold allocNth allocate
  rw [allocIter_eq]
  rfl

-- ═══════════════ Claim C6 ═══════════════

/-- C6: an allocator constructed against a document captures
`findMaxId(document) + 1`; each `allocate()` call returns the current
value as a decimal string and increments it; no returned value was
present as a reference id (`$id`) anywhere in the document at
construction time; and successive returned values are strictly
increasing integers. -/
theorem claim_C6_allocator (root : Json) (j k : Nat) (hjk : j < k) :
    createIdAlloc root = findMaxId root + 1
    ∧ allocNth root k = intToString (findMaxId root + 1 + k)
    ∧ idOccurs root (allocNth root k) = false
    ∧ jsParseInt (allocNth root j) = some (findMaxId root + 1 + j)
    ∧ jsParseInt (allocNth root k) = some (findMaxId root + 1 + k)
    ∧ findMaxId root + 1 + (j : Int) < findMaxId root + 1 + (k : Int) := by
  have hnn := findMaxId_nonneg root
  have hparse : ∀ (i : Nat), jsParseInt (allocNth root i) = some (findMaxId root + 1 + i) := by
    intro i
    rw [allocNth_eq]
    exact jsParseInt_intToString (by omega)
  refine ⟨rfl, allocNth_eq root k, ?_, hparse j, hparse k, by omega⟩
  by_contra hocc
  rw [Bool.not_eq_false] at hocc
  have := findMaxId_ge hocc (hparse k)
  omega

/-- Witness for C6 at a concrete document and indices. -/
theorem claim_C6_allocator_witness :
    createIdAlloc Json.null = findMaxId Json.null + 1
    ∧ allocNth Json.null 1 = intToString (findMaxId Json.null + 1 + 1)
    ∧ idOccurs Json.null (allocNth Json.null 1) = false
    ∧ jsParseInt (allocNth Json.null 0) = some (findMaxId Json.null + 1 + 0)
    ∧ jsParseInt (allocNth Json.null 1) = some (findMaxId Json.null + 1 + 1)
    ∧ findMaxId Json.null + 1 + ((0 : Nat) : Int) < findMaxId Json.null + 1 + ((1 : Nat) : Int) :=
  claim_C6_allocator Json.null 0 1 (by decide)

-- ═══════════════ Claim C3: serializer key ordering ═══════════════

theorem lookup_isSome_eq_contains (l : List (String × Json)) (k : String) :
    (l.lookup k).isSome = (l.map Prod.fst).contains k := by
  induction l with
  | nil => rfl
  | cons a t ih =>
    obtain ⟨k1, v1⟩ := a
    cases h : k == k1 <;>
      simp [List.lookup, h, ih, List.contains_cons]

theorem map_fst_filterMap_lookup (ks : List String) (l : List (String × Json)) :
    (ks.filterMap (fun pk => (l.lookup pk).map (fun v => (pk, v)))).map Prod.fst
      = ks.filter (fun pk => (l.map Prod.fst).contains pk) := by
  induction ks with
  | nil => rfl
  | cons a t ih =>
    rw [List.filterMap_cons, List.filter_cons]
    cases hl : l.lookup a with
    | none =>
      have hc : (l.map Prod.fst).contains a = false := by
        rw [← lookup_isSome_eq_contains, hl]; rfl
      rw [hc]
      simpa using ih
    | some v =>
      have hc : (l.map Prod.fst).contains a = true := by
        rw [← lookup_isSome_eq_contains, hl]; rfl
      rw [hc]
      simp [ih]

theorem map_fst_filter_not_priority (l : List (String × Json)) :
    (l.filter (fun kv => !(PRIORITY.contains kv.1))).map Prod.fst
      = (l.map Prod.fst).filter (fun k => !(PRIORITY.contains k)) := by
  induction l with
  | nil => rfl
  | cons a t ih =>
    by_cases h : a.1 ∈ PRIORITY <;>
      simp [List.filter_cons, h] <;> simpa using ih

theorem orderedEntries_keys (l : List (String × Json)) :
    (orderedEntries l).map Prod.fst
      = PRIORITY.filter (fun pk => (l.map Prod.fst).contains pk)
        ++ (l.map Prod.fst).filter (fun k => !(PRIORITY.contains k)) := by
  unfold orderedEntries
  rw [List.map_append, map_fst_filterMap_lookup, map_fst_filter_not_priority]

theorem orderedEntries_keys_perm {l : List (String × Json)}
    (hnd : (l.map Prod.fst).Nodup) :
    ((orderedEntries l).map Prod.fst).Perm (l.map Prod.fst) := by
  rw [orderedEntries_keys]
  have hP : (PRIORITY.filter (fun pk => (l.map Prod.fst).contains pk)).Perm
      ((l.map Prod.fst).filter (fun k => PRIORITY.contains k)) := by
    rw [List.perm_ext_iff_of_nodup]
    · intro x
      simp only [List.mem_filter, List.elem_eq_mem, decide_eq_true_eq]
      exact ⟨fun h2 => ⟨h2.2, h2.1⟩, fun h2 => ⟨h2.2, h2.1⟩⟩
    · exact List.Nodup.filter _ (by decide)
    · exact List.Nodup.filter _ hnd
  exact (hP.append (List.Perm.refl _)).trans (List.filter_append_perm _ _)

theorem serializeValue_obj (l : List (String × Json)) (hne : l ≠ [])
    (depth indent : Nat) :
    serializeValue (.obj l) depth indent
      = "\x7b\n" ++ String.intercalate ",\n"
          ((orderedEntries l).map (fun kv =>
            padStr ((depth + 1) * indent) ++ jsonQuote kv.1 ++ ": "
              ++ serializeValue kv.2 (depth + 1) indent))
        ++ "\n" ++ padStr (depth * indent) ++ "\x7d" := by
  rw [serializeValue]
  rw [if_neg (by simpa [List.isEmpty_iff] using hne)]
  dsimp only
  rw [List.attach_map_val (orderedEntries l) (fun kv =>
    padStr ((depth + 1) * indent) ++ jsonQuote kv.1 ++ ": "
      ++ serializeValue kv.2 (depth + 1) indent)]

/-- C3: for every non-empty object, at any depth, the serializer emits
the entries for the priority keys `$id`, `$ref`, `$type`, `$values`
that are present first, in exactly that fixed relative order, followed
by all remaining entries in the object,s own enumeration order; nested
objects are serialized by the same recursive function, so the property
holds at every depth of the output. -/
theorem claim_C3_serializer_key_order (l : List (String × Json)) (depth indent : Nat)
    (hne : l ≠ []) (hnd : (l.map Prod.fst).Nodup) :
    serializeValue (.obj l) depth indent
      = "\x7b\n" ++ String.intercalate ",\n"
          ((orderedEntries l).map (fun kv =>
            padStr ((depth + 1) * indent) ++ jsonQuote kv.1 ++ ": "
              ++ serializeValue kv.2 (depth + 1) indent))
        ++ "\n" ++ padStr (depth * indent) ++ "\x7d"
    ∧ (orderedEntries l).map Prod.fst
        = PRIORITY.filter (fun pk => (l.map Prod.fst).contains pk)
          ++ (l.map Prod.fst).filter (fun k => !(PRIORITY.contains k))
    ∧ ((orderedEntries l).map Prod.fst).Perm (l.map Prod.fst) :=
  ⟨serializeValue_obj l hne depth indent, orderedEntries_keys l,
    orderedEntries_keys_perm hnd⟩

/-- Witness for C3 at a concrete object (a non-priority key listed
before `$id`, as in a node object). -/
theorem claim_C3_serializer_key_order_witness :
    serializeValue (.obj [("Name", .str "x"), ("$id", .str "3")]) 0 2
      = "\x7b\n" ++ String.intercalate ",\n"
          ((orderedEntries [("Name", .str "x"), ("$id", .str "3")]).map (fun kv =>
            padStr ((0 + 1) * 2) ++ jsonQuote kv.1 ++ ": "
              ++ serializeValue kv.2 (0 + 1) 2))
        ++ "\n" ++ padStr (0 * 2) ++ "\x7d"
    ∧ (orderedEntries [("Name", .str "x"), ("$id", .str "3")]).map Prod.fst
        = PRIORITY.filter (fun pk =>
            ([("Name", Json.str "x"), ("$id", Json.str "3")].map Prod.fst).contains pk)
          ++ ([("Name", Json.str "x"), ("$id", Json.str "3")].map Prod.fst).filter
              (fun k => !(PRIORITY.contains k))
    ∧ ((orderedEntries [("Name", .str "x"), ("$id", .str "3")]).map Prod.fst).Perm
        ([("Name", Json.str "x"), ("$id", Json.str "3")].map Prod.fst) :=
  claim_C3_serializer_key_order [("Name", .str "x"), ("$id", .str "3")] 0 2
    (by simp) (by simp)

-- ═══════════════ Object mutation lemmas ═══════════════

theorem jsObjSet_lookup_self (l : List (String × Json)) (k : String) (v : Json) :
    (jsObjSet l k v).lookup k = some v := by
  induction l with
  | nil => simp [jsObjSet, List.lookup]
  | cons a t ih =>
    obtain ⟨k1, v1⟩ := a
    unfold jsObjSet
    by_cases h : k = k1
    · subst h
      simp [List.lookup]
    · rw [if_neg h]
      by_cases h2 : jsKeyBefore k k1 = true ∧ (t.lookup k).isNone = true
      · rw [if_pos h2]
        simp [List.lookup]
      · rw [if_neg h2]
        have hbe : (k == k1) = false := beq_eq_false_iff_ne.mpr h
        simp [List.lookup, hbe, ih]

theorem jsObjSet_lookup_ne (l : List (String × Json)) {k k2 : String} (v : Json)
    (h : k2 ≠ k) : (jsObjSet l k v).lookup k2 = l.lookup k2 := by
  induction l with
  | nil =>
    simp [jsObjSet, List.lookup, beq_eq_false_iff_ne.mpr h]
  | cons a t ih =>
    obtain ⟨k1, v1⟩ := a
    unfold jsObjSet
    by_cases hkk : k = k1
    · subst hkk
      simp [List.lookup, beq_eq_false_iff_ne.mpr h]
    · rw [if_neg hkk]
      by_cases h2 : jsKeyBefore k k1 = true ∧ (t.lookup k).isNone = true
      · rw [if_pos h2]
        simp [List.lookup, beq_eq_false_iff_ne.mpr h]
      · rw [if_neg h2]
        cases hbe : k2 == k1 <;> simp [List.lookup, hbe, ih]

theorem jsObjDelete_lookup_self (l : List (String × Json)) (k : String) :
    (jsObjDelete l k).lookup k = none := by
  induction l with
  | nil => rfl
  | cons a t ih =>
    obtain ⟨k1, v1⟩ := a
    unfold jsObjDelete at ih ⊢
    rw [List.filter_cons]
    by_cases h : k1 = k
    · subst h
      simp only [bne_self_eq_false, Bool.false_eq_true, if_false]
      exact ih
    · have h1 : (k1 != k) = true := bne_iff_ne.mpr h
      have h2 : (k == k1) = false := beq_eq_false_iff_ne.mpr (fun hh => h hh.symm)
      rw [h1, if_pos rfl]
      simp only [List.lookup, h2]
      exact ih

theorem jsObjDelete_lookup_ne (l : List (String × Json)) {k k2 : String}
    (h : k2 ≠ k) : (jsObjDelete l k).lookup k2 = l.lookup k2 := by
  induction l with
  | nil => rfl
  | cons a t ih =>
    obtain ⟨k1, v1⟩ := a
    unfold jsObjDelete at ih ⊢
    rw [List.filter_cons]
    by_cases hk : k1 = k
    · subst hk
      have h2 : (k2 == k1) = false := beq_eq_false_iff_ne.mpr h
      simp only [bne_self_eq_false, Bool.false_eq_true, if_false]
      rw [ih]
      simp [List.lookup, h2]
    · have h1 : (k1 != k) = true := bne_iff_ne.mpr hk
      rw [h1, if_pos rfl]
      cases hbe : k2 == k1 <;> simp [List.lookup, hbe, ih]

theorem nodesVal_withNodes (tf : TerrainFile) (nl : List (String × Json))
    (h : stdShape tf) : (tf.withNodes nl).nodesVal = .obj nl := by
  unfold TerrainFile.withNodes TerrainFile.nodesVal
  cases hd : tf.detached with
  | some l0 => rfl
  | none =>
    obtain ⟨rl, al, a0l, rest, tl, nv, hraw, hA, hV, hT, hN, -⟩ := h hd
    simp only [setNodesRaw, hraw, hA, hV, hT]
    unfold nodesPath assetOf
    simp [jsChain, jsChain0, jsGet, jsNullish, jsIdx0, jsObjSet_lookup_self]

theorem stdShape_withNodes (tf : TerrainFile) (nl : List (String × Json))
    (h : stdShape tf) : stdShape (tf.withNodes nl) := by
  unfold TerrainFile.withNodes
  cases hd : tf.detached with
  | some l0 => intro hcon; simp at hcon
  | none =>
    intro _
    obtain ⟨rl, al, a0l, rest, tl, nv, hraw, hA, hV, hT, hN, hnn⟩ := h hd
    refine ⟨jsObjSet rl "Assets" (.obj (jsObjSet al "$values" (.arr ((.obj (jsObjSet a0l
      "Terrain" (.obj (jsObjSet tl "Nodes" (.obj nl))))) :: rest)))),
      jsObjSet al "$values" (.arr ((.obj (jsObjSet a0l "Terrain"
        (.obj (jsObjSet tl "Nodes" (.obj nl))))) :: rest)),
      jsObjSet a0l "Terrain" (.obj (jsObjSet tl "Nodes" (.obj nl))), rest,
      jsObjSet tl "Nodes" (.obj nl), .obj nl, ?_,
      jsObjSet_lookup_self _ _ _, jsObjSet_lookup_self _ _ _,
      jsObjSet_lookup_self _ _ _, jsObjSet_lookup_self _ _ _, rfl⟩
    simp only [setNodesRaw, hraw, hA, hV, hT]

theorem nodesObj_withNodes (tf : TerrainFile) (nl : List (String × Json))
    (h : stdShape tf) : (tf.withNodes nl).nodesObj = nl := by
  unfold TerrainFile.nodesObj
  rw [nodesVal_withNodes tf nl h]

theorem nodesVal_obj_of_get {tf : TerrainFile} {k : String} {v : Json}
    (h : jsGet tf.nodesVal k = some v) : tf.nodesVal = .obj tf.nodesObj := by
  unfold TerrainFile.nodesObj
  cases hv : tf.nodesVal <;> rw [hv] at h <;> simp [jsGet] at h ⊢

-- ═══════════════ Claim C7: mutation-failure atomicity ═══════════════

/-- C7: every enumerated mutator failure (absent node id for
`removeNode`, `setNodeProperty`, `disconnectPort` and both ends of
`connectNodes`; absent port name for `connectNodes` and
`disconnectPort`; `AlreadyDisconnected` for `disconnectPort` on a port
holding no Record) is raised synchronously as the error component of the
result and the returned document is exactly the input document. -/
theorem claim_C7_failure_atomicity (tf : TerrainFile) (nAbs tPres : Int)
    (fpGood fpBad prop : String) (value : Json)
    (nodeC portC : Json) (portsC : List Json) :
    ((jsGet tf.nodesVal (intToString nAbs) = none) →
        removeNode tf nAbs = (some ("Node " ++ intToString nAbs ++ " not found"), tf))
    ∧ ((jsGet tf.nodesVal (intToString nAbs) = none) →
        setNodeProperty tf nAbs prop value
          = (some ("Node " ++ intToString nAbs ++ " not found"), tf))
    ∧ ((jsGet tf.nodesVal (intToString nAbs) = none) →
        disconnectPort tf nAbs fpBad
          = (some ("Node " ++ intToString nAbs ++ " not found"), tf))
    ∧ ((jsGet tf.nodesVal (intToString nAbs) = none) →
        connectNodes tf tPres fpGood nAbs fpGood
          = (some ("Destination node " ++ intToString nAbs ++ " not found"), tf))
    ∧ (jsGet tf.nodesVal (intToString tPres) = some nodeC → jsTruthy nodeC = true →
        jsGet tf.nodesVal (intToString nAbs) = none →
        connectNodes tf nAbs fpGood tPres fpGood
          = (some ("Source node " ++ intToString nAbs ++ " not found"), tf))
    ∧ (jsGet tf.nodesVal (intToString tPres) = some nodeC → jsTruthy nodeC = true →
        portsArr nodeC = .ok portsC → portsC.find? (portNameIs fpBad) = none →
        connectNodes tf tPres fpBad tPres fpGood
          = (some ("Port \"" ++ fpBad ++ "\" not found on node " ++ intToString tPres), tf))
    ∧ (jsGet tf.nodesVal (intToString tPres) = some nodeC → jsTruthy nodeC = true →
        portsArr nodeC = .ok portsC → portsC.find? (portNameIs fpGood) = some portC →
        portsC.find? (portNameIs fpBad) = none →
        connectNodes tf tPres fpGood tPres fpBad
          = (some ("Port \"" ++ fpBad ++ "\" not found on node " ++ intToString tPres), tf))
    ∧ (jsGet tf.nodesVal (intToString tPres) = some nodeC → jsTruthy nodeC = true →
        portsArr nodeC = .ok portsC → portsC.find? (portNameIs fpBad) = none →
        disconnectPort tf tPres fpBad
          = (some ("Port \"" ++ fpBad ++ "\" not found on node " ++ intToString tPres), tf))
    ∧ (jsGet tf.nodesVal (intToString tPres) = some nodeC → jsTruthy nodeC = true →
        portsArr nodeC = .ok portsC → portsC.find? (portNameIs fpGood) = some portC →
        jsGet portC "Record" = none →
        disconnectPort tf tPres fpGood
          = (some ("Port \"" ++ fpGood ++ "\" on node " ++ intToString tPres
              ++ " is not connected"), tf)) := by
  refine ⟨?_, ?_, ?_, ?_, ?_, ?_, ?_, ?_, ?_⟩
  · intro h
    simp only [removeNode]
    rw [h]
  · intro h
    simp only [setNodeProperty]
    rw [h]
  · intro h
    simp only [disconnectPort]
    rw [h]
  · intro h
    simp only [connectNodes]
    rw [h]
  · intro h1 h2 h3
    simp only [connectNodes, h1, h2, h3, Bool.not_true, Bool.false_eq_true, if_false]
  · intro h1 h2 h3 h4
    simp only [connectNodes, h1, h2, h3, h4, Bool.not_true, Bool.false_eq_true, if_false,
      Option.isNone_none, if_true]
  · intro h1 h2 h3 h4 h5
    simp only [connectNodes, h1, h2, h3, h4, h5, Bool.not_true, Bool.false_eq_true, if_false,
      Option.isNone_none, Option.isNone_some, if_true]
  · intro h1 h2 h3 h4
    simp only [disconnectPort, h1, h2, h3, h4, Bool.not_true, Bool.false_eq_true, if_false]
  · intro h1 h2 h3 h4 h5
    simp only [disconnectPort, h1, h2, h3, h4, h5, Bool.not_true, Bool.false_eq_true, if_false]

/-- Witness for C7 at the concrete document `tfC7`. -/
theorem claim_C7_failure_atomicity_witness :
    removeNode tfC7 9 = (some ("Node " ++ intToString 9 ++ " not found"), tfC7)
    ∧ setNodeProperty tfC7 9 "Seed" (.num (.ofInt 5))
        = (some ("Node " ++ intToString 9 ++ " not found"), tfC7)
    ∧ disconnectPort tfC7 9 "Nope"
        = (some ("Node " ++ intToString 9 ++ " not found"), tfC7)
    ∧ connectNodes tfC7 1 "In" 9 "In"
        = (some ("Destination node " ++ intToString 9 ++ " not found"), tfC7)
    ∧ connectNodes tfC7 9 "In" 1 "In"
        = (some ("Source node " ++ intToString 9 ++ " not found"), tfC7)
    ∧ connectNodes tfC7 1 "Nope" 1 "In"
        = (some ("Port \"Nope\" not found on node " ++ intToString 1), tfC7)
    ∧ connectNodes tfC7 1 "In" 1 "Nope"
        = (some ("Port \"Nope\" not found on node " ++ intToString 1), tfC7)
    ∧ disconnectPort tfC7 1 "Nope"
        = (some ("Port \"Nope\" not found on node " ++ intToString 1), tfC7)
    ∧ disconnectPort tfC7 1 "In"
        = (some ("Port \"In\" on node " ++ intToString 1 ++ " is not connected"), tfC7) := by
  have h := claim_C7_failure_atomicity tfC7 9 1 "In" "Nope" "Seed" (.num (.ofInt 5))
    (Json.obj [("Id", .num (.ofInt 1)),
      ("Ports", .obj [("$values", .arr [Json.obj [("Name", .str "In")]])])])
    (Json.obj [("Name", .str "In")])
    [Json.obj [("Name", .str "In")]]
  exact ⟨h.1 rfl, h.2.1 rfl, h.2.2.1 rfl, h.2.2.2.1 rfl,
    h.2.2.2.2.1 rfl rfl rfl,
    h.2.2.2.2.2.1 rfl rfl rfl rfl,
    h.2.2.2.2.2.2.1 rfl rfl rfl rfl rfl,
    h.2.2.2.2.2.2.2.1 rfl rfl rfl rfl,
    h.2.2.2.2.2.2.2.2 rfl rfl rfl rfl rfl⟩

-- ═══════════════ Claim C9: setProperty frame effect ═══════════════

/-- C9: `setNodeProperty` on an existing node sets exactly the named key
on the node object and leaves every other key of the node, and every
other node, unchanged — including when the key is a fixed reserved key
such as `Id`, which it overwrites with no guard. -/
theorem claim_C9_setProperty (tf : TerrainFile) (nid : Int) (prop : String)
    (value : Json) (nodeL : List (String × Json))
    (hstd : stdShape tf)
    (hget : jsGet tf.nodesVal (intToString nid) = some (.obj nodeL)) :
    ∃ tf', setNodeProperty tf nid prop value = (none, tf')
      ∧ jsGet tf'.nodesVal (intToString nid) = some (.obj (jsObjSet nodeL prop value))
      ∧ (jsObjSet nodeL prop value).lookup prop = some value
      ∧ (∀ k, k ≠ prop → (jsObjSet nodeL prop value).lookup k = nodeL.lookup k)
      ∧ (∀ k2, k2 ≠ intToString nid → jsGet tf'.nodesVal k2 = jsGet tf.nodesVal k2)
      ∧ (prop = "Id" → (jsObjSet nodeL prop value).lookup "Id" = some value) := by
  refine ⟨tf.withNodes (jsObjSet tf.nodesObj (intToString nid)
    (.obj (jsObjSet nodeL prop value))), ?_, ?_, ?_, ?_, ?_, ?_⟩
  · simp only [setNodeProperty]
    rw [hget]
    rfl
  · rw [nodesVal_withNodes _ _ hstd]
    exact jsObjSet_lookup_self _ _ _
  · exact jsObjSet_lookup_self _ _ _
  · intro k hk
    exact jsObjSet_lookup_ne _ _ hk
  · intro k2 hk2
    rw [nodesVal_withNodes _ _ hstd, nodesVal_obj_of_get hget]
    exact jsObjSet_lookup_ne _ _ hk2
  · intro hp
    subst hp
    exact jsObjSet_lookup_self _ _ _

/-- Witness for C9: overwriting the reserved key `Id` on a concrete
node. -/
theorem claim_C9_setProperty_witness :
    ∃ tf', setNodeProperty tfC7 1 "Id" (.num (.ofInt 99)) = (none, tf')
      ∧ jsGet tf'.nodesVal (intToString 1)
          = some (.obj (jsObjSet [("Id", .num (.ofInt 1)),
              ("Ports", .obj [("$values", .arr [Json.obj [("Name", .str "In")]])])]
              "Id" (.num (.ofInt 99))))
      ∧ (jsObjSet [("Id", .num (.ofInt 1)),
            ("Ports", .obj [("$values", .arr [Json.obj [("Name", .str "In")]])])]
            "Id" (.num (.ofInt 99))).lookup "Id" = some (.num (.ofInt 99))
      ∧ (∀ k, k ≠ "Id" → (jsObjSet [("Id", .num (.ofInt 1)),
            ("Ports", .obj [("$values", .arr [Json.obj [("Name", .str "In")]])])]
            "Id" (.num (.ofInt 99))).lookup k
          = [("Id", Json.num (.ofInt 1)),
             ("Ports", Json.obj [("$values", .arr [Json.obj [("Name", .str "In")]])])].lookup k)
      ∧ (∀ k2, k2 ≠ intToString 1 → jsGet tf'.nodesVal k2 = jsGet tfC7.nodesVal k2)
      ∧ ("Id" = "Id" → (jsObjSet [("Id", .num (.ofInt 1)),
            ("Ports", .obj [("$values", .arr [Json.obj [("Name", .str "In")]])])]
            "Id" (.num (.ofInt 99))).lookup "Id" = some (.num (.ofInt 99))) :=
  claim_C9_setProperty tfC7 1 "Id" (.num (.ofInt 99))
    [("Id", .num (.ofInt 1)),
     ("Ports", .obj [("$values", .arr [Json.obj [("Name", .str "In")]])])]
    (fun h => by simp [tfC7] at h) rfl

-- ═══════════════ Claims C5 and C10: addNode ═══════════════

theorem maxNodeKey_foldl_mono (l : List (String × Json)) :
    ∀ (acc : Int), acc ≤ l.foldl (fun acc kv =>
      match jsParseInt kv.1 with
      | some n => if acc < n then n else acc
      | none => acc) acc := by
  induction l with
  | nil => intro acc; simp
  | cons kv t ih =>
    intro acc
    rw [List.foldl_cons]
    refine le_trans ?_ (ih _)
    cases jsParseInt kv.1 with
    | none => simp
    | some n => simp only; split <;> omega

theorem maxNodeKey_foldl_ge (l : List (String × Json)) :
    ∀ (acc : Int) (kv : String × Json) (n : Int), kv ∈ l → jsParseInt kv.1 = some n →
      n ≤ l.foldl (fun acc kv =>
        match jsParseInt kv.1 with
        | some n => if acc < n then n else acc
        | none => acc) acc := by
  induction l with
  | nil => intro acc kv n h; simp at h
  | cons kv0 t ih =>
    intro acc kv n hmem hp
    rw [List.foldl_cons]
    rcases List.mem_cons.mp hmem with rfl | hmem2
    · refine le_trans ?_ (maxNodeKey_foldl_mono t _)
      rw [hp]
      simp only
      split <;> omega
    · exact ih _ kv n hmem2 hp

theorem maxNodeKey_foldl_attained (l : List (String × Json)) :
    ∀ (acc : Int),
      (l.foldl (fun acc kv =>
        match jsParseInt kv.1 with
        | some n => if acc < n then n else acc
        | none => acc) acc = acc)
      ∨ ∃ kv ∈ l, jsParseInt kv.1 = some (l.foldl (fun acc kv =>
          match jsParseInt kv.1 with
          | some n => if acc < n then n else acc
          | none => acc) acc) := by
  induction l with
  | nil => intro acc; left; rfl
  | cons kv0 t ih =>
    intro acc
    rw [List.foldl_cons]
    cases hp : jsParseInt kv0.1 with
    | none =>
      simp only
      rcases ih acc with h | ⟨kv, hm, he⟩
      · left; exact h
      · right; exact ⟨kv, List.mem_cons_of_mem _ hm, he⟩
    | some n =>
      simp only
      by_cases hlt : acc < n
      · rw [if_pos hlt]
        rcases ih n with h | ⟨kv, hm, he⟩
        · right
          refine ⟨kv0, List.mem_cons_self _ _, ?_⟩
          rw [hp, h]
        · right; exact ⟨kv, List.mem_cons_of_mem _ hm, he⟩
      · rw [if_neg hlt]
        rcases ih acc with h | ⟨kv, hm, he⟩
        · left; exact h
        · right; exact ⟨kv, List.mem_cons_of_mem _ hm, he⟩

theorem maxNodeKey_nonneg (nl : List (String × Json)) : 0 ≤ maxNodeKey nl :=
  maxNodeKey_foldl_mono nl 0

theorem maxNodeKey_ge {nl : List (String × Json)} {kv : String × Json} {n : Int}
    (hm : kv ∈ nl) (hp : jsParseInt kv.1 = some n) : n ≤ maxNodeKey nl :=
  maxNodeKey_foldl_ge nl 0 kv n hm hp

theorem maxNodeKey_attained (nl : List (String × Json)) :
    maxNodeKey nl = 0 ∨ ∃ kv ∈ nl, jsParseInt kv.1 = some (maxNodeKey nl) :=
  maxNodeKey_foldl_attained nl 0

theorem addNode_eq {tf : TerrainFile} {nl : List (String × Json)}
    (hnl : tf.nodesVal = .obj nl) (dotnetType : String) (portDefs : List PortDef)
    (nameOpt : Option String) (posOpt : Option (Int × Int))
    (props : List (String × Json)) :
    addNode tf dotnetType portDefs nameOpt posOpt props
      = .ok (tf.withNodes (jsObjSet nl (intToString (maxNodeKey nl + 1))
          (builtNode (createIdAlloc tf.raw) dotnetType portDefs nameOpt posOpt props
            (maxNodeKey nl + 1))), maxNodeKey nl + 1) := by
  simp only [addNode, hnl]

/-- C5: `addNode` assigns the identifier `max(existing numeric node
keys) + 1` (non-numeric keys such as `$id` are ignored), inserts the
node under the key `String(nodeId)` and returns that id; on an empty
document the first call yields 1 and, on its result, the next yields 2
(shown by the witness). -/
theorem claim_C5_addNode_id (tf : TerrainFile) (dotnetType : String)
    (portDefs : List PortDef) (nameOpt : Option String) (posOpt : Option (Int × Int))
    (props : List (String × Json)) (nl : List (String × Json))
    (hstd : stdShape tf) (hnl : tf.nodesVal = .obj nl) :
    ∃ tf' node,
      addNode tf dotnetType portDefs nameOpt posOpt props = .ok (tf', maxNodeKey nl + 1)
      ∧ tf'.nodesVal = .obj (jsObjSet nl (intToString (maxNodeKey nl + 1)) node)
      ∧ jsGet tf'.nodesVal (intToString (maxNodeKey nl + 1)) = some node
      ∧ stdShape tf'
      ∧ (∀ kv ∈ nl, ∀ n : Int, jsParseInt kv.1 = some n → n < maxNodeKey nl + 1)
      ∧ (maxNodeKey nl = 0 ∨ ∃ kv ∈ nl, jsParseInt kv.1 = some (maxNodeKey nl))
      ∧ 0 < maxNodeKey nl + 1 := by
  refine ⟨tf.withNodes (jsObjSet nl (intToString (maxNodeKey nl + 1))
      (builtNode (createIdAlloc tf.raw) dotnetType portDefs nameOpt posOpt props
        (maxNodeKey nl + 1))),
    builtNode (createIdAlloc tf.raw) dotnetType portDefs nameOpt posOpt props
      (maxNodeKey nl + 1),
    addNode_eq hnl dotnetType portDefs nameOpt posOpt props,
    nodesVal_withNodes _ _ hstd, ?_, stdShape_withNodes _ _ hstd, ?_, maxNodeKey_attained nl,
    by have := maxNodeKey_nonneg nl; omega⟩
  · rw [nodesVal_withNodes _ _ hstd]
    exact jsObjSet_lookup_self _ _ _
  · intro kv hm n hp
    have := maxNodeKey_ge hm hp
    omega

/-- Witness for C5: two successive `addNode` calls on the concrete
empty document return ids 1 and 2. -/
theorem claim_C5_addNode_id_witness :
    ∃ tf1 node1 tf2 node2,
      addNode tfEmpty "QuadSpinner.Gaea.Nodes.Mountain, Gaea.Nodes"
          [⟨"In", "PrimaryIn"⟩, ⟨"Out", "PrimaryOut"⟩] none none [] = .ok (tf1, 1)
      ∧ jsGet tf1.nodesVal (intToString 1) = some node1
      ∧ addNode tf1 "QuadSpinner.Gaea.Nodes.Erosion2, Gaea.Nodes"
          [⟨"In", "PrimaryIn, Required"⟩, ⟨"Out", "PrimaryOut"⟩, ⟨"Flow", "Out"⟩,
           ⟨"Wear", "Out"⟩, ⟨"Deposits", "Out"⟩] none none [] = .ok (tf2, 2)
      ∧ jsGet tf2.nodesVal (intToString 2) = some node2 := by
  obtain ⟨tf1, node1, h1, h2, h3, h4, -⟩ := claim_C5_addNode_id tfEmpty
    "QuadSpinner.Gaea.Nodes.Mountain, Gaea.Nodes"
    [⟨"In", "PrimaryIn"⟩, ⟨"Out", "PrimaryOut"⟩] none none [] []
    (fun h => by simp [tfEmpty] at h) rfl
  obtain ⟨tf2, node2, g1, g2, g3, -⟩ := claim_C5_addNode_id tf1
    "QuadSpinner.Gaea.Nodes.Erosion2, Gaea.Nodes"
    [⟨"In", "PrimaryIn, Required"⟩, ⟨"Out", "PrimaryOut"⟩, ⟨"Flow", "Out"⟩,
     ⟨"Wear", "Out"⟩, ⟨"Deposits", "Out"⟩] none none []
    (jsObjSet [] (intToString 1) node1) h4 h2
  exact ⟨tf1, node1, tf2, node2, h1, h3, g1, g3⟩

theorem buildPorts_foldl_isExporting (nodeRefId : String) (pds : List PortDef) :
    ∀ (acc : List Json × Int),
      (∀ p ∈ acc.1, jsGet p "IsExporting" = some (.bool true)) →
      ∀ p ∈ (pds.foldl (fun acc pd =>
          let r := buildPort nodeRefId acc.2 pd
          (acc.1 ++ [r.1], r.2)) acc).1,
        jsGet p "IsExporting" = some (.bool true) := by
  induction pds with
  | nil => intro acc hacc; exact hacc
  | cons pd rest ih =>
    intro acc hacc
    rw [List.foldl_cons]
    refine ih _ ?_
    intro p hp
    rcases List.mem_append.mp hp with hp1 | hp1
    · exact hacc p hp1
    · simp at hp1
      subst hp1
      rfl

theorem buildPorts_isExporting (nodeRefId : String) (pds : List PortDef) (a : Int) :
    ∀ p ∈ (buildPorts nodeRefId pds a).1, jsGet p "IsExporting" = some (.bool true) := by
  unfold buildPorts
  exact buildPorts_foldl_isExporting nodeRefId pds ([], a) (by intro p hp; simp at hp)

/-- C10: the initial properties spread into the node literal before the
fixed keys cannot clobber them — whatever `props` contains, the inserted
node carries the computed `Id`, the chosen display `Name`, the
`Position` defaulting to (26500, 26250), the built `Ports` list with
every export flag true, and an empty `Modifiers` list. -/
theorem claim_C10_addNode_fixed_keys (tf : TerrainFile) (dotnetType : String)
    (portDefs : List PortDef) (nameOpt : Option String) (posOpt : Option (Int × Int))
    (props : List (String × Json)) (nl : List (String × Json))
    (hnl : tf.nodesVal = .obj nl) :
    ∃ tf' nodeId node,
      addNode tf dotnetType portDefs nameOpt posOpt props = .ok (tf', nodeId)
      ∧ node = builtNode (createIdAlloc tf.raw) dotnetType portDefs nameOpt posOpt props nodeId
      ∧ jsGet node "Id" = some (.num (.ofInt nodeId))
      ∧ jsGet node "Name" = some (.str (nameOpt.getD (extractShortType dotnetType)))
      ∧ (∃ pid : String, jsGet node "Position" = some (.obj [("$id", .str pid),
          ("X", .num (.ofInt ((posOpt.map Prod.fst).getD 26500))),
          ("Y", .num (.ofInt ((posOpt.map Prod.snd).getD 26250)))]))
      ∧ (∃ (qid : String) (pv : List Json),
          jsGet node "Ports" = some (.obj [("$id", .str qid), ("$values", .arr pv)])
          ∧ pv = (buildPorts (allocate (createIdAlloc tf.raw)).1 portDefs
              (allocate (createIdAlloc tf.raw)).2).1
          ∧ ∀ p ∈ pv, jsGet p "IsExporting" = some (.bool true))
      ∧ (∃ mid : String, jsGet node "Modifiers"
          = some (.obj [("$id", .str mid), ("$values", .arr [])])) := by
  refine ⟨_, maxNodeKey nl + 1,
    builtNode (createIdAlloc tf.raw) dotnetType portDefs nameOpt posOpt props
      (maxNodeKey nl + 1),
    addNode_eq hnl dotnetType portDefs nameOpt posOpt props, rfl, ?_, ?_, ?_, ?_, ?_⟩
  · show (jsObjSet _ "Modifiers" _).lookup "Id" = _
    rw [jsObjSet_lookup_ne _ _ (by decide : "Id" ≠ "Modifiers"),
      jsObjSet_lookup_ne _ _ (by decide : "Id" ≠ "Ports"),
      jsObjSet_lookup_ne _ _ (by decide : "Id" ≠ "Position"),
      jsObjSet_lookup_ne _ _ (by decide : "Id" ≠ "Name")]
    exact jsObjSet_lookup_self _ _ _
  · show (jsObjSet _ "Modifiers" _).lookup "Name" = _
    rw [jsObjSet_lookup_ne _ _ (by decide : "Name" ≠ "Modifiers"),
      jsObjSet_lookup_ne _ _ (by decide : "Name" ≠ "Ports"),
      jsObjSet_lookup_ne _ _ (by decide : "Name" ≠ "Position")]
    exact jsObjSet_lookup_self _ _ _
  · refine ⟨(allocate (buildPorts (allocate (createIdAlloc tf.raw)).1 portDefs
      (allocate (createIdAlloc tf.raw)).2).2).1, ?_⟩
    show (jsObjSet _ "Modifiers" _).lookup "Position" = _
    rw [jsObjSet_lookup_ne _ _ (by decide : "Position" ≠ "Modifiers"),
      jsObjSet_lookup_ne _ _ (by decide : "Position" ≠ "Ports")]
    exact jsObjSet_lookup_self _ _ _
  · refine ⟨(allocate (allocate (buildPorts (allocate (createIdAlloc tf.raw)).1 portDefs
        (allocate (createIdAlloc tf.raw)).2).2).2).1,
      (buildPorts (allocate (createIdAlloc tf.raw)).1 portDefs
        (allocate (createIdAlloc tf.raw)).2).1, ?_, rfl,
      buildPorts_isExporting _ _ _⟩
    show (jsObjSet _ "Modifiers" _).lookup "Ports" = _
    rw [jsObjSet_lookup_ne _ _ (by decide : "Ports" ≠ "Modifiers")]
    exact jsObjSet_lookup_self _ _ _
  · refine ⟨(allocate (allocate (allocate (buildPorts (allocate (createIdAlloc tf.raw)).1
        portDefs (allocate (createIdAlloc tf.raw)).2).2).2).2).1, ?_⟩
    exact jsObjSet_lookup_self _ _ _

/-- Witness for C10 at a concrete call whose initial properties try to
clobber every fixed key. -/
theorem claim_C10_addNode_fixed_keys_witness :
    ∃ tf' nodeId node,
      addNode tfEmpty "QuadSpinner.Gaea.Nodes.Mountain, Gaea.Nodes"
          [⟨"In", "PrimaryIn"⟩]
          none none
          [("Id", .num (.ofInt 99)), ("Name", .str "evil"), ("Position", .null),
           ("Ports", .null), ("Modifiers", .null)] = .ok (tf', nodeId)
      ∧ node = builtNode (createIdAlloc tfEmpty.raw)
          "QuadSpinner.Gaea.Nodes.Mountain, Gaea.Nodes" [⟨"In", "PrimaryIn"⟩]
          none none
          [("Id", .num (.ofInt 99)), ("Name", .str "evil"), ("Position", .null),
           ("Ports", .null), ("Modifiers", .null)] nodeId
      ∧ jsGet node "Id" = some (.num (.ofInt nodeId))
      ∧ jsGet node "Name" = some (.str ((none : Option String).getD
          (extractShortType "QuadSpinner.Gaea.Nodes.Mountain, Gaea.Nodes")))
      ∧ (∃ pid : String, jsGet node "Position" = some (.obj [("$id", .str pid),
          ("X", .num (.ofInt (((none : Option (Int × Int)).map Prod.fst).getD 26500))),
          ("Y", .num (.ofInt (((none : Option (Int × Int)).map Prod.snd).getD 26250)))]))
      ∧ (∃ (qid : String) (pv : List Json),
          jsGet node "Ports" = some (.obj [("$id", .str qid), ("$values", .arr pv)])
          ∧ pv = (buildPorts (allocate (createIdAlloc tfEmpty.raw)).1 [⟨"In", "PrimaryIn"⟩]
              (allocate (createIdAlloc tfEmpty.raw)).2).1
          ∧ ∀ p ∈ pv, jsGet p "IsExporting" = some (.bool true))
      ∧ (∃ mid : String, jsGet node "Modifiers"
          = some (.obj [("$id", .str mid), ("$values", .arr [])])) :=
  claim_C10_addNode_fixed_keys tfEmpty "QuadSpinner.Gaea.Nodes.Mountain, Gaea.Nodes"
    [⟨"In", "PrimaryIn"⟩] none none
    [("Id", .num (.ofInt 99)), ("Name", .str "evil"), ("Position", .null),
     ("Ports", .null), ("Modifiers", .null)] [] rfl

-- ═══════════════ Claim C4: connection overwrite ═══════════════

theorem portNameIs_setRecord (r : Json) (pn : String) (port : Json) :
    portNameIs pn (setRecord r port) = portNameIs pn port := by
  cases port with
  | obj pl =>
    unfold portNameIs setRecord jsOptEqStr
    rw [show jsGet (Json.obj (jsObjSet pl "Record" r)) "Name"
        = (jsObjSet pl "Record" r).lookup "Name" from rfl,
      jsObjSet_lookup_ne _ _ (by decide : "Name" ≠ "Record")]
    rfl
  | null => rfl
  | bool b => rfl
  | num d => rfl
  | str s2 => rfl
  | arr xs => rfl

theorem find?_setFirstWhere {p : α → Bool} {f : α → α}
    (hpres : ∀ x, p (f x) = p x) :
    ∀ (l : List α), (setFirstWhere p f l).find? p = (l.find? p).map f := by
  intro l
  induction l with
  | nil => rfl
  | cons x xs ih =>
    unfold setFirstWhere
    cases hx : p x with
    | true =>
      rw [if_pos rfl]
      rw [List.find?_cons_of_pos _ (by rw [hpres x]; exact hx),
        List.find?_cons_of_pos _ hx]
      rfl
    | false =>
      rw [if_neg (by simp)]
      rw [List.find?_cons_of_neg _ (by simp [hx]), List.find?_cons_of_neg _ (by simp [hx])]
      exact ih

theorem portNameIs_obj {pn : String} {port : Json} (h : portNameIs pn port = true) :
    ∃ pl, port = Json.obj pl := by
  cases port with
  | obj pl => exact ⟨pl, rfl⟩
  | null => simp [portNameIs, jsOptEqStr, jsGet] at h
  | bool b => simp [portNameIs, jsOptEqStr, jsGet] at h
  | num d => simp [portNameIs, jsOptEqStr, jsGet] at h
  | str s2 => simp [portNameIs, jsOptEqStr, jsGet] at h
  | arr xs => simp [portNameIs, jsOptEqStr, jsGet] at h

theorem setRecord_record {pl : List (String × Json)} (r : Json) :
    jsGet (setRecord r (.obj pl)) "Record" = some r := by
  unfold setRecord
  exact jsObjSet_lookup_self _ _ _

theorem find?_mem_pred {p : α → Bool} {l : List α} {x : α}
    (h : l.find? p = some x) : p x = true := List.find?_some h

theorem portsArr_shape {node : Json} {ps : List Json}
    (h : portsArr node = .ok ps) (hne : ps ≠ []) :
    ∃ ol pol, node = .obj ol ∧ ol.lookup "Ports" = some (.obj pol)
      ∧ pol.lookup "$values" = some (.arr ps) := by
  unfold portsArr at h
  cases hch : jsChain (jsGet node "Ports") "$values" with
  | none =>
    simp only [hch] at h
    simp at h
    exact absurd h hne
  | some v =>
    simp only [hch] at h
    by_cases hn : jsNullish v = true
    · rw [if_pos hn] at h
      simp at h
      exact absurd h hne
    · rw [if_neg hn] at h
      cases v with
      | arr qs =>
        simp at h
        subst h
        unfold jsChain at hch
        cases hp : jsGet node "Ports" with
        | none => simp only [hp] at hch; simp at hch
        | some pv =>
          simp only [hp] at hch
          by_cases hpn : jsNullish pv = true
          · rw [if_pos hpn] at hch; simp at hch
          · rw [if_neg hpn] at hch
            cases node with
            | obj ol =>
              cases pv with
              | obj pol => exact ⟨ol, pol, rfl, hp, hch⟩
              | null => simp [jsNullish] at hpn
              | bool b => simp [jsGet] at hch
              | num d => simp [jsGet] at hch
              | str s2 => simp [jsGet] at hch
              | arr xs => simp [jsGet] at hch
            | null => simp [jsGet] at hp
            | bool b => simp [jsGet] at hp
            | num d => simp [jsGet] at hp
            | str s2 => simp [jsGet] at hp
            | arr xs => simp [jsGet] at hp
      | null => simp [jsNullish] at hn
      | bool b => simp at h
      | num d => simp at h
      | str s2 => simp at h
      | obj l2 => simp at h

theorem portsArr_setPortsValues {node : Json} {ps ps2 : List Json}
    (h : portsArr node = .ok ps) (hne : ps ≠ []) :
    portsArr (setPortsValues node ps2) = .ok ps2 := by
  obtain ⟨ol, pol, rfl, hP, hV⟩ := portsArr_shape h hne
  simp only [setPortsValues, hP]
  simp [portsArr, jsChain, jsGet, jsNullish, jsObjSet_lookup_self]

theorem setPortsValues_obj {node : Json} {ps : List Json} {ps2 : List Json}
    (h : portsArr node = .ok ps) (hne : ps ≠ []) :
    ∃ ol2, setPortsValues node ps2 = .obj ol2 := by
  obtain ⟨ol, pol, rfl, hP, hV⟩ := portsArr_shape h hne
  simp only [setPortsValues, hP]
  exact ⟨_, rfl⟩

theorem connectNodes_eq {tf : TerrainFile} {toNode fromNode : Json}
    {fromPorts toPorts : List Json} (fid tid : Int) (fp tp : String)
    (hto : jsGet tf.nodesVal (intToString tid) = some toNode)
    (htoT : jsTruthy toNode = true)
    (hfrom : jsGet tf.nodesVal (intToString fid) = some fromNode)
    (hfromT : jsTruthy fromNode = true)
    (hfp : portsArr fromNode = .ok fromPorts)
    (hfind1 : (fromPorts.find? (portNameIs fp)).isSome = true)
    (htp : portsArr toNode = .ok toPorts)
    (hfind2 : (toPorts.find? (portNameIs tp)).isSome = true) :
    connectNodes tf fid fp tid tp = (none,
      tf.withNodes (jsObjSet tf.nodesObj (intToString tid)
        (setPortsValues toNode (setFirstWhere (portNameIs tp)
          (setRecord (connRecord tf fid tid fp tp)) toPorts)))) := by
  obtain ⟨x1, hx1⟩ := Option.isSome_iff_exists.mp hfind1
  obtain ⟨x2, hx2⟩ := Option.isSome_iff_exists.mp hfind2
  simp only [connectNodes, hto, htoT, hfrom, hfromT, hfp, htp, hx1, hx2,
    Bool.not_true, Bool.false_eq_true, if_false, Option.isNone_some]

/-- C4: with both nodes and both ports present, `connectNodes`
unconditionally replaces the destination port Record with a fresh one
(`IsValid = true`, `From`/`To`/`FromPort`/`ToPort` from the call); two
calls toward the same destination port leave exactly the Record of the
second call on that port, and the source nodes (hence their ports) are
untouched. -/
theorem claim_C4_connect_overwrite (tf : TerrainFile) (fid tid fid2 : Int)
    (fp tp fp2 : String) (toNode fromNode fromNode2 port0 : Json)
    (fromPorts toPorts fromPorts2 : List Json)
    (hstd : stdShape tf)
    (hto : jsGet tf.nodesVal (intToString tid) = some toNode)
    (htoT : jsTruthy toNode = true)
    (hfrom : jsGet tf.nodesVal (intToString fid) = some fromNode)
    (hfromT : jsTruthy fromNode = true)
    (hfp : portsArr fromNode = .ok fromPorts)
    (hfind1 : (fromPorts.find? (portNameIs fp)).isSome = true)
    (htp : portsArr toNode = .ok toPorts)
    (hfind2 : toPorts.find? (portNameIs tp) = some port0)
    (hfrom2 : jsGet tf.nodesVal (intToString fid2) = some fromNode2)
    (hfrom2T : jsTruthy fromNode2 = true)
    (hfp2 : portsArr fromNode2 = .ok fromPorts2)
    (hfind12 : (fromPorts2.find? (portNameIs fp2)).isSome = true)
    (hne1 : intToString fid ≠ intToString tid)
    (hne2 : intToString fid2 ≠ intToString tid) :
    ∃ tf1 tf2,
      connectNodes tf fid fp tid tp = (none, tf1)
      ∧ (∃ toNode1 ps1,
          jsGet tf1.nodesVal (intToString tid) = some toNode1
          ∧ portsArr toNode1 = .ok ps1
          ∧ ps1.find? (portNameIs tp)
              = some (setRecord (connRecord tf fid tid fp tp) port0)
          ∧ jsGet (setRecord (connRecord tf fid tid fp tp) port0) "Record"
              = some (connRecord tf fid tid fp tp)
          ∧ connectNodes tf1 fid2 fp2 tid tp = (none, tf2)
          ∧ (∃ toNode2 ps2,
              jsGet tf2.nodesVal (intToString tid) = some toNode2
              ∧ portsArr toNode2 = .ok ps2
              ∧ ps2.find? (portNameIs tp)
                  = some (setRecord (connRecord tf1 fid2 tid fp2 tp)
                      (setRecord (connRecord tf fid tid fp tp) port0))
              ∧ jsGet (setRecord (connRecord tf1 fid2 tid fp2 tp)
                    (setRecord (connRecord tf fid tid fp tp) port0)) "Record"
                  = some (connRecord tf1 fid2 tid fp2 tp)))
      ∧ (∀ (tfx : TerrainFile) (f t : Int) (a b : String),
          jsGet (connRecord tfx f t a b) "From" = some (.num (.ofInt f))
          ∧ jsGet (connRecord tfx f t a b) "To" = some (.num (.ofInt t))
          ∧ jsGet (connRecord tfx f t a b) "FromPort" = some (.str a)
          ∧ jsGet (connRecord tfx f t a b) "ToPort" = some (.str b)
          ∧ jsGet (connRecord tfx f t a b) "IsValid" = some (.bool true))
      ∧ jsGet tf2.nodesVal (intToString fid) = jsGet tf.nodesVal (intToString fid)
      ∧ jsGet tf2.nodesVal (intToString fid2) = jsGet tf.nodesVal (intToString fid2) := by
  have hne0 : toPorts ≠ [] := by
    intro hcon
    rw [hcon] at hfind2
    simp at hfind2
  have hpres1 : ∀ x, portNameIs tp (setRecord (connRecord tf fid tid fp tp) x)
      = portNameIs tp x := portNameIs_setRecord _ _
  obtain ⟨pl0, hpl0⟩ := portNameIs_obj (find?_mem_pred hfind2)
  -- first call
  have h1 := connectNodes_eq fid tid fp tp hto htoT hfrom hfromT hfp hfind1 htp
    (by rw [hfind2]; rfl)
  set ps1 := setFirstWhere (portNameIs tp)
    (setRecord (connRecord tf fid tid fp tp)) toPorts with hps1
  set toNode1 := setPortsValues toNode ps1 with htoNode1
  set tf1 := tf.withNodes (jsObjSet tf.nodesObj (intToString tid) toNode1) with htf1
  have hfind2a : ps1.find? (portNameIs tp)
      = some (setRecord (connRecord tf fid tid fp tp) port0) := by
    rw [hps1, find?_setFirstWhere hpres1, hfind2]
    rfl
  have hps1ne : ps1 ≠ [] := by
    intro hcon
    rw [hcon] at hfind2a
    simp at hfind2a
  have hget1 : jsGet tf1.nodesVal (intToString tid) = some toNode1 := by
    rw [htf1, nodesVal_withNodes _ _ hstd]
    exact jsObjSet_lookup_self _ _ _
  have hports1 : portsArr toNode1 = .ok ps1 := by
    rw [htoNode1]
    exact portsArr_setPortsValues htp hne0
  have hstd1 : stdShape tf1 := stdShape_withNodes _ _ hstd
  have hobj1 : ∃ ol2, toNode1 = .obj ol2 := setPortsValues_obj htp hne0
  have htoT1 : jsTruthy toNode1 = true := by
    obtain ⟨ol2, h⟩ := hobj1
    rw [h]
    rfl
  have hfromA : jsGet tf1.nodesVal (intToString fid) = jsGet tf.nodesVal (intToString fid) := by
    rw [htf1, nodesVal_withNodes _ _ hstd, nodesVal_obj_of_get hto]
    exact jsObjSet_lookup_ne _ _ hne1
  have hfromB : jsGet tf1.nodesVal (intToString fid2)
      = jsGet tf.nodesVal (intToString fid2) := by
    rw [htf1, nodesVal_withNodes _ _ hstd, nodesVal_obj_of_get hto]
    exact jsObjSet_lookup_ne _ _ hne2
  -- second call
  have hpres2 : ∀ x, portNameIs tp (setRecord (connRecord tf1 fid2 tid fp2 tp) x)
      = portNameIs tp x := portNameIs_setRecord _ _
  have h2 := connectNodes_eq fid2 tid fp2 tp hget1 htoT1 (by rw [hfromB]; exact hfrom2)
    hfrom2T hfp2 hfind12 hports1 (by rw [hfind2a]; rfl)
  set ps2 := setFirstWhere (portNameIs tp)
    (setRecord (connRecord tf1 fid2 tid fp2 tp)) ps1 with hps2
  set toNode2 := setPortsValues toNode1 ps2 with htoNode2
  set tf2 := tf1.withNodes (jsObjSet tf1.nodesObj (intToString tid) toNode2) with htf2
  have hfind2b : ps2.find? (portNameIs tp)
      = some (setRecord (connRecord tf1 fid2 tid fp2 tp)
          (setRecord (connRecord tf fid tid fp tp) port0)) := by
    rw [hps2, find?_setFirstWhere hpres2, hfind2a]
    rfl
  have hget2 : jsGet tf2.nodesVal (intToString tid) = some toNode2 := by
    rw [htf2, nodesVal_withNodes _ _ hstd1]
    exact jsObjSet_lookup_self _ _ _
  have hports2 : portsArr toNode2 = .ok ps2 := by
    rw [htoNode2]
    exact portsArr_setPortsValues hports1 hps1ne
  refine ⟨tf1, tf2, h1, ⟨toNode1, ps1, hget1, hports1, hfind2a, ?_, h2,
    ⟨toNode2, ps2, hget2, hports2, hfind2b, ?_⟩⟩, ?_, ?_, ?_⟩
  · rw [hpl0]
    exact setRecord_record _
  · obtain ⟨pl1, hpl1⟩ := portNameIs_obj (find?_mem_pred hfind2a)
    rw [hpl1]
    exact setRecord_record _
  · intro tfx f t a b
    exact ⟨rfl, rfl, rfl, rfl, rfl⟩
  · rw [htf2, nodesVal_withNodes _ _ hstd1, ← hfromA, nodesVal_obj_of_get hget1]
    exact jsObjSet_lookup_ne _ _ hne1
  · rw [htf2, nodesVal_withNodes _ _ hstd1, ← hfromB, nodesVal_obj_of_get hget1]
    exact jsObjSet_lookup_ne _ _ hne2

/-- Witness for C4: connect 1.Out → 2.In, then 3.Out → 2.In, on a
concrete three-node document. -/
theorem claim_C4_connect_overwrite_witness :
    ∃ tf1 tf2,
      connectNodes tfC4 1 "Out" 2 "In" = (none, tf1)
      ∧ (∃ toNode1 ps1,
          jsGet tf1.nodesVal (intToString 2) = some toNode1
          ∧ portsArr toNode1 = .ok ps1
          ∧ ps1.find? (portNameIs "In")
              = some (setRecord (connRecord tfC4 1 2 "Out" "In") portIn)
          ∧ jsGet (setRecord (connRecord tfC4 1 2 "Out" "In") portIn) "Record"
              = some (connRecord tfC4 1 2 "Out" "In")
          ∧ connectNodes tf1 3 "Out" 2 "In" = (none, tf2)
          ∧ (∃ toNode2 ps2,
              jsGet tf2.nodesVal (intToString 2) = some toNode2
              ∧ portsArr toNode2 = .ok ps2
              ∧ ps2.find? (portNameIs "In")
                  = some (setRecord (connRecord tf1 3 2 "Out" "In")
                      (setRecord (connRecord tfC4 1 2 "Out" "In") portIn))
              ∧ jsGet (setRecord (connRecord tf1 3 2 "Out" "In")
                    (setRecord (connRecord tfC4 1 2 "Out" "In") portIn)) "Record"
                  = some (connRecord tf1 3 2 "Out" "In")))
      ∧ (∀ (tfx : TerrainFile) (f t : Int) (a b : String),
          jsGet (connRecord tfx f t a b) "From" = some (.num (.ofInt f))
          ∧ jsGet (connRecord tfx f t a b) "To" = some (.num (.ofInt t))
          ∧ jsGet (connRecord tfx f t a b) "FromPort" = some (.str a)
          ∧ jsGet (connRecord tfx f t a b) "ToPort" = some (.str b)
          ∧ jsGet (connRecord tfx f t a b) "IsValid" = some (.bool true))
      ∧ jsGet tf2.nodesVal (intToString 1) = jsGet tfC4.nodesVal (intToString 1)
      ∧ jsGet tf2.nodesVal (intToString 3) = jsGet tfC4.nodesVal (intToString 3) :=
  claim_C4_connect_overwrite tfC4 1 2 3 "Out" "In" "Out"
    (Json.obj [("Id", .num (.ofInt 2)), ("Ports", .obj [("$values", .arr [portIn])])])
    (Json.obj [("Id", .num (.ofInt 1)), ("Ports", .obj [("$values", .arr [portOut])])])
    (Json.obj [("Id", .num (.ofInt 3)), ("Ports", .obj [("$values", .arr [portOut])])])
    portIn [portOut] [portIn] [portOut]
    (fun h => by simp [tfC4] at h)
    rfl rfl rfl rfl rfl rfl rfl rfl rfl rfl rfl rfl (by decide) (by decide)

-- ═══════════════ Claim C2: cascading removal ═══════════════

theorem chain_values_shape {v pv : Json}
    (h : jsChain (jsGet v "Ports") "$values" = some pv) :
    ∃ ol pol, v = .obj ol ∧ ol.lookup "Ports" = some (.obj pol)
      ∧ pol.lookup "$values" = some pv := by
  unfold jsChain at h
  cases hp : jsGet v "Ports" with
  | none => simp only [hp] at h; simp at h
  | some qv =>
    simp only [hp] at h
    by_cases hn : jsNullish qv = true
    · rw [if_pos hn] at h; simp at h
    · rw [if_neg hn] at h
      cases v with
      | obj ol =>
        cases qv with
        | obj pol => exact ⟨ol, pol, rfl, hp, h⟩
        | null => simp [jsNullish] at hn
        | bool b => simp [jsGet] at h
        | num d => simp [jsGet] at h
        | str s2 => simp [jsGet] at h
        | arr xs => simp [jsGet] at h
      | null => simp [jsGet] at hp
      | bool b => simp [jsGet] at hp
      | num d => simp [jsGet] at hp
      | str s2 => simp [jsGet] at hp
      | arr xs => simp [jsGet] at hp

theorem recordsOfNode_falsy {v : Json} (h : jsTruthy v = false) :
    recordsOfNode v = [] := by
  cases v with
  | obj l => simp [jsTruthy] at h
  | arr xs => simp [jsTruthy] at h
  | null => rfl
  | bool b => rfl
  | num d => rfl
  | str s2 => rfl

theorem recordsOfNode_of_chain_none {v : Json}
    (hch : jsChain (jsGet v "Ports") "$values" = none) : recordsOfNode v = [] := by
  unfold recordsOfNode
  rw [hch]

theorem recordsOfNode_of_chain_not_arr {v pv : Json}
    (hch : jsChain (jsGet v "Ports") "$values" = some pv)
    (hna : ∀ xs, pv ≠ .arr xs) : recordsOfNode v = [] := by
  unfold recordsOfNode
  rw [hch]
  cases pv with
  | arr xs => exact absurd rfl (hna xs)
  | null => rfl
  | bool b => rfl
  | num d => rfl
  | str s2 => rfl
  | obj l2 => rfl

theorem recordsOfNode_setPortsValues {v : Json} {ps ps2 : List Json}
    (hch : jsChain (jsGet v "Ports") "$values" = some (.arr ps)) :
    recordsOfNode (setPortsValues v ps2) = ps2.filterMap (fun p => jsGet p "Record") := by
  obtain ⟨ol, pol, rfl, hP, hV⟩ := chain_values_shape hch
  unfold recordsOfNode
  simp only [setPortsValues, hP]
  simp [jsChain, jsGet, jsNullish, jsObjSet_lookup_self]

theorem clearFromRecords_spec {nodeId : Int} {v v2 : Json}
    (h : clearFromRecords nodeId v = (none, v2))
    (hid : jsOptEqInt (jsGet v "Id") nodeId = false) :
    ∀ r ∈ recordsOfNode v2, jsOptEqInt (jsGet r "From") nodeId = false := by
  intro r hr
  unfold clearFromRecords at h
  by_cases ht : jsTruthy v = true
  · rw [ht, hid] at h
    simp only [Bool.not_true, Bool.or_false, Bool.false_eq_true, if_false] at h
    cases hch : jsChain (jsGet v "Ports") "$values" with
    | none =>
      simp only [hch] at h
      have hv2 := congrArg Prod.snd h
      simp only at hv2
      subst hv2
      rw [recordsOfNode_of_chain_none hch] at hr
      simp at hr
    | some pv =>
      simp only [hch] at h
      by_cases hpt : jsTruthy pv = true
      · rw [hpt] at h
        simp only [Bool.not_true, Bool.false_eq_true, if_false] at h
        cases pv with
        | arr ps =>
          simp only at h
          have hv2 := congrArg Prod.snd h
          simp only at hv2
          subst hv2
          rw [recordsOfNode_setPortsValues hch] at hr
          obtain ⟨port0, hpm0, hpr0⟩ := List.mem_filterMap.mp hr
          obtain ⟨port, hpm, rfl⟩ := List.mem_map.mp hpm0
          by_cases hcond : jsOptEqInt (jsChain (jsGet port "Record") "From") nodeId = true
          · rw [hcond] at hpr0
            simp only [if_true] at hpr0
            cases port with
            | obj pl =>
              simp only [deleteRecord] at hpr0
              rw [show jsGet (Json.obj (jsObjDelete pl "Record")) "Record"
                = (jsObjDelete pl "Record").lookup "Record" from rfl,
                jsObjDelete_lookup_self] at hpr0
              simp at hpr0
            | null => simp [deleteRecord, jsGet] at hpr0
            | bool b => simp [deleteRecord, jsGet] at hpr0
            | num d => simp [deleteRecord, jsGet] at hpr0
            | str s2 => simp [deleteRecord, jsGet] at hpr0
            | arr xs => simp [deleteRecord, jsGet] at hpr0
          · have hcond2 : jsOptEqInt (jsChain (jsGet port "Record") "From") nodeId = false :=
              Bool.of_not_eq_true hcond
            rw [hcond2] at hpr0
            simp only [Bool.false_eq_true, if_false] at hpr0
            unfold jsChain at hcond2
            simp only [hpr0] at hcond2
            by_cases hrn : jsNullish r = true
            · cases r with
              | null => simp [jsGet, jsOptEqInt]
              | bool b => simp [jsNullish] at hrn
              | num d => simp [jsNullish] at hrn
              | str s2 => simp [jsNullish] at hrn
              | arr xs => simp [jsNullish] at hrn
              | obj l2 => simp [jsNullish] at hrn
            · rw [if_neg hrn] at hcond2
              exact hcond2
        | null => simp [jsTruthy] at hpt
        | bool b =>
          cases b with
          | true =>
            simp only at h
            have hv2 := congrArg Prod.snd h
            simp only at hv2
            subst hv2
            rw [recordsOfNode_of_chain_not_arr hch (by intro xs hcon; cases hcon)] at hr
            simp at hr
          | false => simp [jsTruthy] at hpt
        | num d =>
          simp only at h
          have he := congrArg Prod.fst h
          simp at he
        | str s2 =>
          simp only at h
          have hv2 := congrArg Prod.snd h
          simp only at hv2
          subst hv2
          rw [recordsOfNode_of_chain_not_arr hch (by intro xs hcon; cases hcon)] at hr
          simp at hr
        | obj l2 =>
          simp only at h
          have he := congrArg Prod.fst h
          simp at he
      · have hpt2 : jsTruthy pv = false := Bool.of_not_eq_true hpt
        rw [hpt2] at h
        simp only [Bool.not_false, if_true] at h
        have hv2 := congrArg Prod.snd h
        simp only at hv2
        subst hv2
        rw [recordsOfNode_of_chain_not_arr hch
          (by intro xs hcon; subst hcon; simp [jsTruthy] at hpt2)] at hr
        simp at hr
  · have ht2 : jsTruthy v = false := Bool.of_not_eq_true ht
    rw [ht2] at h
    simp only [Bool.not_false, Bool.true_or, if_true] at h
    have hv2 := congrArg Prod.snd h
    simp only at hv2
    subst hv2
    rw [recordsOfNode_falsy ht2] at hr
    simp at hr

theorem clearAll_foldl_spec (nodeId : Int) :
    ∀ (nl : List (String × Json)) (acc : Option String × List (String × Json))
      (nl2 : List (String × Json)),
      nl.foldl (fun acc kv =>
        match acc.1 with
        | some _ => (acc.1, acc.2 ++ [kv])
        | none =>
          let r := clearFromRecords nodeId kv.2
          (r.1, acc.2 ++ [(kv.1, r.2)])) acc = (none, nl2) →
      acc.1 = none ∧ ∀ kv2 ∈ nl2, kv2 ∈ acc.2
        ∨ ∃ kv ∈ nl, kv2.1 = kv.1 ∧ clearFromRecords nodeId kv.2 = (none, kv2.2) := by
  intro nl
  induction nl with
  | nil =>
    intro acc nl2 h
    rw [List.foldl_nil] at h
    obtain ⟨h1, h2⟩ := Prod.mk.injEq .. ▸ h
    constructor
    · exact h1
    · intro kv2 hm
      left
      rw [h2]
      exact hm
  | cons kv t ih =>
    intro acc nl2 h
    rw [List.foldl_cons] at h
    cases hacc : acc.1 with
    | some e =>
      rw [hacc] at h
      simp only at h
      obtain ⟨h1, -⟩ := ih _ _ h
      simp at h1
    | none =>
      rw [hacc] at h
      simp only at h
      obtain ⟨h1, h2⟩ := ih _ _ h
      refine ⟨rfl, ?_⟩
      intro kv2 hm
      rcases h2 kv2 hm with hin | ⟨kv3, hm3, he3, hc3⟩
      · rcases List.mem_append.mp hin with hin1 | hin1
        · left; exact hin1
        · right
          simp at hin1
          refine ⟨kv, List.mem_cons_self _ _, ?_, ?_⟩
          · rw [hin1]
          · simp only at h1
            rw [hin1]
            simp only
            rw [show clearFromRecords nodeId kv.2
              = ((clearFromRecords nodeId kv.2).1, (clearFromRecords nodeId kv.2).2) from rfl, h1]
      · right
        exact ⟨kv3, List.mem_cons_of_mem _ hm3, he3, hc3⟩

theorem clearAll_spec {nodeId : Int} {nl nl2 : List (String × Json)}
    (h : clearAllFromRecords nodeId nl = (none, nl2)) :
    ∀ kv2 ∈ nl2, ∃ kv ∈ nl, kv2.1 = kv.1
      ∧ clearFromRecords nodeId kv.2 = (none, kv2.2) := by
  intro kv2 hm
  unfold clearAllFromRecords at h
  obtain ⟨-, h2⟩ := clearAll_foldl_spec nodeId nl (none, []) nl2 h
  rcases h2 kv2 hm with hin | hgood
  · simp at hin
  · exact hgood

theorem nodesPath_of_attached {raw : Json} (h : attachedOk raw) :
    ∃ nv, nodesPath raw = some nv ∧ jsNullish nv = false := by
  obtain ⟨rl, al, a0l, rest, tl, nv, rfl, hA, hV, hT, hN, hnn⟩ := h
  refine ⟨nv, ?_, hnn⟩
  unfold nodesPath assetOf
  simp [jsChain, jsChain0, jsGet, jsNullish, jsIdx0, hA, hV, hT, hN]

theorem updateSelected_preserves {raw : Json} (h : attachedOk raw) (nid : Int) :
    nodesPath (updateSelected raw nid) = nodesPath raw
    ∧ attachedOk (updateSelected raw nid) := by
  obtain ⟨rl, al, a0l, rest, tl, nv, rfl, hA, hV, hT, hN, hnn⟩ := h
  have hasset : assetOf (Json.obj rl) = some (.obj a0l) := by
    unfold assetOf
    simp [jsChain, jsChain0, jsGet, jsNullish, jsIdx0, hA, hV]
  unfold updateSelected
  simp only [hasset]
  by_cases hc : jsOptEqInt (jsChain (jsGet (Json.obj a0l) "State") "SelectedNode") nid = true
  · rw [if_pos hc]
    cases hS : a0l.lookup "State" with
    | none =>
      simp only [setSelectedRaw, hA, hV, hS]
      exact ⟨trivial, rl, al, a0l, rest, tl, nv, rfl, hA, hV, hT, hN, hnn⟩
    | some sv =>
      cases sv with
      | obj sl =>
        simp only [setSelectedRaw, hA, hV, hS]
        constructor
        · unfold nodesPath assetOf
          simp [jsChain, jsChain0, jsGet, jsNullish, jsIdx0, jsObjSet_lookup_self,
            jsObjSet_lookup_ne _ _ (show "Terrain" ≠ "State" by decide), hA, hV, hT, hN]
        · exact ⟨_, _, _, rest, tl, nv, rfl, jsObjSet_lookup_self _ _ _,
            jsObjSet_lookup_self _ _ _,
            by rw [jsObjSet_lookup_ne _ _ (show "Terrain" ≠ "State" by decide)]; exact hT,
            hN, hnn⟩
      | null =>
        simp only [setSelectedRaw, hA, hV, hS]
        exact ⟨trivial, rl, al, a0l, rest, tl, nv, rfl, hA, hV, hT, hN, hnn⟩
      | bool b =>
        simp only [setSelectedRaw, hA, hV, hS]
        exact ⟨trivial, rl, al, a0l, rest, tl, nv, rfl, hA, hV, hT, hN, hnn⟩
      | num d =>
        simp only [setSelectedRaw, hA, hV, hS]
        exact ⟨trivial, rl, al, a0l, rest, tl, nv, rfl, hA, hV, hT, hN, hnn⟩
      | str s2 =>
        simp only [setSelectedRaw, hA, hV, hS]
        exact ⟨trivial, rl, al, a0l, rest, tl, nv, rfl, hA, hV, hT, hN, hnn⟩
      | arr xs =>
        simp only [setSelectedRaw, hA, hV, hS]
        exact ⟨trivial, rl, al, a0l, rest, tl, nv, rfl, hA, hV, hT, hN, hnn⟩
  · rw [if_neg hc]
    exact ⟨rfl, rl, al, a0l, rest, tl, nv, rfl, hA, hV, hT, hN, hnn⟩

theorem nodesVal_updateSelected (tf2 : TerrainFile) (hstd : stdShape tf2) (nid : Int) :
    ({ raw := updateSelected tf2.raw nid, detached := tf2.detached } : TerrainFile).nodesVal
      = tf2.nodesVal
    ∧ stdShape ({ raw := updateSelected tf2.raw nid, detached := tf2.detached } :
        TerrainFile) := by
  cases hd : tf2.detached with
  | some l0 =>
    constructor
    · unfold TerrainFile.nodesVal
      rw [hd]
    · intro hcon
      simp only at hcon
      exact absurd hcon (by simp)
  | none =>
    obtain ⟨hpath, hok⟩ := updateSelected_preserves (hstd hd) nid
    constructor
    · unfold TerrainFile.nodesVal
      rw [hd]
      simp only [hpath]
    · intro _
      exact hok

/-- C2 counterexample: on `tfC2`, `removeNode 1` succeeds, yet a
Connection Record with source-node-id 1 survives (the entry under key
"2" falsely declares `Id = 1`, so the clearing loop skips it). -/
theorem claim_C2_counterexample :
    (removeNode tfC2 1).1 = none ∧ hasRecordFrom (removeNode tfC2 1).2 1 = true := by
  constructor <;> rfl

/-- C2 (amended): after a successful `removeNode(k)`, no Connection
Record anywhere in the document has source-node-id `k`, provided no
node-mapping entry other than the removed key carries an `Id` field
strictly equal to `k` (the clearing loop skips entries whose `Id` field
equals the removed id, so a lying entry under another key can keep its
Record, as the counterexample shows). -/
theorem claim_C2_cascading_removal (tf : TerrainFile) (nodeId : Int) (tf' : TerrainFile)
    (hstd : stdShape tf)
    (hrun : removeNode tf nodeId = (none, tf'))
    (hid : ∀ kv ∈ tf.nodesObj, kv.1 ≠ intToString nodeId →
      jsOptEqInt (jsGet kv.2 "Id") nodeId = false) :
    hasRecordFrom tf' nodeId = false := by
  unfold removeNode at hrun
  cases hget : jsGet tf.nodesVal (intToString nodeId) with
  | none =>
    simp only [hget] at hrun
    have := congrArg Prod.fst hrun
    simp at this
  | some nv =>
    simp only [hget] at hrun
    by_cases ht : jsTruthy nv = true
    · rw [ht] at hrun
      simp only [Bool.not_true, Bool.false_eq_true, if_false] at hrun
      cases hclr : (clearAllFromRecords nodeId tf.nodesObj).1 with
      | some e =>
        simp only [hclr] at hrun
        have := congrArg Prod.fst hrun
        simp at this
      | none =>
        simp only [hclr] at hrun
        have htf' := congrArg Prod.snd hrun
        simp only at htf'
        have hca : clearAllFromRecords nodeId tf.nodesObj
            = (none, (clearAllFromRecords nodeId tf.nodesObj).2) := by
          rw [show clearAllFromRecords nodeId tf.nodesObj
            = ((clearAllFromRecords nodeId tf.nodesObj).1,
               (clearAllFromRecords nodeId tf.nodesObj).2) from rfl, hclr]
        have hstd2 : stdShape (tf.withNodes (jsObjDelete
            (clearAllFromRecords nodeId tf.nodesObj).2 (intToString nodeId))) :=
          stdShape_withNodes _ _ hstd
        obtain ⟨hnv, -⟩ := nodesVal_updateSelected _ hstd2 nodeId
        have hval : tf'.nodesVal = .obj (jsObjDelete
            (clearAllFromRecords nodeId tf.nodesObj).2 (intToString nodeId)) := by
          rw [← htf', hnv, nodesVal_withNodes _ _ hstd]
        have hobj : tf'.nodesObj = jsObjDelete
            (clearAllFromRecords nodeId tf.nodesObj).2 (intToString nodeId) := by
          unfold TerrainFile.nodesObj
          rw [hval]
          rfl
        unfold hasRecordFrom
        rw [hobj, List.any_eq_false]
        intro kv hkv
        obtain ⟨hkv2, hkne⟩ := List.mem_filter.mp hkv
        have hkne2 : kv.1 ≠ intToString nodeId := bne_iff_ne.mp hkne
        obtain ⟨kv0, hkv0, hkey, hclear⟩ := clearAll_spec hca kv hkv2
        have hid0 : jsOptEqInt (jsGet kv0.2 "Id") nodeId = false :=
          hid kv0 hkv0 (by rw [← hkey]; exact hkne2)
        have hrec := clearFromRecords_spec hclear hid0
        simp only [Bool.not_eq_true, List.any_eq_false]
        intro r hrm
        exact hrec r hrm
    · have ht2 : jsTruthy nv = false := Bool.of_not_eq_true ht
      rw [ht2] at hrun
      simp only [Bool.not_false, if_true] at hrun
      have := congrArg Prod.fst hrun
      simp at this

/-- Witness for the amended C2 on a concrete honest document. -/
theorem claim_C2_cascading_removal_witness :
    hasRecordFrom (removeNode tfC4 1).2 1 = false :=
  claim_C2_cascading_removal tfC4 1 (removeNode tfC4 1).2
    (fun h => by simp [tfC4] at h) rfl (by decide)

-- ═══════════════ Claim C8: timestamp update on write ═══════════════

theorem replaceFirstChar_append {c : Char} (r : Char) {xs : List Char}
    (h : c ∉ xs) (ys : List Char) :
    replaceFirstChar c r (xs ++ c :: ys) = xs ++ r :: ys := by
  induction xs with
  | nil => simp [replaceFirstChar]
  | cons x t ih =>
    have hx : ¬ (x = c) := fun hh => h (hh ▸ List.mem_cons_self x t)
    simp only [List.cons_append, replaceFirstChar, if_neg hx]
    exact congrArg (x :: ·) (ih (fun hm => h (List.mem_cons_of_mem _ hm)))

theorem takeWhile_append_all {p : α → Bool} :
    ∀ (xs : List α) (y : α) (ys : List α), (∀ x ∈ xs, p x = true) → p y = false →
    (xs ++ y :: ys).takeWhile p = xs := by
  intro xs y ys hall hy
  induction xs with
  | nil => simp [List.takeWhile_cons, hy]
  | cons x t ih =>
    have hx : p x = true := hall x (List.mem_cons_self x t)
    simp only [List.cons_append, List.takeWhile_cons, hx, if_true]
    rw [ih (fun z hz => hall z (List.mem_cons_of_mem _ hz))]

theorem stripFractionZ_spec (a ms : List Char) (hms : ms ≠ [])
    (hd : ∀ c ∈ ms, c.isDigit = true) :
    stripFractionZ (a ++ '.' :: (ms ++ ['Z'])) = a ++ ['Z'] := by
  have hrev : (a ++ '.' :: (ms ++ ['Z'])).reverse
      = 'Z' :: (ms.reverse ++ '.' :: a.reverse) := by
    simp
  have htake : (ms.reverse ++ '.' :: a.reverse).takeWhile Char.isDigit = ms.reverse :=
    takeWhile_append_all _ _ _ (fun c hc => hd c (List.mem_reverse.mp hc)) (by decide)
  have hdrop : (ms.reverse ++ '.' :: a.reverse).drop ms.reverse.length = '.' :: a.reverse :=
    List.drop_left _ _
  have hdrop2 : (ms.reverse ++ '.' :: a.reverse).drop (ms.reverse.length + 1) = a.reverse := by
    rw [← List.drop_drop 1 ms.reverse.length _, hdrop]
    rfl
  unfold stripFractionZ
  rw [hrev]
  simp only [htake]
  rw [if_pos ⟨by simpa using hms, by rw [hdrop]; rfl⟩, hdrop2]
  simp

theorem formatNow_shape {iso : String} (h : isoShape iso) :
    ∃ d t, (formatNow iso).data = d ++ ' ' :: (t ++ ['Z'])
      ∧ d.length = 10 ∧ t.length = 8
      ∧ (∀ c ∈ d, c.isDigit = true ∨ c = '-')
      ∧ (∀ c ∈ t, c.isDigit = true ∨ c = ':')
      ∧ (∀ c ∈ (formatNow iso).data, c ≠ '.') := by
  obtain ⟨d, t, ms, hdata, hld, hlt, hms, hcd, hct, hcm⟩ := h
  have hTd : 'T' ∉ d := by
    intro hc
    rcases hcd 'T' hc with hdig | hdash
    · exact absurd hdig (by decide)
    · exact absurd hdash (by decide)
  have hfmt : (formatNow iso).data
      = (d ++ ' ' :: t) ++ ['Z'] := by
    unfold formatNow
    rw [show (String.mk (stripFractionZ (replaceFirstChar 'T' ' ' iso.data))).data
      = stripFractionZ (replaceFirstChar 'T' ' ' iso.data) from rfl]
    rw [hdata, replaceFirstChar_append _ hTd]
    rw [show d ++ ' ' :: (t ++ '.' :: (ms ++ ['Z']))
      = (d ++ ' ' :: t) ++ '.' :: (ms ++ ['Z']) by simp]
    exact stripFractionZ_spec _ ms hms hcm
  refine ⟨d, t, by rw [hfmt]; simp, hld, hlt, hcd, hct, ?_⟩
  intro c hc
  rw [hfmt] at hc
  rcases List.mem_append.mp hc with hc1 | hc1
  · rcases List.mem_append.mp hc1 with hc2 | hc2
    · rcases hcd c hc2 with hdig | hdash
      · intro hcon; subst hcon; exact absurd hdig (by decide)
      · intro hcon; subst hcon; exact absurd hdash (by decide)
    · rcases List.mem_cons.mp hc2 with rfl | hc3
      · decide
      · rcases hct c hc3 with hdig | hcol
        · intro hcon; subst hcon; exact absurd hdig (by decide)
        · intro hcon; subst hcon; exact absurd hcol (by decide)
  · simp at hc1
    subst hc1
    decide

/-- C8: `writeTerrain` sets the two duplicated `DateLastSaved` fields
(the graph-metadata one and the outer-document one) to the formatted
current time — second precision, a space separating date from time, a
trailing `Z`, no sub-second fraction — and modifies no other field
before serializing. -/
theorem claim_C8_write_timestamps (tf : TerrainFile) (nowIso : String)
    (rl al a0l tl ml ml2 : List (String × Json)) (rest : List Json)
    (hiso : isoShape nowIso)
    (hraw : tf.raw = .obj rl)
    (hA : rl.lookup "Assets" = some (.obj al))
    (hV : al.lookup "$values" = some (.arr (.obj a0l :: rest)))
    (hT : a0l.lookup "Terrain" = some (.obj tl))
    (hM : tl.lookup "Metadata" = some (.obj ml))
    (hM2 : rl.lookup "Metadata" = some (.obj ml2)) :
    ∃ raw2,
      stampRaw (formatNow nowIso) tf.raw = some raw2
      ∧ writeText nowIso tf = some (serializeJson raw2)
      ∧ (∃ rl2 al2 a0l2 tl2,
          raw2 = .obj rl2
          ∧ rl2.lookup "Assets" = some (.obj al2)
          ∧ rl2.lookup "Metadata"
              = some (.obj (jsObjSet ml2 "DateLastSaved" (.str (formatNow nowIso))))
          ∧ (∀ k, k ≠ "Assets" → k ≠ "Metadata" → rl2.lookup k = rl.lookup k)
          ∧ al2.lookup "$values" = some (.arr (.obj a0l2 :: rest))
          ∧ (∀ k, k ≠ "$values" → al2.lookup k = al.lookup k)
          ∧ a0l2.lookup "Terrain" = some (.obj tl2)
          ∧ (∀ k, k ≠ "Terrain" → a0l2.lookup k = a0l.lookup k)
          ∧ tl2.lookup "Metadata"
              = some (.obj (jsObjSet ml "DateLastSaved" (.str (formatNow nowIso))))
          ∧ (∀ k, k ≠ "Metadata" → tl2.lookup k = tl.lookup k)
          ∧ (jsObjSet ml "DateLastSaved" (.str (formatNow nowIso))).lookup "DateLastSaved"
              = some (.str (formatNow nowIso))
          ∧ (∀ k, k ≠ "DateLastSaved" →
              (jsObjSet ml "DateLastSaved" (.str (formatNow nowIso))).lookup k = ml.lookup k)
          ∧ (jsObjSet ml2 "DateLastSaved" (.str (formatNow nowIso))).lookup "DateLastSaved"
              = some (.str (formatNow nowIso))
          ∧ (∀ k, k ≠ "DateLastSaved" →
              (jsObjSet ml2 "DateLastSaved" (.str (formatNow nowIso))).lookup k
                = ml2.lookup k))
      ∧ (∃ d t, (formatNow nowIso).data = d ++ ' ' :: (t ++ ['Z'])
          ∧ d.length = 10 ∧ t.length = 8
          ∧ (∀ c ∈ d, c.isDigit = true ∨ c = '-')
          ∧ (∀ c ∈ t, c.isDigit = true ∨ c = ':')
          ∧ (∀ c ∈ (formatNow nowIso).data, c ≠ '.')) := by
  have hterr : terrainValOf tf.raw = some (.obj tl) := by
    unfold terrainValOf assetOf
    rw [hraw]
    simp [jsChain, jsChain0, jsGet, jsNullish, jsIdx0, hA, hV, hT]
  have hstamp1 : stampTerrainMeta (formatNow nowIso) tf.raw
      = some (setTerrainMetaRaw tf.raw (formatNow nowIso)) := by
    unfold stampTerrainMeta
    rw [hterr]
    simp only [jsGet, hM, jsTruthy, if_true]
  have hset1 : setTerrainMetaRaw tf.raw (formatNow nowIso)
      = .obj (jsObjSet rl "Assets" (.obj (jsObjSet al "$values" (.arr (
          (.obj (jsObjSet a0l "Terrain" (.obj (jsObjSet tl "Metadata"
            (.obj (jsObjSet ml "DateLastSaved" (.str (formatNow nowIso))))))))
          :: rest))))) := by
    rw [hraw]
    simp only [setTerrainMetaRaw, hA, hV, hT, hM]
  have hMpres : (jsObjSet rl "Assets" (.obj (jsObjSet al "$values" (.arr (
      (.obj (jsObjSet a0l "Terrain" (.obj (jsObjSet tl "Metadata"
        (.obj (jsObjSet ml "DateLastSaved" (.str (formatNow nowIso))))))))
      :: rest))))).lookup "Metadata" = some (.obj ml2) := by
    rw [jsObjSet_lookup_ne _ _ (by decide : "Metadata" ≠ "Assets")]
    exact hM2
  have hstamp2 : stampOuterMeta (formatNow nowIso)
      (setTerrainMetaRaw tf.raw (formatNow nowIso))
      = some (setOuterMetaRaw (setTerrainMetaRaw tf.raw (formatNow nowIso))
          (formatNow nowIso)) := by
    unfold stampOuterMeta
    rw [hset1]
    simp only [jsGet, hMpres, jsTruthy, if_true]
  have hset2 : setOuterMetaRaw (setTerrainMetaRaw tf.raw (formatNow nowIso))
      (formatNow nowIso)
      = .obj (jsObjSet (jsObjSet rl "Assets" (.obj (jsObjSet al "$values" (.arr (
          (.obj (jsObjSet a0l "Terrain" (.obj (jsObjSet tl "Metadata"
            (.obj (jsObjSet ml "DateLastSaved" (.str (formatNow nowIso))))))))
          :: rest))))) "Metadata"
          (.obj (jsObjSet ml2 "DateLastSaved" (.str (formatNow nowIso))))) := by
    rw [hset1]
    simp only [setOuterMetaRaw, hMpres]
  refine ⟨setOuterMetaRaw (setTerrainMetaRaw tf.raw (formatNow nowIso)) (formatNow nowIso),
    ?_, ?_, ?_, formatNow_shape hiso⟩
  · unfold stampRaw
    rw [hstamp1]
    exact hstamp2
  · unfold writeText stampRaw
    rw [hstamp1]
    show (stampOuterMeta (formatNow nowIso)
      (setTerrainMetaRaw tf.raw (formatNow nowIso))).map serializeJson = _
    exact congrArg (Option.map serializeJson) hstamp2
  · rw [hset2]
    refine ⟨_,
      jsObjSet al "$values" (.arr (
        (.obj (jsObjSet a0l "Terrain" (.obj (jsObjSet tl "Metadata"
          (.obj (jsObjSet ml "DateLastSaved" (.str (formatNow nowIso))))))))
        :: rest)),
      jsObjSet a0l "Terrain" (.obj (jsObjSet tl "Metadata"
        (.obj (jsObjSet ml "DateLastSaved" (.str (formatNow nowIso)))))),
      jsObjSet tl "Metadata" (.obj (jsObjSet ml "DateLastSaved" (.str (formatNow nowIso)))),
      rfl, ?_, ?_, ?_, ?_, ?_, ?_, ?_, ?_, ?_,
      jsObjSet_lookup_self _ _ _, fun k hk => jsObjSet_lookup_ne _ _ hk,
      jsObjSet_lookup_self _ _ _, fun k hk => jsObjSet_lookup_ne _ _ hk⟩
    · rw [jsObjSet_lookup_ne _ _ (by decide : "Assets" ≠ "Metadata")]
      exact jsObjSet_lookup_self _ _ _
    · exact jsObjSet_lookup_self _ _ _
    · intro k hk1 hk2
      rw [jsObjSet_lookup_ne _ _ hk2, jsObjSet_lookup_ne _ _ hk1]
    · exact jsObjSet_lookup_self _ _ _
    · intro k hk
      exact jsObjSet_lookup_ne _ _ hk
    · exact jsObjSet_lookup_self _ _ _
    · intro k hk
      exact jsObjSet_lookup_ne _ _ hk
    · exact jsObjSet_lookup_self _ _ _
    · intro k hk
      exact jsObjSet_lookup_ne _ _ hk

/-- Witness for C8 at the concrete document `tfC8` and the ISO instant
`2026-10-12T01:23:45.678Z`. -/
theorem claim_C8_write_timestamps_witness :
    ∃ raw2,
      stampRaw (formatNow "2026-10-12T01:23:45.678Z") tfC8.raw = some raw2
      ∧ writeText "2026-10-12T01:23:45.678Z" tfC8 = some (serializeJson raw2) := by
  obtain ⟨raw2, h1, h2, -, -⟩ :=
    claim_C8_write_timestamps tfC8 "2026-10-12T01:23:45.678Z"
      [("$id", .str "1"),
       ("Assets", .obj [("$values", .arr [Json.obj [("Terrain",
         .obj [("Metadata", .obj [("DateLastSaved", .str "old")])])]])]),
       ("Metadata", .obj [("DateLastSaved", .str "old")])]
      [("$values", .arr [Json.obj [("Terrain",
         .obj [("Metadata", .obj [("DateLastSaved", .str "old")])])]])]
      [("Terrain", .obj [("Metadata", .obj [("DateLastSaved", .str "old")])])]
      [("Metadata", .obj [("DateLastSaved", .str "old")])]
      [("DateLastSaved", .str "old")]
      [("DateLastSaved", .str "old")]
      []
      ⟨"2026-10-12".data, "01:23:45".data, "678".data, by decide, by decide,
        by decide, by decide, by decide, by decide, by decide⟩
      rfl rfl rfl rfl rfl rfl
  exact ⟨raw2, h1, h2⟩

-- ═══════════════ Supporting lemmas: the round trip (C1) ═══════════════

theorem all_map_fn {α β : Type} (l : List α) (g : α → β) (p : β → Bool) :
    (l.map g).all p = l.all (fun x => p (g x)) := by
  induction l with
  | nil => rfl
  | cons a t ih => simp only [List.map_cons, List.all_cons, ih]

theorem all_attach {α : Type} (l : List α) (f : α → Bool) :
    l.attach.all (fun p => f p.1) = l.all f := by
  induction l with
  | nil => rfl
  | cons a t ih =>
    simp only [List.attach_cons, List.all_cons]
    congr 1
    rw [all_map_fn]
    exact ih

theorem map_attach_fn {α β : Type} (l : List α) (f : α → β) :
    l.attach.map (fun p => f p.1) = l.map f :=
  List.attach_map_val l f

theorem dropWhile_append_all {α : Type} {p : α → Bool} :
    ∀ (xs ys : List α), (∀ x ∈ xs, p x = true) →
    (xs ++ ys).dropWhile p = ys.dropWhile p := by
  intro xs ys hall
  induction xs with
  | nil => rfl
  | cons x t ih =>
    have hx : p x = true := hall x (List.mem_cons_self x t)
    simp only [List.cons_append, List.dropWhile_cons, hx, if_true]
    exact ih (fun y hy => hall y (List.mem_cons_of_mem x hy))

theorem skipWs_cons_not_ws {c : Char} (h : wsChar c = false) (r : List Char) :
    skipWs (c :: r) = c :: r := by
  simp [skipWs, List.dropWhile_cons, h]

theorem skipWs_ws_pre {xs : List Char} (h : ∀ x ∈ xs, wsChar x = true)
    (ys : List Char) : skipWs (xs ++ ys) = skipWs ys :=
  dropWhile_append_all xs ys h

theorem padStr_data (n : Nat) : (padStr n).data = List.replicate n ' ' := rfl

theorem padStr_ws (n : Nat) : ∀ c ∈ (padStr n).data, wsChar c = true := by
  intro c hc
  rw [padStr_data] at hc
  rw [List.eq_of_mem_replicate hc]
  rfl

theorem serializeValue_null (depth indent : Nat) :
    serializeValue .null depth indent = "null" := by
  rw [serializeValue]

theorem serializeValue_bool (b : Bool) (depth indent : Nat) :
    serializeValue (.bool b) depth indent = if b then "true" else "false" := by
  rw [serializeValue]

theorem serializeValue_num (d : Dec) (depth indent : Nat) :
    serializeValue (.num d) depth indent = renderDec d := by
  rw [serializeValue]

theorem serializeValue_str (s : String) (depth indent : Nat) :
    serializeValue (.str s) depth indent = jsonQuote s := by
  rw [serializeValue]

theorem serializeValue_arr_nil (depth indent : Nat) :
    serializeValue (.arr []) depth indent = "[]" := by
  rw [serializeValue]
  rfl

theorem serializeValue_obj_nil (depth indent : Nat) :
    serializeValue (.obj []) depth indent = "\x7b\x7d" := by
  rw [serializeValue]
  rfl

theorem serializeValue_arr (xs : List Json) (hne : xs ≠ [])
    (depth indent : Nat) :
    serializeValue (.arr xs) depth indent
      = "[\n" ++ String.intercalate ",\n"
          (xs.map (fun x =>
            padStr ((depth + 1) * indent) ++ serializeValue x (depth + 1) indent))
        ++ "\n" ++ padStr (depth * indent) ++ "]" := by
  rw [serializeValue]
  rw [if_neg (by simpa [List.isEmpty_iff] using hne)]
  dsimp only
  rw [List.attach_map_val xs (fun x =>
    padStr ((depth + 1) * indent) ++ serializeValue x (depth + 1) indent)]

theorem canonJson_null : canonJson .null = .null := by rw [canonJson]

theorem canonJson_bool (b : Bool) : canonJson (.bool b) = .bool b := by rw [canonJson]

theorem canonJson_num (d : Dec) : canonJson (.num d) = .num d := by rw [canonJson]

theorem canonJson_str (s : String) : canonJson (.str s) = .str s := by rw [canonJson]

theorem canonJson_arr (xs : List Json) :
    canonJson (.arr xs) = .arr (xs.map canonJson) := by
  rw [canonJson]
  congr 1
  exact map_attach_fn xs canonJson

theorem canonJson_obj (l : List (String × Json)) :
    canonJson (.obj l)
      = .obj ((orderedEntries l).foldl
          (fun acc q => jsObjSet acc q.1 (canonJson q.2)) []) := by
  rw [canonJson]
  congr 1
  exact List.foldl_attach (orderedEntries l) (fun acc q => jsObjSet acc q.1 (canonJson q.2)) []

theorem jsonWeight_arr (xs : List Json) :
    jsonWeight (.arr xs) = 1 + (xs.map (fun x => 1 + jsonWeight x)).sum := by
  rw [jsonWeight]
  congr 1
  rw [map_attach_fn xs (fun x => 1 + jsonWeight x)]

theorem jsonWeight_obj (l : List (String × Json)) :
    jsonWeight (.obj l)
      = 1 + ((orderedEntries l).map (fun q => 1 + jsonWeight q.2)).sum := by
  rw [jsonWeight]
  congr 1
  rw [map_attach_fn (orderedEntries l) (fun q => 1 + jsonWeight q.2)]

theorem jsonWeight_atom_le (v : Json) : 1 ≤ jsonWeight v := by
  cases v
  all_goals first
  | (rw [jsonWeight_arr]; omega)
  | (rw [jsonWeight_obj]; omega)
  | (simp [jsonWeight])

theorem goodJson_num (d : Dec) : goodJson (.num d) = decNormalB d := by rw [goodJson]

theorem goodJson_arr (xs : List Json) : goodJson (.arr xs) = xs.all goodJson := by
  rw [goodJson]
  exact all_attach xs goodJson

theorem goodJson_obj (l : List (String × Json)) :
    goodJson (.obj l) = (pairwiseKeys l && l.all (fun p => goodJson p.2)) := by
  rw [goodJson]
  rw [all_attach l (fun p => goodJson p.2)]

theorem jsonEquiv_arr (xs ys : List Json) :
    jsonEquiv (.arr xs) (.arr ys)
      = (xs.length == ys.length && (xs.zip ys).all (fun p => jsonEquiv p.1 p.2)) := by
  rw [jsonEquiv]
  rw [all_attach (xs.zip ys) (fun p => jsonEquiv p.1 p.2)]

theorem jsonEquiv_obj (l1 l2 : List (String × Json)) :
    jsonEquiv (.obj l1) (.obj l2)
      = ((l1.all (fun p =>
            match l2.lookup p.1 with
            | some w => jsonEquiv p.2 w
            | none => false))
          && l2.all (fun q => (l1.lookup q.1).isSome)) := by
  rw [jsonEquiv]
  rw [all_attach l1 (fun p =>
    match l2.lookup p.1 with
    | some w => jsonEquiv p.2 w
    | none => false)]

theorem intercalate_go_eq (s : String) :
    ∀ (t : List String) (b acc : String),
      String.intercalate.go acc s (b :: t)
        = acc ++ s ++ String.intercalate.go b s t := by
  intro t
  induction t with
  | nil => intro b acc; rfl
  | cons c t2 ih =>
    intro b acc
    show String.intercalate.go (acc ++ s ++ b) s (c :: t2) = _
    rw [ih c (acc ++ s ++ b), ih c b]
    simp [String.append_assoc]

theorem intercalate_single (s a : String) : String.intercalate s [a] = a := rfl

theorem intercalate_cons2 (s a b : String) (t : List String) :
    String.intercalate s (a :: b :: t) = a ++ s ++ String.intercalate s (b :: t) := by
  show String.intercalate.go a s (b :: t) = _
  rw [intercalate_go_eq s t b a]
  rfl

theorem hexVal_hexDigitChar {n : Nat} (h : n < 16) : hexVal (hexDigitChar n) = some n := by
  interval_cases n <;> rfl

theorem parseStrAux_esc (L : Char) {ch : Char} (hL : ¬ L = 'u') (hun : unescChar L = some ch)
    {X s1 r1 : List Char} (hX : parseStrAux X = some (s1, r1)) :
    parseStrAux ('\\' :: L :: X) = some (ch :: s1, r1) := by
  rw [parseStrAux]
  · rw [hun, hX]
  · intro a b cc d r5 hu
    exact absurd hu hL

theorem parseStrAux_inv : ∀ (s rest : List Char),
    parseStrAux (s.flatMap escChar ++ '"' :: rest) = some (s, rest) := by
  intro s
  induction s with
  | nil => intro rest; rfl
  | cons c t ih =>
    intro rest
    have hflat : (c :: t).flatMap escChar ++ '"' :: rest
        = escChar c ++ (t.flatMap escChar ++ '"' :: rest) := by
      rw [List.flatMap_cons, List.append_assoc]
    rw [hflat]
    by_cases h1 : c = '"'
    · subst h1
      exact parseStrAux_esc '"' (by decide) rfl (ih rest)
    · by_cases h2 : c = '\\'
      · subst h2
        exact parseStrAux_esc '\\' (by decide) rfl (ih rest)
      · by_cases h3 : c = '\x08'
        · subst h3
          exact parseStrAux_esc 'b' (by decide) rfl (ih rest)
        · by_cases h4 : c = '\x0C'
          · subst h4
            exact parseStrAux_esc 'f' (by decide) rfl (ih rest)
          · by_cases h5 : c = '\n'
            · subst h5
              exact parseStrAux_esc 'n' (by decide) rfl (ih rest)
            · by_cases h6 : c = '\r'
              · subst h6
                exact parseStrAux_esc 'r' (by decide) rfl (ih rest)
              · by_cases h7 : c = '\t'
                · subst h7
                  exact parseStrAux_esc 't' (by decide) rfl (ih rest)
                · by_cases h8 : c.toNat < 32
                  · have hesc : escChar c
                        = ['\\', 'u', '0', '0', hexDigitChar (c.toNat / 16),
                            hexDigitChar (c.toNat % 16)] := by
                      unfold escChar
                      rw [if_neg h1, if_neg h2, if_neg h3, if_neg h4, if_neg h5,
                        if_neg h6, if_neg h7, if_pos h8]
                    rw [hesc]
                    show parseStrAux ('\\' :: 'u' :: '0' :: '0'
                        :: hexDigitChar (c.toNat / 16) :: hexDigitChar (c.toNat % 16)
                        :: (t.flatMap escChar ++ '"' :: rest)) = _
                    rw [parseStrAux]
                    rw [show hexVal '0' = some 0 from rfl,
                      hexVal_hexDigitChar (show c.toNat / 16 < 16 by omega),
                      hexVal_hexDigitChar (show c.toNat % 16 < 16 by omega),
                      ih rest]
                    have hval : ((0 * 16 + 0) * 16 + c.toNat / 16) * 16 + c.toNat % 16
                        = c.toNat := by omega
                    show some (Char.ofNat (((0 * 16 + 0) * 16 + c.toNat / 16) * 16
                        + c.toNat % 16) :: t, rest) = some (c :: t, rest)
                    rw [hval, Char.ofNat_toNat]
                  · have hesc : escChar c = [c] := by
                      unfold escChar
                      rw [if_neg h1, if_neg h2, if_neg h3, if_neg h4, if_neg h5,
                        if_neg h6, if_neg h7, if_neg h8]
                    rw [hesc]
                    show parseStrAux (c :: (t.flatMap escChar ++ '"' :: rest)) = _
                    rw [parseStrAux]
                    · rw [if_neg h8, ih rest]
                    · exact h1
                    · intro a b cc d r5 hc
                      exact absurd hc h2
                    · intro e r5 hc
                      exact absurd hc h2

theorem numStop_nil : numStop [] := fun _ _ h => nomatch h

theorem takeWhile_append_stop {α : Type} {p : α → Bool} {xs rest : List α}
    (hall : ∀ x ∈ xs, p x = true) (hstop : ∀ c r, rest = c :: r → p c = false) :
    (xs ++ rest).takeWhile p = xs := by
  cases rest with
  | nil => rw [List.append_nil]; exact List.takeWhile_eq_self_iff.mpr hall
  | cons c r => exact takeWhile_append_all xs c r hall (hstop c r rfl)

theorem dropWhile_append_stop {α : Type} {p : α → Bool} {xs rest : List α}
    (hall : ∀ x ∈ xs, p x = true) (hstop : ∀ c r, rest = c :: r → p c = false) :
    (xs ++ rest).dropWhile p = rest := by
  cases rest with
  | nil =>
    rw [List.append_nil]
    exact List.dropWhile_eq_nil_iff.mpr (fun x hx => hall x hx)
  | cons c r =>
    rw [dropWhile_append_all xs (c :: r) hall, List.dropWhile_cons,
      hstop c r rfl]
    simp

theorem digitsVal_foldl : ∀ (l : List Char) (a : Nat),
    l.foldl (fun acc c => acc * 10 + (c.toNat - 48)) a
      = a * 10 ^ l.length + digitsVal l := by
  intro l
  induction l with
  | nil => intro a; simp [digitsVal]
  | cons c t ih =>
    intro a
    simp only [List.foldl_cons, List.length_cons]
    rw [ih (a * 10 + (c.toNat - 48))]
    have h2 : digitsVal (c :: t) = (c.toNat - 48) * 10 ^ t.length + digitsVal t := by
      show List.foldl (fun acc c => acc * 10 + (c.toNat - 48)) 0 (c :: t)
          = (c.toNat - 48) * 10 ^ t.length + digitsVal t
      simp only [List.foldl_cons]
      rw [ih (0 * 10 + (c.toNat - 48))]
      norm_num
    rw [h2, pow_succ]
    ring

theorem digitsVal_append (x y : List Char) :
    digitsVal (x ++ y) = digitsVal x * 10 ^ y.length + digitsVal y := by
  unfold digitsVal
  rw [List.foldl_append]
  rw [digitsVal_foldl y]
  rfl

theorem digitsVal_natDigits (n : Nat) : digitsVal (natDigits n) = n := by
  unfold digitsVal
  exact foldl_natDigits n

theorem digitsVal_replicate_zero (k : Nat) :
    digitsVal (List.replicate k '0') = 0 := by
  induction k with
  | zero => rfl
  | succ k ih =>
    rw [List.replicate_succ]
    unfold digitsVal at ih ⊢
    simp only [List.foldl_cons]
    have h0 : (0 * 10 + ('0'.toNat - 48)) = 0 := rfl
    rw [h0]
    exact ih

theorem digitChar_ne_zeroChar {d : Nat} (h1 : 0 < d) (h2 : d < 10) :
    ¬ digitChar d = '0' := by
  interval_cases d <;> decide

theorem natDigitsAux_head : ∀ (fuel : Nat) {n : Nat}, 0 < n → n ≤ fuel →
    ∀ c, (natDigitsAux fuel n).head? = some c → ¬ c = '0' := by
  intro fuel
  induction fuel with
  | zero => intro n h1 h2; omega
  | succ fuel ih =>
    intro n h1 h2 c hc
    rw [natDigitsAux, if_neg (by omega)] at hc
    by_cases hq : n / 10 = 0
    · rw [hq, natDigitsAux_zero] at hc
      simp at hc
      subst hc
      exact digitChar_ne_zeroChar (by omega) (by omega)
    · have hq1 : 0 < n / 10 := Nat.pos_of_ne_zero hq
      have hq2 : n / 10 ≤ fuel := by
        have := Nat.div_lt_self h1 (by norm_num : 1 < 10)
        omega
      have hne := (natDigitsAux_spec fuel (n / 10) hq1 hq2).2.1
      obtain ⟨c0, t0, hct⟩ := List.exists_cons_of_ne_nil hne
      rw [hct] at hc
      simp at hc
      subst hc
      exact ih hq1 hq2 c0 (by rw [hct]; rfl)

theorem natDigits_head {n : Nat} (h : 0 < n) :
    ∀ c, (natDigits n).head? = some c → ¬ c = '0' := by
  unfold natDigits
  rw [if_neg (by omega)]
  exact natDigitsAux_head n h (le_refl n)

theorem leadCheck_false {ds : List Char} (hne : ds ≠ [])
    (hh : ∀ c, ds.head? = some c → ¬ c = '0') :
    (1 < ds.length && ds.head? == some '0') = false := by
  obtain ⟨c, t, rfl⟩ := List.exists_cons_of_ne_nil hne
  have hc := hh c rfl
  simp [hc]

theorem leadCheck_false_single (c : Char) :
    (1 < ([c] : List Char).length && ([c] : List Char).head? == some '0') = false := by
  simp

theorem parseExpPart_stop {rest : List Char} (hstop : numStop rest) :
    parseExpPart rest = some (0, rest) := by
  cases rest with
  | nil => rfl
  | cons c r =>
    obtain ⟨-, -, he, hE⟩ := hstop c r rfl
    rw [parseExpPart]
    · intro r5 hc
      injection hc with h1 h2
      exact he h1
    · intro r5 hc
      injection hc with h1 h2
      exact hE h1

theorem parseNumFrom_int (neg : Bool) (ds rest : List Char) (hne : ds ≠ [])
    (hlead : (1 < ds.length && ds.head? == some '0') = false)
    (hstop : numStop rest) :
    parseNumFrom neg ds rest
      = some (⟨if neg then -(digitsVal ds : Int) else (digitsVal ds : Int), 0⟩, rest) := by
  rw [parseNumFrom, if_neg hne, if_neg (by rw [hlead]; decide)]
  · cases rest with
    | nil => rfl
    | cons c r => rw [parseExpPart_stop hstop]
  · exact fun r3 h => absurd rfl ((hstop '.' r3 h).2.1)

theorem parseNumFrom_frac (neg : Bool) (ds fs rest : List Char) (hne : ds ≠ [])
    (hlead : (1 < ds.length && ds.head? == some '0') = false)
    (hfne : fs ≠ []) (hfall : ∀ c ∈ fs, c.isDigit = true) (hstop : numStop rest) :
    parseNumFrom neg ds ('.' :: (fs ++ rest))
      = some (⟨if neg then -(digitsVal (ds ++ fs) : Int)
            else (digitsVal (ds ++ fs) : Int),
          -(fs.length : Int)⟩, rest) := by
  have hstop2 : ∀ c r, rest = c :: r → Char.isDigit c = false :=
    fun c r h => (hstop c r h).1
  have hts : List.takeWhile Char.isDigit (fs ++ rest) = fs :=
    takeWhile_append_stop hfall hstop2
  have hdr : List.dropWhile Char.isDigit (fs ++ rest) = rest :=
    dropWhile_append_stop hfall hstop2
  rw [parseNumFrom, if_neg hne, if_neg (by rw [hlead]; decide)]
  rw [hts, hdr, if_neg hfne, parseExpPart_stop hstop]
  simp only [Int.zero_sub]

theorem parseNumAux_eq_neg (t : List Char) :
    parseNumAux ('-' :: t)
      = parseNumFrom true (t.takeWhile Char.isDigit) (t.dropWhile Char.isDigit) := by
  rw [parseNumAux]

theorem parseNumAux_eq_pos {c0 : Char} (h : ¬ c0 = '-') (t : List Char) :
    parseNumAux (c0 :: t)
      = parseNumFrom false ((c0 :: t).takeWhile Char.isDigit)
          ((c0 :: t).dropWhile Char.isDigit) := by
  rw [parseNumAux]
  intro t2 hc
  injection hc with h1 h2
  exact h h1

theorem dropWhile_append_head {α : Type} {p : α → Bool} {xs : List α} {y : α}
    (ys : List α) (hall : ∀ x ∈ xs, p x = true) (hy : p y = false) :
    (xs ++ y :: ys).dropWhile p = y :: ys := by
  rw [dropWhile_append_all xs (y :: ys) hall, List.dropWhile_cons, hy]
  simp

theorem leadCheck_natDigits (n : Nat) :
    (1 < (natDigits n).length && (natDigits n).head? == some '0') = false := by
  by_cases hn : n = 0
  · subst hn; decide
  · exact leadCheck_false (natDigits_ne_nil n) (natDigits_head (Nat.pos_of_ne_zero hn))

theorem head_take_ne_zero {n j : Nat} (hn : 0 < n) (hj : 0 < j) :
    ∀ c, ((natDigits n).take j).head? = some c → ¬ c = '0' := by
  obtain ⟨c0, t0, hnd⟩ := List.exists_cons_of_ne_nil (natDigits_ne_nil n)
  obtain ⟨j2, rfl⟩ : ∃ j2, j = j2 + 1 := ⟨j - 1, by omega⟩
  intro c hc
  rw [hnd, List.take_succ_cons] at hc
  simp at hc
  subst hc
  exact natDigits_head hn _ (by rw [hnd]; rfl)

theorem renderDec_data_int {d : Dec} (he : d.e = 0) :
    (renderDec d).data = (if d.m < 0 then ['-'] else []) ++ natDigits d.m.natAbs := by
  unfold renderDec
  rw [if_pos (by omega : (0:Int) ≤ d.e), he]
  have h1 : d.m.natAbs * 10 ^ (0 : Int).toNat = d.m.natAbs := by norm_num
  rw [h1]
  by_cases hm : d.m < 0
  · rw [if_pos hm, if_pos hm]; rfl
  · rw [if_neg hm, if_neg hm]; rfl

theorem renderDec_data_frac1 {d : Dec} (he : d.e < 0)
    (hk : (-d.e).toNat < (natDigits d.m.natAbs).length) :
    (renderDec d).data
      = (if d.m < 0 then ['-'] else [])
        ++ ((natDigits d.m.natAbs).take
              ((natDigits d.m.natAbs).length - (-d.e).toNat)
          ++ '.' :: (natDigits d.m.natAbs).drop
              ((natDigits d.m.natAbs).length - (-d.e).toNat)) := by
  unfold renderDec
  rw [if_neg (by omega), if_pos hk]
  by_cases hm : d.m < 0
  · rw [if_pos hm, if_pos hm]
    simp [String.data_append]
  · rw [if_neg hm, if_neg hm]
    simp [String.data_append]

theorem renderDec_data_frac2 {d : Dec} (he : d.e < 0)
    (hk : ¬ (-d.e).toNat < (natDigits d.m.natAbs).length) :
    (renderDec d).data
      = (if d.m < 0 then ['-'] else [])
        ++ ('0' :: '.' :: (List.replicate
              ((-d.e).toNat - (natDigits d.m.natAbs).length) '0'
            ++ natDigits d.m.natAbs)) := by
  unfold renderDec
  rw [if_neg (by omega), if_neg hk]
  by_cases hm : d.m < 0
  · rw [if_pos hm, if_pos hm]
    simp [String.data_append]
  · rw [if_neg hm, if_neg hm]
    simp [String.data_append]

theorem parseNumAux_renderDec (d : Dec) (hnorm : Dec.normal d) {rest : List Char}
    (hstop : numStop rest) :
    parseNumAux ((renderDec d).data ++ rest) = some (d, rest) := by
  obtain ⟨he0, hm0, hdvd⟩ := hnorm
  have hstop1 : ∀ c r, rest = c :: r → Char.isDigit c = false :=
    fun c r h => (hstop c r h).1
  by_cases he : d.e = 0
  · rw [renderDec_data_int he]
    have hts : List.takeWhile Char.isDigit (natDigits d.m.natAbs ++ rest)
        = natDigits d.m.natAbs :=
      takeWhile_append_stop (natDigits_all_digit _) hstop1
    have hdr : List.dropWhile Char.isDigit (natDigits d.m.natAbs ++ rest) = rest :=
      dropWhile_append_stop (natDigits_all_digit _) hstop1
    by_cases hm : d.m < 0
    · rw [if_pos hm]
      have hshape : (['-'] ++ natDigits d.m.natAbs) ++ rest
          = '-' :: (natDigits d.m.natAbs ++ rest) := by simp
      rw [hshape, parseNumAux_eq_neg, hts, hdr,
        parseNumFrom_int true _ _ (natDigits_ne_nil _) (leadCheck_natDigits _) hstop,
        digitsVal_natDigits]
      have hmeq : (if (true : Bool) then -(d.m.natAbs : Int) else (d.m.natAbs : Int))
          = d.m := by
        rw [if_pos rfl]
        omega
      rw [hmeq, ← he]
    · rw [if_neg hm]
      obtain ⟨c0, t0, hnd⟩ := List.exists_cons_of_ne_nil (natDigits_ne_nil d.m.natAbs)
      have hc0d : c0.isDigit = true :=
        natDigits_all_digit d.m.natAbs c0 (by rw [hnd]; exact List.mem_cons_self _ _)
      have hc0m : ¬ c0 = '-' := by
        intro h
        rw [h] at hc0d
        exact absurd hc0d (by decide)
      rw [hnd] at hts hdr
      rw [List.cons_append] at hts hdr
      have hshape : ([] ++ (c0 :: t0)) ++ rest = c0 :: (t0 ++ rest) := by simp
      rw [hnd, hshape, parseNumAux_eq_pos hc0m, hts, hdr, ← hnd,
        parseNumFrom_int false _ _ (natDigits_ne_nil _) (leadCheck_natDigits _) hstop,
        digitsVal_natDigits]
      have hmeq : (if (false : Bool) then -(d.m.natAbs : Int) else (d.m.natAbs : Int))
          = d.m := by
        rw [if_neg (by decide)]
        omega
      rw [hmeq, ← he]
  · have hel : d.e < 0 := by omega
    have hmne : d.m ≠ 0 := fun h => he (hm0 h)
    have hn : 0 < d.m.natAbs := by omega
    have hk1 : 0 < (-d.e).toNat := by omega
    by_cases hk : (-d.e).toNat < (natDigits d.m.natAbs).length
    · rw [renderDec_data_frac1 hel hk]
      have hTlen : ((natDigits d.m.natAbs).take
          ((natDigits d.m.natAbs).length - (-d.e).toNat)).length
          = (natDigits d.m.natAbs).length - (-d.e).toNat := by
        rw [List.length_take]
        omega
      have hTne : (natDigits d.m.natAbs).take
          ((natDigits d.m.natAbs).length - (-d.e).toNat) ≠ [] := by
        intro h
        rw [h] at hTlen
        simp at hTlen
        omega
      have hallT : ∀ c ∈ (natDigits d.m.natAbs).take
          ((natDigits d.m.natAbs).length - (-d.e).toNat), c.isDigit = true :=
        fun c hc => natDigits_all_digit _ c (List.mem_of_mem_take hc)
      have hallD : ∀ c ∈ (natDigits d.m.natAbs).drop
          ((natDigits d.m.natAbs).length - (-d.e).toNat), c.isDigit = true :=
        fun c hc => natDigits_all_digit _ c (List.mem_of_mem_drop hc)
      have hDlen : ((natDigits d.m.natAbs).drop
          ((natDigits d.m.natAbs).length - (-d.e).toNat)).length = (-d.e).toNat := by
        rw [List.length_drop]
        omega
      have hDne : (natDigits d.m.natAbs).drop
          ((natDigits d.m.natAbs).length - (-d.e).toNat) ≠ [] := by
        intro h
        rw [h] at hDlen
        simp at hDlen
        omega
      have hlead := leadCheck_false hTne (head_take_ne_zero hn (by omega))
      have hts2 : List.takeWhile Char.isDigit
          ((natDigits d.m.natAbs).take ((natDigits d.m.natAbs).length - (-d.e).toNat)
            ++ '.' :: ((natDigits d.m.natAbs).drop
                ((natDigits d.m.natAbs).length - (-d.e).toNat) ++ rest))
          = (natDigits d.m.natAbs).take
              ((natDigits d.m.natAbs).length - (-d.e).toNat) :=
        takeWhile_append_all _ _ _ hallT (by decide)
      have hdr2 : List.dropWhile Char.isDigit
          ((natDigits d.m.natAbs).take ((natDigits d.m.natAbs).length - (-d.e).toNat)
            ++ '.' :: ((natDigits d.m.natAbs).drop
                ((natDigits d.m.natAbs).length - (-d.e).toNat) ++ rest))
          = '.' :: ((natDigits d.m.natAbs).drop
              ((natDigits d.m.natAbs).length - (-d.e).toNat) ++ rest) :=
        dropWhile_append_head _ hallT (by decide)
      by_cases hm : d.m < 0
      · rw [if_pos hm]
        have hshape : (['-'] ++ ((natDigits d.m.natAbs).take
              ((natDigits d.m.natAbs).length - (-d.e).toNat)
            ++ '.' :: (natDigits d.m.natAbs).drop
              ((natDigits d.m.natAbs).length - (-d.e).toNat))) ++ rest
            = '-' :: ((natDigits d.m.natAbs).take
                ((natDigits d.m.natAbs).length - (-d.e).toNat)
              ++ '.' :: ((natDigits d.m.natAbs).drop
                  ((natDigits d.m.natAbs).length - (-d.e).toNat) ++ rest)) := by
          simp
        rw [hshape, parseNumAux_eq_neg, hts2, hdr2,
          parseNumFrom_frac true _ _ rest hTne hlead hDne hallD hstop,
          List.take_append_drop, digitsVal_natDigits, hDlen]
        have hmeq : (if (true : Bool) then -(d.m.natAbs : Int) else (d.m.natAbs : Int))
            = d.m := by
          rw [if_pos rfl]
          omega
        have heeq : -(((-d.e).toNat : Nat) : Int) = d.e := by omega
        rw [hmeq, heeq]
      · rw [if_neg hm]
        obtain ⟨c0, t0, hT⟩ := List.exists_cons_of_ne_nil hTne
        have hc0d : c0.isDigit = true := hallT c0 (by rw [hT]; exact List.mem_cons_self _ _)
        have hc0m : ¬ c0 = '-' := by
          intro h
          rw [h] at hc0d
          exact absurd hc0d (by decide)
        rw [hT] at hts2 hdr2
        rw [List.cons_append] at hts2 hdr2
        have hshape : ([] ++ ((c0 :: t0)
            ++ '.' :: (natDigits d.m.natAbs).drop
              ((natDigits d.m.natAbs).length - (-d.e).toNat))) ++ rest
            = c0 :: (t0 ++ '.' :: ((natDigits d.m.natAbs).drop
                ((natDigits d.m.natAbs).length - (-d.e).toNat) ++ rest)) := by
          simp
        rw [hT, hshape, parseNumAux_eq_pos hc0m]
        rw [show c0 :: (t0 ++ '.' :: ((natDigits d.m.natAbs).drop
            ((natDigits d.m.natAbs).length - (-d.e).toNat) ++ rest))
          = (c0 :: t0) ++ '.' :: ((natDigits d.m.natAbs).drop
              ((natDigits d.m.natAbs).length - (-d.e).toNat) ++ rest) from rfl] at hts2 hdr2 ⊢
        rw [hts2, hdr2, ← hT,
          parseNumFrom_frac false _ _ rest hTne hlead hDne hallD hstop,
          List.take_append_drop, digitsVal_natDigits, hDlen]
        have hmeq : (if (false : Bool) then -(d.m.natAbs : Int) else (d.m.natAbs : Int))
            = d.m := by
          rw [if_neg (by decide)]
          omega
        have heeq : -(((-d.e).toNat : Nat) : Int) = d.e := by omega
        rw [hmeq, heeq]
    · rw [renderDec_data_frac2 hel hk]
      have hfne : List.replicate ((-d.e).toNat - (natDigits d.m.natAbs).length) '0'
          ++ natDigits d.m.natAbs ≠ [] := by
        intro h
        exact natDigits_ne_nil d.m.natAbs (List.append_eq_nil.mp h).2
      have hfall : ∀ c ∈ List.replicate ((-d.e).toNat - (natDigits d.m.natAbs).length) '0'
          ++ natDigits d.m.natAbs, c.isDigit = true := by
        intro c hc
        rcases List.mem_append.mp hc with h | h
        · rw [List.eq_of_mem_replicate h]; decide
        · exact natDigits_all_digit _ c h
      have hts3 : List.takeWhile Char.isDigit
          ('0' :: '.' :: ((List.replicate ((-d.e).toNat - (natDigits d.m.natAbs).length) '0'
            ++ natDigits d.m.natAbs) ++ rest)) = ['0'] := by
        rw [List.takeWhile_cons, List.takeWhile_cons]
        simp
      have hdr3 : List.dropWhile Char.isDigit
          ('0' :: '.' :: ((List.replicate ((-d.e).toNat - (natDigits d.m.natAbs).length) '0'
            ++ natDigits d.m.natAbs) ++ rest))
          = '.' :: ((List.replicate ((-d.e).toNat - (natDigits d.m.natAbs).length) '0'
            ++ natDigits d.m.natAbs) ++ rest) := by
        rw [List.dropWhile_cons, List.dropWhile_cons]
        simp
      by_cases hm : d.m < 0
      · rw [if_pos hm]
        have hshape : (['-'] ++ ('0' :: '.' :: (List.replicate
              ((-d.e).toNat - (natDigits d.m.natAbs).length) '0'
            ++ natDigits d.m.natAbs))) ++ rest
            = '-' :: ('0' :: '.' :: ((List.replicate
                ((-d.e).toNat - (natDigits d.m.natAbs).length) '0'
              ++ natDigits d.m.natAbs) ++ rest)) := by
          simp
        rw [hshape, parseNumAux_eq_neg, hts3, hdr3]
        rw [show '.' :: ((List.replicate ((-d.e).toNat - (natDigits d.m.natAbs).length) '0'
            ++ natDigits d.m.natAbs) ++ rest)
          = '.' :: ((List.replicate ((-d.e).toNat - (natDigits d.m.natAbs).length) '0'
            ++ natDigits d.m.natAbs) ++ rest) from rfl]
        rw [parseNumFrom_frac true ['0'] _ rest (by simp) (leadCheck_false_single '0')
          hfne hfall hstop]
        rw [digitsVal_append, digitsVal_append, digitsVal_replicate_zero,
          digitsVal_natDigits]
        rw [show digitsVal ['0'] = 0 from rfl]
        simp only [Nat.zero_mul, Nat.zero_add, List.length_append, List.length_replicate]
        have hlen : (-d.e).toNat - (natDigits d.m.natAbs).length
            + (natDigits d.m.natAbs).length = (-d.e).toNat := by omega
        rw [hlen]
        have h1 : -(d.m.natAbs : Int) = d.m := by omega
        have h2 : -(((-d.e).toNat : Nat) : Int) = d.e := by omega
        simp only [if_true, h1, h2]
      · rw [if_neg hm]
        have hshape : ([] ++ ('0' :: '.' :: (List.replicate
              ((-d.e).toNat - (natDigits d.m.natAbs).length) '0'
            ++ natDigits d.m.natAbs))) ++ rest
            = '0' :: ('.' :: ((List.replicate
                ((-d.e).toNat - (natDigits d.m.natAbs).length) '0'
              ++ natDigits d.m.natAbs) ++ rest)) := by
          simp
        rw [hshape, parseNumAux_eq_pos (by decide)]
        rw [show ('0' : Char) :: ('.' :: ((List.replicate
            ((-d.e).toNat - (natDigits d.m.natAbs).length) '0'
          ++ natDigits d.m.natAbs) ++ rest))
          = '0' :: '.' :: ((List.replicate ((-d.e).toNat - (natDigits d.m.natAbs).length) '0'
            ++ natDigits d.m.natAbs) ++ rest) from rfl]
        rw [hts3, hdr3]
        rw [parseNumFrom_frac false ['0'] _ rest (by simp) (leadCheck_false_single '0')
          hfne hfall hstop]
        rw [digitsVal_append, digitsVal_append, digitsVal_replicate_zero,
          digitsVal_natDigits]
        rw [show digitsVal ['0'] = 0 from rfl]
        simp only [Nat.zero_mul, Nat.zero_add, List.length_append, List.length_replicate]
        have hlen : (-d.e).toNat - (natDigits d.m.natAbs).length
            + (natDigits d.m.natAbs).length = (-d.e).toNat := by omega
        rw [hlen]
        have h1 : ((d.m.natAbs : Nat) : Int) = d.m := by omega
        have h2 : -(((-d.e).toNat : Nat) : Int) = d.e := by omega
        simp only [Bool.false_eq_true, if_false, h1, h2]

theorem parseVal_step_null {input r : List Char} (fuel : Nat)
    (hskip : skipWs input = 'n' :: 'u' :: 'l' :: 'l' :: r) :
    parseVal (fuel + 1) input = some (.null, r) := by
  rw [parseVal, hskip]
  rfl

theorem parseVal_step_true {input r : List Char} (fuel : Nat)
    (hskip : skipWs input = 't' :: 'r' :: 'u' :: 'e' :: r) :
    parseVal (fuel + 1) input = some (.bool true, r) := by
  rw [parseVal, hskip]
  rfl

theorem parseVal_step_false {input r : List Char} (fuel : Nat)
    (hskip : skipWs input = 'f' :: 'a' :: 'l' :: 's' :: 'e' :: r) :
    parseVal (fuel + 1) input = some (.bool false, r) := by
  rw [parseVal, hskip]
  rfl

theorem parseVal_step_str {input r s r2 : List Char} (fuel : Nat)
    (hskip : skipWs input = '"' :: r)
    (hstr : parseStrAux r = some (s, r2)) :
    parseVal (fuel + 1) input = some (.str (String.mk s), r2) := by
  rw [parseVal, hskip]
  show (match parseStrAux r with
    | some (s, r2) => some (Json.str (String.mk s), r2)
    | none => none) = some (.str (String.mk s), r2)
  rw [hstr]

theorem parseVal_step_num {input r r2 : List Char} {c : Char} {dv : Dec} (fuel : Nat)
    (hskip : skipWs input = c :: r)
    (hcd : c = '-' ∨ c.isDigit = true)
    (hnum : parseNumAux (c :: r) = some (dv, r2)) :
    parseVal (fuel + 1) input = some (.num dv, r2) := by
  have hn : ¬ c = 'n' := by
    rcases hcd with rfl | hd
    · decide
    · rintro rfl; simp at hd
  have ht : ¬ c = 't' := by
    rcases hcd with rfl | hd
    · decide
    · rintro rfl; simp at hd
  have hf : ¬ c = 'f' := by
    rcases hcd with rfl | hd
    · decide
    · rintro rfl; simp at hd
  have hq : ¬ c = '"' := by
    rcases hcd with rfl | hd
    · decide
    · rintro rfl; simp at hd
  have hb : ¬ c = '[' := by
    rcases hcd with rfl | hd
    · decide
    · rintro rfl; simp at hd
  have hc2 : ¬ c = '\x7b' := by
    rcases hcd with rfl | hd
    · decide
    · rintro rfl; simp at hd
  have hcb : (decide (c = '-') || c.isDigit) = true := by
    rcases hcd with rfl | hd
    · simp
    · simp [hd]
  rw [parseVal, hskip]
  split
  · next heq => injection heq with e1 e2; exact absurd e1 hn
  · next heq => injection heq with e1 e2; exact absurd e1 ht
  · next heq => injection heq with e1 e2; exact absurd e1 hf
  · next heq => injection heq with e1 e2; exact absurd e1 hq
  · next heq => injection heq with e1 e2; exact absurd e1 hb
  · next heq => injection heq with e1 e2; exact absurd e1 hc2
  · next c3 r3 heq =>
    injection heq with e1 e2
    subst e1
    subst e2
    rw [if_pos hcb, hnum]
  · next heq => exact nomatch heq

theorem parseVal_step_arr_nil {input r r2 : List Char} (fuel : Nat)
    (hskip : skipWs input = '[' :: r)
    (hskip2 : skipWs r = ']' :: r2) :
    parseVal (fuel + 1) input = some (.arr [], r2) := by
  rw [parseVal, hskip]
  show (match skipWs r with
    | ']' :: r2 => some (Json.arr [], r2)
    | r2 =>
      match parseElems fuel r2 with
      | some (xs, r3) => some (Json.arr xs, r3)
      | none => none) = some (.arr [], r2)
  rw [hskip2]
  rfl

theorem parseVal_step_arr {input r r2 r3 : List Char} {c : Char} {xs : List Json}
    (fuel : Nat)
    (hskip : skipWs input = '[' :: r)
    (hskip2 : skipWs r = c :: r2) (hc : ¬ c = ']')
    (helems : parseElems fuel (c :: r2) = some (xs, r3)) :
    parseVal (fuel + 1) input = some (.arr xs, r3) := by
  rw [parseVal, hskip]
  show (match skipWs r with
    | ']' :: r2 => some (Json.arr [], r2)
    | r2 =>
      match parseElems fuel r2 with
      | some (xs, r3) => some (Json.arr xs, r3)
      | none => none) = some (.arr xs, r3)
  rw [hskip2]
  split
  · next heq => injection heq with e1 e2; exact absurd e1 hc
  · next heq =>
    rw [helems]

theorem parseVal_step_obj_nil {input r r2 : List Char} (fuel : Nat)
    (hskip : skipWs input = '\x7b' :: r)
    (hskip2 : skipWs r = '\x7d' :: r2) :
    parseVal (fuel + 1) input = some (.obj [], r2) := by
  rw [parseVal, hskip]
  show (match skipWs r with
    | '\x7d' :: r2 => some (Json.obj [], r2)
    | r2 =>
      match parseMembers fuel [] r2 with
      | some (l, r3) => some (Json.obj l, r3)
      | none => none) = some (.obj [], r2)
  rw [hskip2]
  rfl

theorem parseVal_step_obj {input r r2 r3 : List Char} {c : Char}
    {l : List (String × Json)} (fuel : Nat)
    (hskip : skipWs input = '\x7b' :: r)
    (hskip2 : skipWs r = c :: r2) (hc : ¬ c = '\x7d')
    (hmem : parseMembers fuel [] (c :: r2) = some (l, r3)) :
    parseVal (fuel + 1) input = some (.obj l, r3) := by
  rw [parseVal, hskip]
  show (match skipWs r with
    | '\x7d' :: r2 => some (Json.obj [], r2)
    | r2 =>
      match parseMembers fuel [] r2 with
      | some (l, r3) => some (Json.obj l, r3)
      | none => none) = some (.obj l, r3)
  rw [hskip2]
  split
  · next heq => injection heq with e1 e2; exact absurd e1 hc
  · next heq =>
    rw [hmem]

theorem parseElems_step_more {input r r2 r3 : List Char} {v : Json} {xs : List Json}
    (fuel : Nat)
    (hv : parseVal fuel input = some (v, r))
    (hskip : skipWs r = ',' :: r2)
    (hrest : parseElems fuel r2 = some (xs, r3)) :
    parseElems (fuel + 1) input = some (v :: xs, r3) := by
  rw [parseElems, hv]
  show (match skipWs r with
    | ',' :: r2 =>
      match parseElems fuel r2 with
      | some (xs, r3) => some (v :: xs, r3)
      | none => none
    | ']' :: r2 => some ([v], r2)
    | _ => none) = some (v :: xs, r3)
  rw [hskip]
  show (match parseElems fuel r2 with
    | some (xs, r3) => some (v :: xs, r3)
    | none => none) = some (v :: xs, r3)
  rw [hrest]

theorem parseElems_step_last {input r r2 : List Char} {v : Json} (fuel : Nat)
    (hv : parseVal fuel input = some (v, r))
    (hskip : skipWs r = ']' :: r2) :
    parseElems (fuel + 1) input = some ([v], r2) := by
  rw [parseElems, hv]
  show (match skipWs r with
    | ',' :: r2 =>
      match parseElems fuel r2 with
      | some (xs, r3) => some (v :: xs, r3)
      | none => none
    | ']' :: r2 => some ([v], r2)
    | _ => none) = some ([v], r2)
  rw [hskip]
  rfl

theorem parseMembers_step_more {input r r2 r3 r4 r5 r6 k : List Char} {v : Json}
    {acc l : List (String × Json)} (fuel : Nat)
    (hskip : skipWs input = '"' :: r)
    (hk : parseStrAux r = some (k, r2))
    (hskip2 : skipWs r2 = ':' :: r3)
    (hv : parseVal fuel r3 = some (v, r4))
    (hskip3 : skipWs r4 = ',' :: r5)
    (hrest : parseMembers fuel (jsObjSet acc (String.mk k) v) r5 = some (l, r6)) :
    parseMembers (fuel + 1) acc input = some (l, r6) := by
  rw [parseMembers, hskip]
  show (match parseStrAux r with
    | none => none
    | some (k, r2) =>
      match skipWs r2 with
      | ':' :: r3 =>
        match parseVal fuel r3 with
        | none => none
        | some (v, r4) =>
          match skipWs r4 with
          | ',' :: r5 => parseMembers fuel (jsObjSet acc (String.mk k) v) r5
          | '\x7d' :: r5 => some (jsObjSet acc (String.mk k) v, r5)
          | _ => none
      | _ => none) = some (l, r6)
  rw [hk]
  show (match skipWs r2 with
    | ':' :: r3 =>
      match parseVal fuel r3 with
      | none => none
      | some (v, r4) =>
        match skipWs r4 with
        | ',' :: r5 => parseMembers fuel (jsObjSet acc (String.mk k) v) r5
        | '\x7d' :: r5 => some (jsObjSet acc (String.mk k) v, r5)
        | _ => none
    | _ => none) = some (l, r6)
  rw [hskip2]
  show (match parseVal fuel r3 with
    | none => none
    | some (v, r4) =>
      match skipWs r4 with
      | ',' :: r5 => parseMembers fuel (jsObjSet acc (String.mk k) v) r5
      | '\x7d' :: r5 => some (jsObjSet acc (String.mk k) v, r5)
      | _ => none) = some (l, r6)
  rw [hv]
  show (match skipWs r4 with
    | ',' :: r5 => parseMembers fuel (jsObjSet acc (String.mk k) v) r5
    | '\x7d' :: r5 => some (jsObjSet acc (String.mk k) v, r5)
    | _ => none) = some (l, r6)
  rw [hskip3]
  show parseMembers fuel (jsObjSet acc (String.mk k) v) r5 = some (l, r6)
  exact hrest

theorem parseMembers_step_last {input r r2 r3 r4 r5 k : List Char} {v : Json}
    {acc : List (String × Json)} (fuel : Nat)
    (hskip : skipWs input = '"' :: r)
    (hk : parseStrAux r = some (k, r2))
    (hskip2 : skipWs r2 = ':' :: r3)
    (hv : parseVal fuel r3 = some (v, r4))
    (hskip3 : skipWs r4 = '\x7d' :: r5) :
    parseMembers (fuel + 1) acc input = some (jsObjSet acc (String.mk k) v, r5) := by
  rw [parseMembers, hskip]
  show (match parseStrAux r with
    | none => none
    | some (k, r2) =>
      match skipWs r2 with
      | ':' :: r3 =>
        match parseVal fuel r3 with
        | none => none
        | some (v, r4) =>
          match skipWs r4 with
          | ',' :: r5 => parseMembers fuel (jsObjSet acc (String.mk k) v) r5
          | '\x7d' :: r5 => some (jsObjSet acc (String.mk k) v, r5)
          | _ => none
      | _ => none) = some (jsObjSet acc (String.mk k) v, r5)
  rw [hk]
  show (match skipWs r2 with
    | ':' :: r3 =>
      match parseVal fuel r3 with
      | none => none
      | some (v, r4) =>
        match skipWs r4 with
        | ',' :: r5 => parseMembers fuel (jsObjSet acc (String.mk k) v) r5
        | '\x7d' :: r5 => some (jsObjSet acc (String.mk k) v, r5)
        | _ => none
    | _ => none) = some (jsObjSet acc (String.mk k) v, r5)
  rw [hskip2]
  show (match parseVal fuel r3 with
    | none => none
    | some (v, r4) =>
      match skipWs r4 with
      | ',' :: r5 => parseMembers fuel (jsObjSet acc (String.mk k) v) r5
      | '\x7d' :: r5 => some (jsObjSet acc (String.mk k) v, r5)
      | _ => none) = some (jsObjSet acc (String.mk k) v, r5)
  rw [hv]
  show (match skipWs r4 with
    | ',' :: r5 => parseMembers fuel (jsObjSet acc (String.mk k) v) r5
    | '\x7d' :: r5 => some (jsObjSet acc (String.mk k) v, r5)
    | _ => none) = some (jsObjSet acc (String.mk k) v, r5)
  rw [hskip3]
  rfl

theorem parseVal_ws_pre (pre : List Char) (h : ∀ c ∈ pre, wsChar c = true)
    (fuel : Nat) (input : List Char) :
    parseVal fuel (pre ++ input) = parseVal fuel input := by
  cases fuel with
  | zero => rfl
  | succ fuel =>
    rw [parseVal, parseVal, skipWs_ws_pre h]

theorem parseElems_ws_pre (pre : List Char) (h : ∀ c ∈ pre, wsChar c = true)
    (fuel : Nat) (input : List Char) :
    parseElems fuel (pre ++ input) = parseElems fuel input := by
  cases fuel with
  | zero => rfl
  | succ fuel =>
    rw [parseElems, parseElems, parseVal_ws_pre _ h]

theorem decNormalB_normal {d : Dec} (h : decNormalB d = true) : Dec.normal d := by
  unfold decNormalB at h
  simp only [Bool.and_eq_true, decide_eq_true_eq, Bool.or_eq_true, bne_iff_ne, ne_eq,
    beq_iff_eq] at h
  obtain ⟨⟨h1, h2⟩, h3⟩ := h
  refine ⟨h1, ?_, ?_⟩
  · intro hm
    rcases h2 with h2 | h2
    · exact absurd hm h2
    · exact h2
  · intro hel hdvd
    rcases h3 with h3 | h3
    · omega
    · exact h3 (Int.emod_eq_zero_of_dvd hdvd)

theorem renderDec_head {d : Dec} (hnorm : Dec.normal d) :
    ∃ c t, (renderDec d).data = c :: t ∧ (c = '-' ∨ c.isDigit = true) := by
  obtain ⟨he0, hm0, hdvd⟩ := hnorm
  by_cases he : d.e = 0
  · rw [renderDec_data_int he]
    by_cases hm : d.m < 0
    · exact ⟨'-', _, by rw [if_pos hm]; rfl, Or.inl rfl⟩
    · rw [if_neg hm]
      obtain ⟨c0, t0, hnd⟩ := List.exists_cons_of_ne_nil (natDigits_ne_nil d.m.natAbs)
      refine ⟨c0, t0, by rw [hnd]; rfl, Or.inr ?_⟩
      exact natDigits_all_digit _ c0 (by rw [hnd]; exact List.mem_cons_self _ _)
  · have hel : d.e < 0 := by omega
    have hmne : d.m ≠ 0 := fun h => he (hm0 h)
    have hn : 0 < d.m.natAbs := by omega
    by_cases hk : (-d.e).toNat < (natDigits d.m.natAbs).length
    · rw [renderDec_data_frac1 hel hk]
      have hTlen : ((natDigits d.m.natAbs).take
          ((natDigits d.m.natAbs).length - (-d.e).toNat)).length
          = (natDigits d.m.natAbs).length - (-d.e).toNat := by
        rw [List.length_take]
        omega
      have hTne : (natDigits d.m.natAbs).take
          ((natDigits d.m.natAbs).length - (-d.e).toNat) ≠ [] := by
        intro h
        rw [h] at hTlen
        simp at hTlen
        omega
      obtain ⟨c0, t0, hT⟩ := List.exists_cons_of_ne_nil hTne
      by_cases hm : d.m < 0
      · exact ⟨'-', _, by rw [if_pos hm]; rfl, Or.inl rfl⟩
      · refine ⟨c0, _, by rw [if_neg hm, hT]; rfl, Or.inr ?_⟩
        exact natDigits_all_digit _ c0
          (List.mem_of_mem_take (by rw [hT]; exact List.mem_cons_self _ _))
    · rw [renderDec_data_frac2 hel hk]
      by_cases hm : d.m < 0
      · exact ⟨'-', _, by rw [if_pos hm]; rfl, Or.inl rfl⟩
      · exact ⟨'0', _, by rw [if_neg hm]; rfl, Or.inr (by decide)⟩

theorem data_comma_nl : (",\n" : String).data = [',', '\n'] := rfl

theorem numStop_cons {c : Char} (h1 : c.isDigit = false) (h2 : ¬ c = '.')
    (h3 : ¬ c = 'e') (h4 : ¬ c = 'E') (r : List Char) : numStop (c :: r) := by
  intro c2 r2 hcr
  injection hcr with e1 e2
  subst e1
  exact ⟨h1, h2, h3, h4⟩

theorem skipWs_nl_pad (depth : Nat) {c : Char} (hc : wsChar c = false)
    (rest : List Char) :
    skipWs ('\n' :: ((padStr depth).data ++ c :: rest)) = c :: rest := by
  have h1 : ∀ x ∈ ('\n' :: (padStr depth).data), wsChar x = true := by
    intro x hx
    rcases List.mem_cons.mp hx with rfl | hx
    · decide
    · exact padStr_ws _ x hx
  have h2 := skipWs_ws_pre h1 (c :: rest)
  rw [List.cons_append] at h2
  rw [h2, skipWs_cons_not_ws hc]

theorem intercalate_map_cons2 {α : Type} (f : α → String) (s : String)
    (a b : α) (t : List α) :
    String.intercalate s ((a :: b :: t).map f)
      = f a ++ s ++ String.intercalate s ((b :: t).map f) := by
  rw [List.map_cons, List.map_cons, intercalate_cons2]

theorem parseElems_loop (N : Nat)
    (ihVal : ∀ (v : Json), sizeOf v ≤ N → goodJson v = true →
      ∀ (fuel depth : Nat) (rest : List Char), jsonWeight v ≤ fuel → numStop rest →
      parseVal fuel ((serializeValue v depth 2).data ++ rest)
        = some (canonJson v, rest)) :
    ∀ (xs : List Json), xs ≠ [] →
      (∀ x ∈ xs, sizeOf x ≤ N ∧ goodJson x = true) →
      ∀ (fuel depth : Nat) (rest : List Char),
        (xs.map (fun x => 1 + jsonWeight x)).sum ≤ fuel → numStop rest →
        parseElems fuel
          ((String.intercalate ",\n" (xs.map (fun x =>
              padStr ((depth + 1) * 2) ++ serializeValue x (depth + 1) 2))).data
            ++ '\n' :: ((padStr (depth * 2)).data ++ ']' :: rest))
          = some (xs.map canonJson, rest) := by
  intro xs
  induction xs with
  | nil => intro h; exact absurd rfl h
  | cons x xs ihxs =>
    intro _ hall fuel depth rest hfuel hstop
    rw [List.map_cons, List.sum_cons] at hfuel
    have hx := hall x (List.mem_cons_self _ _)
    obtain ⟨g, rfl⟩ : ∃ g, fuel = g + 1 := ⟨fuel - 1, by omega⟩
    cases xs with
    | nil =>
      rw [List.map_cons, List.map_nil, intercalate_single]
      have hshape : (padStr ((depth + 1) * 2) ++ serializeValue x (depth + 1) 2).data
            ++ '\n' :: ((padStr (depth * 2)).data ++ ']' :: rest)
          = (padStr ((depth + 1) * 2)).data
            ++ ((serializeValue x (depth + 1) 2).data
              ++ '\n' :: ((padStr (depth * 2)).data ++ ']' :: rest)) := by
        simp [String.data_append]
      rw [hshape]
      have hstop2 : numStop ('\n' :: ((padStr (depth * 2)).data ++ ']' :: rest)) :=
        numStop_cons (by decide) (by decide) (by decide) (by decide) _
      have hv : parseVal g ((padStr ((depth + 1) * 2)).data
            ++ ((serializeValue x (depth + 1) 2).data
              ++ '\n' :: ((padStr (depth * 2)).data ++ ']' :: rest)))
          = some (canonJson x, '\n' :: ((padStr (depth * 2)).data ++ ']' :: rest)) := by
        rw [parseVal_ws_pre _ (padStr_ws _)]
        exact ihVal x hx.1 hx.2 g (depth + 1) _ (by omega) hstop2
      have hskip : skipWs ('\n' :: ((padStr (depth * 2)).data ++ ']' :: rest))
          = ']' :: rest := skipWs_nl_pad _ (by decide) _
      exact parseElems_step_last g hv hskip
    | cons y ys =>
      rw [intercalate_map_cons2]
      have hshape : ((padStr ((depth + 1) * 2) ++ serializeValue x (depth + 1) 2)
            ++ ",\n" ++ String.intercalate ",\n" ((y :: ys).map (fun x =>
              padStr ((depth + 1) * 2) ++ serializeValue x (depth + 1) 2))).data
            ++ '\n' :: ((padStr (depth * 2)).data ++ ']' :: rest)
          = (padStr ((depth + 1) * 2)).data
            ++ ((serializeValue x (depth + 1) 2).data
              ++ ',' :: ('\n' :: ((String.intercalate ",\n" ((y :: ys).map (fun x =>
                  padStr ((depth + 1) * 2) ++ serializeValue x (depth + 1) 2))).data
                ++ '\n' :: ((padStr (depth * 2)).data ++ ']' :: rest)))) := by
        simp [String.data_append, data_comma_nl]
      rw [hshape]
      have hstop2 : numStop (',' :: ('\n' :: ((String.intercalate ",\n"
          ((y :: ys).map (fun x =>
            padStr ((depth + 1) * 2) ++ serializeValue x (depth + 1) 2))).data
          ++ '\n' :: ((padStr (depth * 2)).data ++ ']' :: rest)))) :=
        numStop_cons (by decide) (by decide) (by decide) (by decide) _
      have hv : parseVal g ((padStr ((depth + 1) * 2)).data
            ++ ((serializeValue x (depth + 1) 2).data
              ++ ',' :: ('\n' :: ((String.intercalate ",\n" ((y :: ys).map (fun x =>
                  padStr ((depth + 1) * 2) ++ serializeValue x (depth + 1) 2))).data
                ++ '\n' :: ((padStr (depth * 2)).data ++ ']' :: rest)))))
          = some (canonJson x, ',' :: ('\n' :: ((String.intercalate ",\n"
              ((y :: ys).map (fun x =>
                padStr ((depth + 1) * 2) ++ serializeValue x (depth + 1) 2))).data
              ++ '\n' :: ((padStr (depth * 2)).data ++ ']' :: rest)))) := by
        rw [parseVal_ws_pre _ (padStr_ws _)]
        exact ihVal x hx.1 hx.2 g (depth + 1) _ (by omega) hstop2
      have hskip : skipWs (',' :: ('\n' :: ((String.intercalate ",\n"
          ((y :: ys).map (fun x =>
            padStr ((depth + 1) * 2) ++ serializeValue x (depth + 1) 2))).data
          ++ '\n' :: ((padStr (depth * 2)).data ++ ']' :: rest))))
          = ',' :: ('\n' :: ((String.intercalate ",\n" ((y :: ys).map (fun x =>
              padStr ((depth + 1) * 2) ++ serializeValue x (depth + 1) 2))).data
            ++ '\n' :: ((padStr (depth * 2)).data ++ ']' :: rest))) :=
        skipWs_cons_not_ws (by decide) _
      have hrest : parseElems g ('\n' :: ((String.intercalate ",\n"
          ((y :: ys).map (fun x =>
            padStr ((depth + 1) * 2) ++ serializeValue x (depth + 1) 2))).data
          ++ '\n' :: ((padStr (depth * 2)).data ++ ']' :: rest)))
          = some ((y :: ys).map canonJson, rest) := by
        have h1 := parseElems_ws_pre ['\n'] (by
          intro c hc
          simp at hc
          subst hc
          decide) g ((String.intercalate ",\n" ((y :: ys).map (fun x =>
            padStr ((depth + 1) * 2) ++ serializeValue x (depth + 1) 2))).data
          ++ '\n' :: ((padStr (depth * 2)).data ++ ']' :: rest))
        rw [List.singleton_append] at h1
        rw [h1]
        exact ihxs (by simp) (fun p hp => hall p (List.mem_cons_of_mem x hp))
          g depth rest (by omega) hstop
      exact parseElems_step_more g hv hskip hrest

theorem data_colon_space : (": " : String).data = [':', ' '] := rfl

theorem jsonQuote_data (s : String) :
    (jsonQuote s).data = '"' :: (s.data.flatMap escChar ++ ['"']) := rfl

theorem parseMembers_ws_pre (pre : List Char) (h : ∀ c ∈ pre, wsChar c = true)
    (fuel : Nat) (acc : List (String × Json)) (input : List Char) :
    parseMembers fuel acc (pre ++ input) = parseMembers fuel acc input := by
  cases fuel with
  | zero => rfl
  | succ fuel =>
    rw [parseMembers, parseMembers, skipWs_ws_pre h]

theorem parseMembers_loop (N : Nat)
    (ihVal : ∀ (v : Json), sizeOf v ≤ N → goodJson v = true →
      ∀ (fuel depth : Nat) (rest : List Char), jsonWeight v ≤ fuel → numStop rest →
      parseVal fuel ((serializeValue v depth 2).data ++ rest)
        = some (canonJson v, rest)) :
    ∀ (ents : List (String × Json)), ents ≠ [] →
      (∀ p ∈ ents, sizeOf p.2 ≤ N ∧ goodJson p.2 = true) →
      ∀ (acc : List (String × Json)) (fuel depth : Nat) (rest : List Char),
        (ents.map (fun q => 1 + jsonWeight q.2)).sum ≤ fuel → numStop rest →
        parseMembers fuel acc
          ((String.intercalate ",\n" (ents.map (fun kv =>
              padStr ((depth + 1) * 2) ++ jsonQuote kv.1 ++ ": "
                ++ serializeValue kv.2 (depth + 1) 2))).data
            ++ '\n' :: ((padStr (depth * 2)).data ++ '\x7d' :: rest))
          = some (ents.foldl (fun a q => jsObjSet a q.1 (canonJson q.2)) acc, rest) := by
  intro ents
  induction ents with
  | nil => intro h; exact absurd rfl h
  | cons p ents ihents =>
    obtain ⟨k, v⟩ := p
    intro _ hall acc fuel depth rest hfuel hstop
    rw [List.map_cons, List.sum_cons] at hfuel
    have hp := hall (k, v) (List.mem_cons_self _ _)
    obtain ⟨g, rfl⟩ : ∃ g, fuel = g + 1 := ⟨fuel - 1, by omega⟩
    cases ents with
    | nil =>
      rw [List.map_cons, List.map_nil, intercalate_single]
      have hshape : (padStr ((depth + 1) * 2) ++ jsonQuote k ++ ": "
            ++ serializeValue v (depth + 1) 2).data
            ++ '\n' :: ((padStr (depth * 2)).data ++ '\x7d' :: rest)
          = (padStr ((depth + 1) * 2)).data
            ++ ('"' :: (k.data.flatMap escChar ++ '"' :: (':' :: (' '
              :: ((serializeValue v (depth + 1) 2).data
                ++ '\n' :: ((padStr (depth * 2)).data ++ '\x7d' :: rest)))))) := by
        simp [String.data_append, jsonQuote_data, data_colon_space]
      rw [hshape]
      have hstop2 : numStop ('\n' :: ((padStr (depth * 2)).data ++ '\x7d' :: rest)) :=
        numStop_cons (by decide) (by decide) (by decide) (by decide) _
      have hskip : skipWs ((padStr ((depth + 1) * 2)).data
            ++ ('"' :: (k.data.flatMap escChar ++ '"' :: (':' :: (' '
              :: ((serializeValue v (depth + 1) 2).data
                ++ '\n' :: ((padStr (depth * 2)).data ++ '\x7d' :: rest)))))))
          = '"' :: (k.data.flatMap escChar ++ '"' :: (':' :: (' '
              :: ((serializeValue v (depth + 1) 2).data
                ++ '\n' :: ((padStr (depth * 2)).data ++ '\x7d' :: rest))))) := by
        rw [skipWs_ws_pre (padStr_ws _), skipWs_cons_not_ws (by decide)]
      have hk := parseStrAux_inv k.data (':' :: (' '
        :: ((serializeValue v (depth + 1) 2).data
          ++ '\n' :: ((padStr (depth * 2)).data ++ '\x7d' :: rest))))
      have hskip2 : skipWs (':' :: (' '
            :: ((serializeValue v (depth + 1) 2).data
              ++ '\n' :: ((padStr (depth * 2)).data ++ '\x7d' :: rest))))
          = ':' :: (' '
            :: ((serializeValue v (depth + 1) 2).data
              ++ '\n' :: ((padStr (depth * 2)).data ++ '\x7d' :: rest))) :=
        skipWs_cons_not_ws (by decide) _
      have hv : parseVal g (' '
            :: ((serializeValue v (depth + 1) 2).data
              ++ '\n' :: ((padStr (depth * 2)).data ++ '\x7d' :: rest)))
          = some (canonJson v, '\n' :: ((padStr (depth * 2)).data ++ '\x7d' :: rest)) := by
        have h1 := parseVal_ws_pre [' '] (by
          intro c hc
          simp at hc
          subst hc
          decide) g ((serializeValue v (depth + 1) 2).data
            ++ '\n' :: ((padStr (depth * 2)).data ++ '\x7d' :: rest))
        rw [List.singleton_append] at h1
        rw [h1]
        have hw : jsonWeight (k, v).2 = jsonWeight v := rfl
        rw [hw] at hfuel
        exact ihVal v hp.1 hp.2 g (depth + 1) _ (by omega) hstop2
      have hskip3 : skipWs ('\n' :: ((padStr (depth * 2)).data ++ '\x7d' :: rest))
          = '\x7d' :: rest := skipWs_nl_pad _ (by decide) _
      exact parseMembers_step_last g hskip hk hskip2 hv hskip3
    | cons q ents2 =>
      rw [intercalate_map_cons2]
      have hshape : ((padStr ((depth + 1) * 2) ++ jsonQuote k ++ ": "
            ++ serializeValue v (depth + 1) 2) ++ ",\n"
            ++ String.intercalate ",\n" ((q :: ents2).map (fun kv =>
              padStr ((depth + 1) * 2) ++ jsonQuote kv.1 ++ ": "
                ++ serializeValue kv.2 (depth + 1) 2))).data
            ++ '\n' :: ((padStr (depth * 2)).data ++ '\x7d' :: rest)
          = (padStr ((depth + 1) * 2)).data
            ++ ('"' :: (k.data.flatMap escChar ++ '"' :: (':' :: (' '
              :: ((serializeValue v (depth + 1) 2).data
                ++ ',' :: ('\n' :: ((String.intercalate ",\n" ((q :: ents2).map (fun kv =>
                    padStr ((depth + 1) * 2) ++ jsonQuote kv.1 ++ ": "
                      ++ serializeValue kv.2 (depth + 1) 2))).data
                  ++ '\n' :: ((padStr (depth * 2)).data ++ '\x7d' :: rest)))))))) := by
        simp [String.data_append, jsonQuote_data, data_colon_space, data_comma_nl]
      rw [hshape]
      have hstop2 : numStop (',' :: ('\n' :: ((String.intercalate ",\n"
          ((q :: ents2).map (fun kv =>
            padStr ((depth + 1) * 2) ++ jsonQuote kv.1 ++ ": "
              ++ serializeValue kv.2 (depth + 1) 2))).data
          ++ '\n' :: ((padStr (depth * 2)).data ++ '\x7d' :: rest)))) :=
        numStop_cons (by decide) (by decide) (by decide) (by decide) _
      have hskip : skipWs ((padStr ((depth + 1) * 2)).data
            ++ ('"' :: (k.data.flatMap escChar ++ '"' :: (':' :: (' '
              :: ((serializeValue v (depth + 1) 2).data
                ++ ',' :: ('\n' :: ((String.intercalate ",\n" ((q :: ents2).map (fun kv =>
                    padStr ((depth + 1) * 2) ++ jsonQuote kv.1 ++ ": "
                      ++ serializeValue kv.2 (depth + 1) 2))).data
                  ++ '\n' :: ((padStr (depth * 2)).data ++ '\x7d' :: rest)))))))))
          = '"' :: (k.data.flatMap escChar ++ '"' :: (':' :: (' '
              :: ((serializeValue v (depth + 1) 2).data
                ++ ',' :: ('\n' :: ((String.intercalate ",\n" ((q :: ents2).map (fun kv =>
                    padStr ((depth + 1) * 2) ++ jsonQuote kv.1 ++ ": "
                      ++ serializeValue kv.2 (depth + 1) 2))).data
                  ++ '\n' :: ((padStr (depth * 2)).data ++ '\x7d' :: rest))))))) := by
        rw [skipWs_ws_pre (padStr_ws _), skipWs_cons_not_ws (by decide)]
      have hk := parseStrAux_inv k.data (':' :: (' '
        :: ((serializeValue v (depth + 1) 2).data
          ++ ',' :: ('\n' :: ((String.intercalate ",\n" ((q :: ents2).map (fun kv =>
              padStr ((depth + 1) * 2) ++ jsonQuote kv.1 ++ ": "
                ++ serializeValue kv.2 (depth + 1) 2))).data
            ++ '\n' :: ((padStr (depth * 2)).data ++ '\x7d' :: rest))))))
      have hskip2 : skipWs (':' :: (' '
            :: ((serializeValue v (depth + 1) 2).data
              ++ ',' :: ('\n' :: ((String.intercalate ",\n" ((q :: ents2).map (fun kv =>
                  padStr ((depth + 1) * 2) ++ jsonQuote kv.1 ++ ": "
                    ++ serializeValue kv.2 (depth + 1) 2))).data
                ++ '\n' :: ((padStr (depth * 2)).data ++ '\x7d' :: rest))))))
          = ':' :: (' '
            :: ((serializeValue v (depth + 1) 2).data
              ++ ',' :: ('\n' :: ((String.intercalate ",\n" ((q :: ents2).map (fun kv =>
                  padStr ((depth + 1) * 2) ++ jsonQuote kv.1 ++ ": "
                    ++ serializeValue kv.2 (depth + 1) 2))).data
                ++ '\n' :: ((padStr (depth * 2)).data ++ '\x7d' :: rest))))) :=
        skipWs_cons_not_ws (by decide) _
      have hv : parseVal g (' '
            :: ((serializeValue v (depth + 1) 2).data
              ++ ',' :: ('\n' :: ((String.intercalate ",\n" ((q :: ents2).map (fun kv =>
                  padStr ((depth + 1) * 2) ++ jsonQuote kv.1 ++ ": "
                    ++ serializeValue kv.2 (depth + 1) 2))).data
                ++ '\n' :: ((padStr (depth * 2)).data ++ '\x7d' :: rest)))))
          = some (canonJson v, ',' :: ('\n' :: ((String.intercalate ",\n"
              ((q :: ents2).map (fun kv =>
                padStr ((depth + 1) * 2) ++ jsonQuote kv.1 ++ ": "
                  ++ serializeValue kv.2 (depth + 1) 2))).data
              ++ '\n' :: ((padStr (depth * 2)).data ++ '\x7d' :: rest)))) := by
        have h1 := parseVal_ws_pre [' '] (by
          intro c hc
          simp at hc
          subst hc
          decide) g ((serializeValue v (depth + 1) 2).data
            ++ ',' :: ('\n' :: ((String.intercalate ",\n" ((q :: ents2).map (fun kv =>
                padStr ((depth + 1) * 2) ++ jsonQuote kv.1 ++ ": "
                  ++ serializeValue kv.2 (depth + 1) 2))).data
              ++ '\n' :: ((padStr (depth * 2)).data ++ '\x7d' :: rest))))
        rw [List.singleton_append] at h1
        rw [h1]
        have hw : jsonWeight (k, v).2 = jsonWeight v := rfl
        rw [hw] at hfuel
        exact ihVal v hp.1 hp.2 g (depth + 1) _ (by omega) hstop2
      have hskip3 : skipWs (',' :: ('\n' :: ((String.intercalate ",\n"
          ((q :: ents2).map (fun kv =>
            padStr ((depth + 1) * 2) ++ jsonQuote kv.1 ++ ": "
              ++ serializeValue kv.2 (depth + 1) 2))).data
          ++ '\n' :: ((padStr (depth * 2)).data ++ '\x7d' :: rest))))
          = ',' :: ('\n' :: ((String.intercalate ",\n" ((q :: ents2).map (fun kv =>
              padStr ((depth + 1) * 2) ++ jsonQuote kv.1 ++ ": "
                ++ serializeValue kv.2 (depth + 1) 2))).data
            ++ '\n' :: ((padStr (depth * 2)).data ++ '\x7d' :: rest))) :=
        skipWs_cons_not_ws (by decide) _
      have hrest : parseMembers g (jsObjSet acc (String.mk k.data) (canonJson v))
          ('\n' :: ((String.intercalate ",\n" ((q :: ents2).map (fun kv =>
              padStr ((depth + 1) * 2) ++ jsonQuote kv.1 ++ ": "
                ++ serializeValue kv.2 (depth + 1) 2))).data
            ++ '\n' :: ((padStr (depth * 2)).data ++ '\x7d' :: rest)))
          = some ((q :: ents2).foldl (fun a q2 => jsObjSet a q2.1 (canonJson q2.2))
              (jsObjSet acc (String.mk k.data) (canonJson v)), rest) := by
        have h1 := parseMembers_ws_pre ['\n'] (by
          intro c hc
          simp at hc
          subst hc
          decide) g (jsObjSet acc (String.mk k.data) (canonJson v))
          ((String.intercalate ",\n" ((q :: ents2).map (fun kv =>
              padStr ((depth + 1) * 2) ++ jsonQuote kv.1 ++ ": "
                ++ serializeValue kv.2 (depth + 1) 2))).data
            ++ '\n' :: ((padStr (depth * 2)).data ++ '\x7d' :: rest))
        rw [List.singleton_append] at h1
        rw [h1]
        exact ihents (by simp) (fun p hp => hall p (List.mem_cons_of_mem (k, v) hp))
          (jsObjSet acc (String.mk k.data) (canonJson v)) g depth rest (by
            have hw : jsonWeight (k, v).2 = jsonWeight v := rfl
            rw [hw] at hfuel
            omega) hstop
      rw [List.foldl_cons]
      exact parseMembers_step_more g hskip hk hskip2 hv hskip3 hrest

theorem data_head_append {a : String} {c : Char} {t : List Char}
    (h : a.data = c :: t) (b : String) : ∃ t2, (a ++ b).data = c :: t2 := by
  refine ⟨t ++ b.data, ?_⟩
  show a.data ++ b.data = c :: (t ++ b.data)
  rw [h]
  rfl

theorem intercalate_head (s a : String) (t : List String) :
    ∃ suf, String.intercalate s (a :: t) = a ++ suf := by
  cases t with
  | nil => exact ⟨"", by rw [intercalate_single, String.append_empty]⟩
  | cons b t2 =>
    exact ⟨s ++ String.intercalate s (b :: t2), by
      rw [intercalate_cons2, String.append_assoc]⟩

theorem orderedEntries_ne_nil {l : List (String × Json)} (h : l ≠ []) :
    orderedEntries l ≠ [] := by
  obtain ⟨⟨k, v⟩, t, rfl⟩ := List.exists_cons_of_ne_nil h
  intro hc
  unfold orderedEntries at hc
  rcases List.append_eq_nil.mp hc with ⟨h1, h2⟩
  by_cases hk : PRIORITY.contains k
  · have hkmem : k ∈ PRIORITY := by simpa using hk
    have hlk : ((k, v) :: t).lookup k = some v := by simp [List.lookup]
    have hmem : (k, v) ∈ PRIORITY.filterMap
        (fun pk => (((k, v) :: t).lookup pk).map (fun v => (pk, v))) := by
      apply List.mem_filterMap.mpr
      refine ⟨k, hkmem, ?_⟩
      rw [hlk]
      rfl
    rw [h1] at hmem
    exact absurd hmem (List.not_mem_nil _)
  · have hmem : (k, v) ∈ ((k, v) :: t).filter (fun kv => !(PRIORITY.contains kv.1)) := by
      apply List.mem_filter.mpr
      refine ⟨List.mem_cons_self _ _, ?_⟩
      cases hcc : PRIORITY.contains k
      · rfl
      · exact absurd hcc hk
    rw [h2] at hmem
    exact absurd hmem (List.not_mem_nil _)

theorem serializeValue_head (v : Json) (hgood : goodJson v = true) (depth : Nat) :
    ∃ c t, (serializeValue v depth 2).data = c :: t
      ∧ wsChar c = false ∧ ¬ c = ']' ∧ ¬ c = '\x7d' := by
  cases v with
  | null =>
    exact ⟨'n', ['u', 'l', 'l'], by rw [serializeValue_null], by decide, by decide,
      by decide⟩
  | bool b =>
    cases b with
    | true =>
      refine ⟨'t', ['r', 'u', 'e'], ?_, by decide, by decide, by decide⟩
      rw [serializeValue_bool]
      rfl
    | false =>
      refine ⟨'f', ['a', 'l', 's', 'e'], ?_, by decide, by decide, by decide⟩
      rw [serializeValue_bool]
      rfl
  | num d =>
    rw [goodJson_num] at hgood
    obtain ⟨c, t, hdata, hcd⟩ := renderDec_head (decNormalB_normal hgood)
    refine ⟨c, t, by rw [serializeValue_num]; exact hdata, ?_, ?_, ?_⟩
    · rcases hcd with rfl | hd
      · decide
      · exact wsChar_of_isDigit hd
    · rcases hcd with rfl | hd
      · decide
      · rintro rfl; simp at hd
    · rcases hcd with rfl | hd
      · decide
      · rintro rfl; simp at hd
  | str s =>
    exact ⟨'"', s.data.flatMap escChar ++ ['"'],
      by rw [serializeValue_str, jsonQuote_data], by decide, by decide, by decide⟩
  | arr xs =>
    cases xs with
    | nil =>
      exact ⟨'[', [']'], by rw [serializeValue_arr_nil], by decide, by decide, by decide⟩
    | cons x xs2 =>
      have h0 : ("[\n" : String).data = '[' :: ['\n'] := rfl
      obtain ⟨t1, h1⟩ := data_head_append h0 (String.intercalate ",\n"
        ((x :: xs2).map (fun y =>
          padStr ((depth + 1) * 2) ++ serializeValue y (depth + 1) 2)))
      obtain ⟨t2, h2⟩ := data_head_append h1 "\n"
      obtain ⟨t3, h3⟩ := data_head_append h2 (padStr (depth * 2))
      obtain ⟨t4, h4⟩ := data_head_append h3 "]"
      refine ⟨'[', t4, ?_, by decide, by decide, by decide⟩
      rw [serializeValue_arr _ (by simp)]
      exact h4
  | obj l =>
    cases l with
    | nil =>
      exact ⟨'\x7b', ['\x7d'], by rw [serializeValue_obj_nil], by decide, by decide,
        by decide⟩
    | cons p l2 =>
      have h0 : ("\x7b\n" : String).data = '\x7b' :: ['\n'] := rfl
      obtain ⟨t1, h1⟩ := data_head_append h0 (String.intercalate ",\n"
        ((orderedEntries (p :: l2)).map (fun kv =>
          padStr ((depth + 1) * 2) ++ jsonQuote kv.1 ++ ": "
            ++ serializeValue kv.2 (depth + 1) 2)))
      obtain ⟨t2, h2⟩ := data_head_append h1 "\n"
      obtain ⟨t3, h3⟩ := data_head_append h2 (padStr (depth * 2))
      obtain ⟨t4, h4⟩ := data_head_append h3 "\x7d"
      refine ⟨'\x7b', t4, ?_, by decide, by decide, by decide⟩
      rw [serializeValue_obj _ (by simp)]
      exact h4

theorem parseVal_ser_aux (N : Nat) :
    ∀ (v : Json), sizeOf v ≤ N → goodJson v = true →
    ∀ (fuel depth : Nat) (rest : List Char), jsonWeight v ≤ fuel → numStop rest →
      parseVal fuel ((serializeValue v depth 2).data ++ rest)
        = some (canonJson v, rest) := by
  induction N with
  | zero =>
    intro v hv
    exact absurd hv (by cases v <;> simp)
  | succ N ihN =>
    intro v hsz hgood fuel depth rest hfuel hstop
    obtain ⟨g, rfl⟩ : ∃ g, fuel = g + 1 := ⟨fuel - 1, by
      have := jsonWeight_atom_le v
      omega⟩
    cases v with
    | null =>
      rw [serializeValue_null, canonJson_null]
      exact parseVal_step_null g (by
        show skipWs ('n' :: 'u' :: 'l' :: 'l' :: rest) = 'n' :: 'u' :: 'l' :: 'l' :: rest
        exact skipWs_cons_not_ws (by decide) _)
    | bool b =>
      cases b with
      | true =>
        rw [serializeValue_bool, if_pos rfl, canonJson_bool]
        exact parseVal_step_true g (by
          show skipWs ('t' :: 'r' :: 'u' :: 'e' :: rest) = 't' :: 'r' :: 'u' :: 'e' :: rest
          exact skipWs_cons_not_ws (by decide) _)
      | false =>
        rw [serializeValue_bool, if_neg (by decide), canonJson_bool]
        exact parseVal_step_false g (by
          show skipWs ('f' :: 'a' :: 'l' :: 's' :: 'e' :: rest)
            = 'f' :: 'a' :: 'l' :: 's' :: 'e' :: rest
          exact skipWs_cons_not_ws (by decide) _)
    | num d =>
      rw [serializeValue_num, canonJson_num]
      rw [goodJson_num] at hgood
      have hnorm := decNormalB_normal hgood
      obtain ⟨c, t, hdata, hcd⟩ := renderDec_head hnorm
      have hws : wsChar c = false := by
        rcases hcd with rfl | hd
        · decide
        · exact wsChar_of_isDigit hd
      have hshape : (renderDec d).data ++ rest = c :: (t ++ rest) := by
        rw [hdata]
        rfl
      rw [hshape]
      refine parseVal_step_num g (skipWs_cons_not_ws hws _) hcd ?_
      rw [show c :: (t ++ rest) = (renderDec d).data ++ rest from by rw [hdata]; rfl]
      exact parseNumAux_renderDec d hnorm hstop
    | str s =>
      rw [serializeValue_str, canonJson_str]
      have hshape : (jsonQuote s).data ++ rest
          = '"' :: (s.data.flatMap escChar ++ '"' :: rest) := by
        rw [jsonQuote_data]
        simp
      rw [hshape]
      exact parseVal_step_str g (skipWs_cons_not_ws (by decide) _)
        (parseStrAux_inv s.data rest)
    | arr xs =>
      cases xs with
      | nil =>
        rw [serializeValue_arr_nil, canonJson_arr]
        exact parseVal_step_arr_nil g
          (by show skipWs ('[' :: ']' :: rest) = '[' :: (']' :: rest)
              exact skipWs_cons_not_ws (by decide) _)
          (skipWs_cons_not_ws (by decide) _)
      | cons x xs2 =>
        rw [serializeValue_arr _ (by simp), canonJson_arr]
        rw [goodJson_arr] at hgood
        have hgood2 := List.all_eq_true.mp hgood
        have hx0good : goodJson x = true := hgood2 x (List.mem_cons_self _ _)
        obtain ⟨c0, t0, hx0, hws0, hne1, hne2⟩ :=
          serializeValue_head x hx0good (depth + 1)
        obtain ⟨suf, hsuf⟩ := intercalate_head ",\n"
          (padStr ((depth + 1) * 2) ++ serializeValue x (depth + 1) 2)
          (xs2.map (fun y => padStr ((depth + 1) * 2) ++ serializeValue y (depth + 1) 2))
        have hI : String.intercalate ",\n" ((x :: xs2).map (fun y =>
            padStr ((depth + 1) * 2) ++ serializeValue y (depth + 1) 2))
            = (padStr ((depth + 1) * 2) ++ serializeValue x (depth + 1) 2) ++ suf := by
          rw [List.map_cons]
          exact hsuf
        have hlb : ("[\n" : String).data = ['[', '\n'] := rfl
        have hnl : ("\n" : String).data = ['\n'] := rfl
        have hrb : ("]" : String).data = [']'] := rfl
        have hmain : ("[\n" ++ String.intercalate ",\n" ((x :: xs2).map (fun y =>
              padStr ((depth + 1) * 2) ++ serializeValue y (depth + 1) 2))
              ++ "\n" ++ padStr (depth * 2) ++ "]").data ++ rest
            = '[' :: ('\n' :: ((String.intercalate ",\n" ((x :: xs2).map (fun y =>
                padStr ((depth + 1) * 2) ++ serializeValue y (depth + 1) 2))).data
              ++ '\n' :: ((padStr (depth * 2)).data ++ ']' :: rest))) := by
          simp [String.data_append, hlb, hnl, hrb]
        rw [hmain]
        have hZ : (String.intercalate ",\n" ((x :: xs2).map (fun y =>
              padStr ((depth + 1) * 2) ++ serializeValue y (depth + 1) 2))).data
              ++ '\n' :: ((padStr (depth * 2)).data ++ ']' :: rest)
            = (padStr ((depth + 1) * 2)).data
              ++ (c0 :: (t0 ++ (suf.data ++ '\n' :: ((padStr (depth * 2)).data
                ++ ']' :: rest)))) := by
          rw [hI]
          simp [String.data_append, hx0]
        have hskip2 : skipWs ('\n' :: ((String.intercalate ",\n" ((x :: xs2).map (fun y =>
              padStr ((depth + 1) * 2) ++ serializeValue y (depth + 1) 2))).data
              ++ '\n' :: ((padStr (depth * 2)).data ++ ']' :: rest)))
            = c0 :: (t0 ++ (suf.data ++ '\n' :: ((padStr (depth * 2)).data
                ++ ']' :: rest))) := by
          rw [hZ]
          exact skipWs_nl_pad _ hws0 _
        have hfuel2 : ((x :: xs2).map (fun y => 1 + jsonWeight y)).sum ≤ g := by
          rw [jsonWeight_arr] at hfuel
          omega
        have hloop := parseElems_loop N ihN (x :: xs2) (by simp)
          (fun y hy => ⟨by
            have h2 := List.sizeOf_lt_of_mem hy
            simp at h2 hsz
            omega, hgood2 y hy⟩)
          g depth rest hfuel2 hstop
        have helems : parseElems g (c0 :: (t0 ++ (suf.data
              ++ '\n' :: ((padStr (depth * 2)).data ++ ']' :: rest))))
            = some ((x :: xs2).map canonJson, rest) := by
          have h1 := parseElems_ws_pre ((padStr ((depth + 1) * 2)).data)
            (padStr_ws _) g (c0 :: (t0 ++ (suf.data
              ++ '\n' :: ((padStr (depth * 2)).data ++ ']' :: rest))))
          rw [← hZ] at h1
          rw [← h1]
          exact hloop
        exact parseVal_step_arr g (skipWs_cons_not_ws (by decide) _) hskip2 hne1 helems
    | obj l =>
      cases l with
      | nil =>
        rw [serializeValue_obj_nil, canonJson_obj]
        exact parseVal_step_obj_nil g
          (by show skipWs ('\x7b' :: '\x7d' :: rest) = '\x7b' :: ('\x7d' :: rest)
              exact skipWs_cons_not_ws (by decide) _)
          (skipWs_cons_not_ws (by decide) _)
      | cons p l2 =>
        rw [serializeValue_obj _ (by simp), canonJson_obj]
        rw [goodJson_obj] at hgood
        have hgood2 : ∀ q ∈ (p :: l2), goodJson q.2 = true := by
          rw [Bool.and_eq_true] at hgood
          exact List.all_eq_true.mp hgood.2
        obtain ⟨e0, ents2, hents⟩ := List.exists_cons_of_ne_nil
          (orderedEntries_ne_nil (by simp : (p :: l2) ≠ []))
        obtain ⟨k0, v0⟩ := e0
        obtain ⟨suf, hsuf⟩ := intercalate_head ",\n"
          (padStr ((depth + 1) * 2) ++ jsonQuote k0 ++ ": "
            ++ serializeValue v0 (depth + 1) 2)
          (ents2.map (fun kv => padStr ((depth + 1) * 2) ++ jsonQuote kv.1 ++ ": "
            ++ serializeValue kv.2 (depth + 1) 2))
        have hI : String.intercalate ",\n" ((orderedEntries (p :: l2)).map (fun kv =>
            padStr ((depth + 1) * 2) ++ jsonQuote kv.1 ++ ": "
              ++ serializeValue kv.2 (depth + 1) 2))
            = (padStr ((depth + 1) * 2) ++ jsonQuote k0 ++ ": "
              ++ serializeValue v0 (depth + 1) 2) ++ suf := by
          rw [hents, List.map_cons]
          exact hsuf
        have hlb : ("\x7b\n" : String).data = ['\x7b', '\n'] := rfl
        have hnl : ("\n" : String).data = ['\n'] := rfl
        have hrb : ("\x7d" : String).data = ['\x7d'] := rfl
        have hmain : ("\x7b\n" ++ String.intercalate ",\n"
              ((orderedEntries (p :: l2)).map (fun kv =>
                padStr ((depth + 1) * 2) ++ jsonQuote kv.1 ++ ": "
                  ++ serializeValue kv.2 (depth + 1) 2))
              ++ "\n" ++ padStr (depth * 2) ++ "\x7d").data ++ rest
            = '\x7b' :: ('\n' :: ((String.intercalate ",\n"
                ((orderedEntries (p :: l2)).map (fun kv =>
                  padStr ((depth + 1) * 2) ++ jsonQuote kv.1 ++ ": "
                    ++ serializeValue kv.2 (depth + 1) 2))).data
              ++ '\n' :: ((padStr (depth * 2)).data ++ '\x7d' :: rest))) := by
          simp [String.data_append, hlb, hnl, hrb]
        rw [hmain]
        have hZ : (String.intercalate ",\n" ((orderedEntries (p :: l2)).map (fun kv =>
              padStr ((depth + 1) * 2) ++ jsonQuote kv.1 ++ ": "
                ++ serializeValue kv.2 (depth + 1) 2))).data
              ++ '\n' :: ((padStr (depth * 2)).data ++ '\x7d' :: rest)
            = (padStr ((depth + 1) * 2)).data
              ++ ('"' :: (k0.data.flatMap escChar ++ '"' :: (':' :: (' '
                :: ((serializeValue v0 (depth + 1) 2).data
                  ++ (suf.data ++ '\n' :: ((padStr (depth * 2)).data
                    ++ '\x7d' :: rest))))))) := by
          rw [hI]
          simp [String.data_append, jsonQuote_data, data_colon_space]
        have hskip2 : skipWs ('\n' :: ((String.intercalate ",\n"
              ((orderedEntries (p :: l2)).map (fun kv =>
                padStr ((depth + 1) * 2) ++ jsonQuote kv.1 ++ ": "
                  ++ serializeValue kv.2 (depth + 1) 2))).data
              ++ '\n' :: ((padStr (depth * 2)).data ++ '\x7d' :: rest)))
            = '"' :: (k0.data.flatMap escChar ++ '"' :: (':' :: (' '
                :: ((serializeValue v0 (depth + 1) 2).data
                  ++ (suf.data ++ '\n' :: ((padStr (depth * 2)).data
                    ++ '\x7d' :: rest)))))) := by
          rw [hZ]
          exact skipWs_nl_pad _ (by decide) _
        have hfuel2 : ((orderedEntries (p :: l2)).map (fun q => 1 + jsonWeight q.2)).sum
            ≤ g := by
          rw [jsonWeight_obj] at hfuel
          omega
        have hloop := parseMembers_loop N ihN (orderedEntries (p :: l2))
          (orderedEntries_ne_nil (by simp))
          (fun q hq => by
            have hq2 := mem_of_mem_orderedEntries hq
            refine ⟨?_, hgood2 q hq2⟩
            have h2 := List.sizeOf_lt_of_mem hq2
            obtain ⟨qk, qv⟩ := q
            simp at h2 hsz ⊢
            omega)
          [] g depth rest hfuel2 hstop
        have hmem : parseMembers g []
            ('"' :: (k0.data.flatMap escChar ++ '"' :: (':' :: (' '
                :: ((serializeValue v0 (depth + 1) 2).data
                  ++ (suf.data ++ '\n' :: ((padStr (depth * 2)).data
                    ++ '\x7d' :: rest)))))))
            = some ((orderedEntries (p :: l2)).foldl
                (fun a q => jsObjSet a q.1 (canonJson q.2)) [], rest) := by
          have h1 := parseMembers_ws_pre ((padStr ((depth + 1) * 2)).data)
            (padStr_ws _) g []
            ('"' :: (k0.data.flatMap escChar ++ '"' :: (':' :: (' '
                :: ((serializeValue v0 (depth + 1) 2).data
                  ++ (suf.data ++ '\n' :: ((padStr (depth * 2)).data
                    ++ '\x7d' :: rest)))))))
          rw [← hZ] at h1
          rw [← h1]
          exact hloop
        exact parseVal_step_obj g (skipWs_cons_not_ws (by decide) _) hskip2
          (by decide) hmem

theorem intercalate_len {α : Type} (item : α → String) (w : α → Nat) :
    ∀ (xs : List α), xs ≠ [] → (∀ x ∈ xs, w x ≤ (item x).data.length) →
    (xs.map (fun x => 1 + w x)).sum
      ≤ (String.intercalate ",\n" (xs.map item)).data.length + 1 := by
  intro xs
  induction xs with
  | nil => intro h; exact absurd rfl h
  | cons x t iht =>
    intro _ hall
    have h1 := hall x (List.mem_cons_self _ _)
    cases t with
    | nil =>
      simp only [List.map_cons, List.map_nil, intercalate_single, List.sum_cons,
        List.sum_nil]
      omega
    | cons y t2 =>
      rw [intercalate_map_cons2, List.map_cons, List.sum_cons]
      have h2 := iht (by simp) (fun z hz => hall z (List.mem_cons_of_mem _ hz))
      have hlen : ((item x ++ ",\n" ++ String.intercalate ",\n"
          ((y :: t2).map item))).data.length
          = (item x).data.length + 2
            + (String.intercalate ",\n" ((y :: t2).map item)).data.length := by
        simp [String.data_append, data_comma_nl]
        omega
      rw [hlen]
      omega

theorem serLen_aux (N : Nat) :
    ∀ (v : Json), sizeOf v ≤ N → goodJson v = true → ∀ depth,
      jsonWeight v ≤ (serializeValue v depth 2).data.length := by
  induction N with
  | zero => intro v hv; exact absurd hv (by cases v <;> simp)
  | succ N ihN =>
    intro v hsz hgood depth
    cases v with
    | null =>
      have hw : jsonWeight Json.null = 1 := by simp [jsonWeight]
      rw [serializeValue_null, hw]
      decide
    | bool b =>
      have hw : jsonWeight (Json.bool b) = 1 := by simp [jsonWeight]
      rw [serializeValue_bool, hw]
      cases b with
      | true => rw [if_pos rfl]; decide
      | false => rw [if_neg (by decide)]; decide
    | num d =>
      have hw : jsonWeight (Json.num d) = 1 := by simp [jsonWeight]
      rw [goodJson_num] at hgood
      obtain ⟨c, t, hdata, -⟩ := renderDec_head (decNormalB_normal hgood)
      rw [serializeValue_num, hw, hdata]
      simp
    | str s =>
      have hw : jsonWeight (Json.str s) = 1 := by simp [jsonWeight]
      rw [serializeValue_str, hw, jsonQuote_data]
      simp
    | arr xs =>
      cases xs with
      | nil =>
        have hw : jsonWeight (Json.arr []) = 1 := by simp [jsonWeight_arr]
        rw [serializeValue_arr_nil, hw]
        decide
      | cons x xs2 =>
        rw [jsonWeight_arr, serializeValue_arr _ (by simp)]
        rw [goodJson_arr] at hgood
        have hgood2 := List.all_eq_true.mp hgood
        have hlb : ("[\n" : String).data = ['[', '\n'] := rfl
        have hnl : ("\n" : String).data = ['\n'] := rfl
        have hrb : ("]" : String).data = [']'] := rfl
        have hloop := intercalate_len
          (fun y => padStr ((depth + 1) * 2) ++ serializeValue y (depth + 1) 2)
          jsonWeight (x :: xs2) (by simp)
          (fun y hy => by
            have h2 := List.sizeOf_lt_of_mem hy
            have h3 := ihN y (by simp at h2 hsz; omega) (hgood2 y hy) (depth + 1)
            simp [String.data_append] at h3 ⊢
            omega)
        have hlen : (("[\n" ++ String.intercalate ",\n" ((x :: xs2).map (fun y =>
              padStr ((depth + 1) * 2) ++ serializeValue y (depth + 1) 2))
              ++ "\n" ++ padStr (depth * 2) ++ "]")).data.length
            = (String.intercalate ",\n" ((x :: xs2).map (fun y =>
                padStr ((depth + 1) * 2) ++ serializeValue y (depth + 1) 2))).data.length
              + (padStr (depth * 2)).data.length + 4 := by
          simp [String.data_append, hlb, hnl, hrb]
          omega
        rw [hlen]
        omega
    | obj l =>
      cases l with
      | nil =>
        have hw : jsonWeight (Json.obj []) = 1 := by
          rw [jsonWeight_obj]
          rfl
        rw [serializeValue_obj_nil, hw]
        decide
      | cons p l2 =>
        rw [jsonWeight_obj, serializeValue_obj _ (by simp)]
        rw [goodJson_obj] at hgood
        have hgood2 : ∀ q ∈ (p :: l2), goodJson q.2 = true := by
          rw [Bool.and_eq_true] at hgood
          exact List.all_eq_true.mp hgood.2
        have hlb : ("\x7b\n" : String).data = ['\x7b', '\n'] := rfl
        have hnl : ("\n" : String).data = ['\n'] := rfl
        have hrb : ("\x7d" : String).data = ['\x7d'] := rfl
        have hloop := intercalate_len
          (fun kv => padStr ((depth + 1) * 2) ++ jsonQuote kv.1 ++ ": "
            ++ serializeValue kv.2 (depth + 1) 2)
          (fun kv => jsonWeight kv.2) (orderedEntries (p :: l2))
          (orderedEntries_ne_nil (by simp))
          (fun q hq => by
            have hq2 := mem_of_mem_orderedEntries hq
            have h2 := List.sizeOf_lt_of_mem hq2
            have h3 : sizeOf q.2 ≤ N := by
              obtain ⟨qk, qv⟩ := q
              simp at h2 hsz ⊢
              omega
            have h4 := ihN q.2 h3 (hgood2 q hq2) (depth + 1)
            simp [String.data_append] at h4 ⊢
            omega)
        have hloop2 : ((orderedEntries (p :: l2)).map
              (fun q => 1 + jsonWeight q.2)).sum
            ≤ (String.intercalate ",\n" ((orderedEntries (p :: l2)).map (fun kv =>
                padStr ((depth + 1) * 2) ++ jsonQuote kv.1 ++ ": "
                  ++ serializeValue kv.2 (depth + 1) 2))).data.length + 1 := hloop
        have hlen : (("\x7b\n" ++ String.intercalate ",\n"
              ((orderedEntries (p :: l2)).map (fun kv =>
                padStr ((depth + 1) * 2) ++ jsonQuote kv.1 ++ ": "
                  ++ serializeValue kv.2 (depth + 1) 2))
              ++ "\n" ++ padStr (depth * 2) ++ "\x7d")).data.length
            = (String.intercalate ",\n" ((orderedEntries (p :: l2)).map (fun kv =>
                padStr ((depth + 1) * 2) ++ jsonQuote kv.1 ++ ": "
                  ++ serializeValue kv.2 (depth + 1) 2))).data.length
              + (padStr (depth * 2)).data.length + 4 := by
          simp [String.data_append, hlb, hnl, hrb]
          omega
        rw [hlen]
        omega

theorem parseText_serializeJson {v : Json} (hgood : goodJson v = true) :
    parseText (serializeJson v) = some (canonJson v) := by
  unfold parseText serializeJson
  have hlen := serLen_aux (sizeOf v) v (le_refl _) hgood 0
  have hmain := parseVal_ser_aux (sizeOf v) v (le_refl _) hgood
    ((serializeValue v 0 2).data.length + 1) 0 [] (by omega) numStop_nil
  rw [List.append_nil] at hmain
  rw [hmain]
  rfl

theorem mem_jsObjSet {l : List (String × Json)} {k : String} {v : Json}
    {p : String × Json} (h : p ∈ jsObjSet l k v) :
    p = (k, v) ∨ p ∈ l := by
  induction l with
  | nil =>
    simp [jsObjSet] at h
    exact Or.inl h
  | cons a t ih =>
    obtain ⟨k1, v1⟩ := a
    unfold jsObjSet at h
    by_cases hk : k = k1
    · rw [if_pos hk] at h
      rcases List.mem_cons.mp h with rfl | hmem
      · exact Or.inl rfl
      · exact Or.inr (List.mem_cons_of_mem _ hmem)
    · rw [if_neg hk] at h
      by_cases hcond : jsKeyBefore k k1 = true ∧ (t.lookup k).isNone = true
      · rw [if_pos hcond] at h
        rcases List.mem_cons.mp h with rfl | hmem
        · exact Or.inl rfl
        · exact Or.inr hmem
      · rw [if_neg hcond] at h
        rcases List.mem_cons.mp h with rfl | hmem
        · exact Or.inr (List.mem_cons_self _ _)
        · rcases ih hmem with h2 | h2
          · exact Or.inl h2
          · exact Or.inr (List.mem_cons_of_mem _ h2)

theorem jsKeyBefore_asymm {a b : String} (h : jsKeyBefore a b = true) :
    jsKeyBefore b a = false := by
  unfold jsKeyBefore at h ⊢
  cases ha : jsArrayIndex? a <;> cases hb : jsArrayIndex? b <;>
    simp_all <;> omega

theorem jsKeyBefore_block {q1 k k1 : String}
    (h1 : jsKeyBefore k k1 = true) (h2 : jsKeyBefore q1 k1 = false) :
    jsKeyBefore q1 k = false := by
  unfold jsKeyBefore at h1 h2 ⊢
  cases hq : jsArrayIndex? q1 <;> cases hk : jsArrayIndex? k <;>
    cases hk1 : jsArrayIndex? k1 <;> simp_all <;> omega

theorem lookup_none_key_ne {t : List (String × Json)} {k : String}
    (hnone : (t.lookup k).isNone = true) {q : String × Json} (hq : q ∈ t) :
    q.1 ≠ k := by
  intro hqk
  have : (t.lookup k).isSome = true := by
    rw [lookup_isSome_eq_contains]
    have : k ∈ t.map Prod.fst := List.mem_map.mpr ⟨q, hq, hqk⟩
    simpa using this
  rw [Option.isNone_iff_eq_none.mp hnone] at this
  simp at this

theorem lookup_some_key_mem {t : List (String × Json)} {k : String}
    (hsome : (t.lookup k).isNone = false) :
    ∃ q ∈ t, q.1 = k := by
  have h1 : (t.lookup k).isSome = true := by
    cases h : t.lookup k
    · rw [h] at hsome; simp at hsome
    · simp
  cases h : t.lookup k with
  | none => rw [h] at h1; simp at h1
  | some v => exact ⟨(k, v), mem_of_lookup_eq_some h, rfl⟩

theorem pairwiseKeys_cons {k : String} {v : Json} {t : List (String × Json)} :
    pairwiseKeys ((k, v) :: t)
      = (t.all (fun q => !jsKeyBefore q.1 k && q.1 != k) && pairwiseKeys t) := rfl

theorem pairwiseKeys_jsObjSet {l : List (String × Json)} {k : String} {v : Json}
    (h : pairwiseKeys l = true) : pairwiseKeys (jsObjSet l k v) = true := by
  induction l with
  | nil => rfl
  | cons a t ih =>
    obtain ⟨k1, v1⟩ := a
    rw [pairwiseKeys_cons, Bool.and_eq_true, List.all_eq_true] at h
    obtain ⟨hall, ht⟩ := h
    unfold jsObjSet
    by_cases hk : k = k1
    · rw [if_pos hk]
      subst hk
      rw [pairwiseKeys_cons, Bool.and_eq_true, List.all_eq_true]
      exact ⟨hall, ht⟩
    · rw [if_neg hk]
      by_cases hcond : jsKeyBefore k k1 = true ∧ (t.lookup k).isNone = true
      · rw [if_pos hcond]
        obtain ⟨hbef, hnone⟩ := hcond
        rw [pairwiseKeys_cons, Bool.and_eq_true, List.all_eq_true]
        constructor
        · intro q hq
          rcases List.mem_cons.mp hq with rfl | hq2
          · rw [Bool.and_eq_true]
            constructor
            · rw [jsKeyBefore_asymm hbef]
              rfl
            · simp
              exact fun hh => hk hh.symm
          · rw [Bool.and_eq_true]
            have hqpair := hall q hq2
            rw [Bool.and_eq_true] at hqpair
            constructor
            · rw [jsKeyBefore_block hbef (by
                have := hqpair.1
                cases hb : jsKeyBefore q.1 k1
                · rfl
                · rw [hb] at this; simp at this)]
              rfl
            · simp
              exact lookup_none_key_ne hnone hq2
        · rw [pairwiseKeys_cons, Bool.and_eq_true, List.all_eq_true]
          exact ⟨hall, ht⟩
      · rw [if_neg hcond]
        rw [pairwiseKeys_cons, Bool.and_eq_true, List.all_eq_true]
        refine ⟨?_, ih ht⟩
        intro q hq
        rcases mem_jsObjSet hq with rfl | hq2
        · rw [Bool.and_eq_true]
          constructor
          · cases hbef : jsKeyBefore k k1 with
            | false => rfl
            | true =>
              exfalso
              apply hcond
              refine ⟨hbef, ?_⟩
              cases hlk : (t.lookup k).isNone with
              | true => rfl
              | false =>
                obtain ⟨q2, hq2, hq2k⟩ := lookup_some_key_mem hlk
                have hqpair := hall q2 hq2
                rw [Bool.and_eq_true] at hqpair
                have h1 := hqpair.1
                rw [hq2k] at h1
                rw [hbef] at h1
                simp at h1
          · simp
            exact hk
        · exact hall q hq2

theorem pairwiseKeys_nodup {l : List (String × Json)}
    (h : pairwiseKeys l = true) : (l.map Prod.fst).Nodup := by
  induction l with
  | nil => exact List.nodup_nil
  | cons a t ih =>
    obtain ⟨k, v⟩ := a
    rw [pairwiseKeys_cons, Bool.and_eq_true, List.all_eq_true] at h
    obtain ⟨hall, ht⟩ := h
    rw [List.map_cons, List.nodup_cons]
    refine ⟨?_, ih ht⟩
    intro hmem
    obtain ⟨q, hq, hqk⟩ := List.mem_map.mp hmem
    have := hall q hq
    rw [Bool.and_eq_true] at this
    have h2 := this.2
    rw [hqk] at h2
    simp at h2

theorem lookup_eq_some_of_mem_nodup {l : List (String × Json)}
    (hnd : (l.map Prod.fst).Nodup) {k : String} {v : Json}
    (hmem : (k, v) ∈ l) : l.lookup k = some v := by
  induction l with
  | nil => cases hmem
  | cons a t ih =>
    obtain ⟨k1, v1⟩ := a
    rw [List.map_cons, List.nodup_cons] at hnd
    rcases List.mem_cons.mp hmem with heq | hmem2
    · injection heq with h1 h2
      subst h1
      subst h2
      simp [List.lookup]
    · have hk : ¬ (k = k1) := by
        intro h
        subst h
        exact hnd.1 (List.mem_map.mpr ⟨(k, v), hmem2, rfl⟩)
      simp only [List.lookup, beq_eq_false_iff_ne.mpr hk]
      exact ih hnd.2 hmem2

theorem lookup_none_of_not_mem_keys {l : List (String × Json)} {k : String}
    (h : k ∉ l.map Prod.fst) : l.lookup k = none := by
  cases hl : l.lookup k with
  | none => rfl
  | some v =>
    exact absurd (List.mem_map.mpr ⟨(k, v), mem_of_lookup_eq_some hl, rfl⟩) h

theorem foldl_jsObjSet_lookup_frame (f : String × Json → Json) (k : String) :
    ∀ (m : List (String × Json)), k ∉ m.map Prod.fst →
    ∀ (init : List (String × Json)),
    ((m.foldl (fun acc q => jsObjSet acc q.1 (f q)) init).lookup k) = init.lookup k := by
  intro m
  induction m with
  | nil => intro _ init; rfl
  | cons a t ih =>
    intro hk init
    rw [List.map_cons] at hk
    rw [List.foldl_cons]
    rw [ih (fun hmem => hk (List.mem_cons_of_mem _ hmem))]
    have hne : k ≠ a.1 := by
      intro he
      exact hk (by rw [he]; exact List.mem_cons_self _ _)
    exact jsObjSet_lookup_ne init (f a) hne

theorem foldl_jsObjSet_lookup (f : String × Json → Json) (k : String) :
    ∀ (m : List (String × Json)), (m.map Prod.fst).Nodup →
    ∀ (init : List (String × Json)),
    ((m.foldl (fun acc q => jsObjSet acc q.1 (f q)) init).lookup k)
      = (match m.lookup k with
         | some v => some (f (k, v))
         | none => init.lookup k) := by
  intro m
  induction m with
  | nil => intro _ init; rfl
  | cons a t ih =>
    intro hnd init
    obtain ⟨k1, v1⟩ := a
    rw [List.map_cons, List.nodup_cons] at hnd
    rw [List.foldl_cons]
    by_cases hk : k = k1
    · subst hk
      rw [foldl_jsObjSet_lookup_frame f k t hnd.1 _]
      rw [jsObjSet_lookup_self]
      simp [List.lookup]
    · rw [ih hnd.2]
      have hbe : (k == k1) = false := beq_eq_false_iff_ne.mpr hk
      simp only [List.lookup, hbe]
      cases h : t.lookup k with
      | none => exact jsObjSet_lookup_ne init _ hk
      | some v => rfl

theorem lookup_append_or (l1 l2 : List (String × Json)) (k : String) :
    (l1 ++ l2).lookup k
      = (match l1.lookup k with
         | some v => some v
         | none => l2.lookup k) := by
  induction l1 with
  | nil => rfl
  | cons a t ih =>
    obtain ⟨k1, v1⟩ := a
    cases hbe : k == k1 <;> simp [List.lookup, hbe, ih]

theorem lookup_filterMap_priority (ks : List String) (l : List (String × Json)) (k : String) :
    (ks.filterMap (fun pk => (l.lookup pk).map (fun v => (pk, v)))).lookup k
      = if k ∈ ks then l.lookup k else none := by
  induction ks with
  | nil => simp
  | cons a t ih =>
    rw [List.filterMap_cons]
    cases hl : l.lookup a with
    | some v =>
      simp only [hl, Option.map_some']
      by_cases hk : k = a
      · subst hk
        rw [if_pos (List.mem_cons_self _ _), hl]
        simp [List.lookup]
      · have hbe : (k == a) = false := beq_eq_false_iff_ne.mpr hk
        simp only [List.lookup, hbe]
        rw [ih]
        by_cases hm : k ∈ t
        · rw [if_pos hm, if_pos (List.mem_cons_of_mem _ hm)]
        · rw [if_neg hm, if_neg (fun h => (List.mem_cons.mp h).elim hk hm)]
    | none =>
      simp only [hl, Option.map_none']
      rw [ih]
      by_cases hk : k = a
      · subst hk
        by_cases hm : k ∈ t
        · rw [if_pos hm, if_pos (List.mem_cons_self _ _)]
        · rw [if_neg hm, if_pos (List.mem_cons_self _ _), hl]
      · by_cases hm : k ∈ t
        · rw [if_pos hm, if_pos (List.mem_cons_of_mem _ hm)]
        · rw [if_neg hm, if_neg (fun h => (List.mem_cons.mp h).elim hk hm)]

theorem lookup_filter_keep {p : String × Json → Bool} {k : String}
    (hp : ∀ v, p (k, v) = true) :
    ∀ (l : List (String × Json)), (l.filter p).lookup k = l.lookup k := by
  intro l
  induction l with
  | nil => rfl
  | cons a t ih =>
    obtain ⟨k1, v1⟩ := a
    rw [List.filter_cons]
    by_cases hk : k = k1
    · subst hk
      rw [if_pos (by exact hp v1)]
      simp [List.lookup]
    · have hbe : (k == k1) = false := beq_eq_false_iff_ne.mpr hk
      cases hpa : p (k1, v1)
      · rw [if_neg (by simp [hpa])]
        rw [ih]
        simp only [List.lookup, hbe]
      · rw [if_pos (by simp [hpa])]
        simp only [List.lookup, hbe]
        exact ih

theorem lookup_orderedEntries (l : List (String × Json)) (k : String) :
    (orderedEntries l).lookup k = l.lookup k := by
  unfold orderedEntries
  rw [lookup_append_or, lookup_filterMap_priority]
  by_cases hk : k ∈ PRIORITY
  · rw [if_pos hk]
    cases hl : l.lookup k with
    | some v => rfl
    | none =>
      show (l.filter (fun kv => !(PRIORITY.contains kv.1))).lookup k = none
      cases hf : (l.filter (fun kv => !(PRIORITY.contains kv.1))).lookup k with
      | none => rfl
      | some w =>
        exfalso
        have hmem : (k, w) ∈ l :=
          List.mem_of_mem_filter (mem_of_lookup_eq_some hf)
        have hc : (l.lookup k).isSome = true := by
          rw [lookup_isSome_eq_contains]
          have hkm : k ∈ l.map Prod.fst := List.mem_map.mpr ⟨(k, w), hmem, rfl⟩
          simpa using hkm
        rw [hl] at hc
        simp at hc
  · rw [if_neg hk]
    show (l.filter (fun kv => !(PRIORITY.contains kv.1))).lookup k = l.lookup k
    refine lookup_filter_keep (fun v => ?_) l
    simp only [Bool.not_eq_true']
    simpa using hk

theorem orderedEntries_keys_nodup {l : List (String × Json)}
    (hnd : (l.map Prod.fst).Nodup) : ((orderedEntries l).map Prod.fst).Nodup :=
  (orderedEntries_keys_perm hnd).nodup_iff.mpr hnd

theorem canonJson_obj_lookup {l : List (String × Json)}
    (hnd : (l.map Prod.fst).Nodup) (k : String) :
    jsGet (canonJson (.obj l)) k = (l.lookup k).map canonJson := by
  rw [canonJson_obj]
  show ((orderedEntries l).foldl (fun acc q => jsObjSet acc q.1 (canonJson q.2)) []).lookup k
    = (l.lookup k).map canonJson
  rw [foldl_jsObjSet_lookup (fun q => canonJson q.2) k (orderedEntries l)
    (orderedEntries_keys_nodup hnd) []]
  rw [lookup_orderedEntries]
  cases hlk : l.lookup k <;> rfl

theorem mem_foldl_jsObjSet (f : String × Json → Json) {p : String × Json} :
    ∀ (m init : List (String × Json)),
    p ∈ m.foldl (fun acc q => jsObjSet acc q.1 (f q)) init →
    p ∈ init ∨ ∃ q ∈ m, p = (q.1, f q) := by
  intro m
  induction m with
  | nil => intro init h; exact Or.inl h
  | cons a t ih =>
    intro init h
    rw [List.foldl_cons] at h
    rcases ih _ h with h2 | ⟨q, hq, rfl⟩
    · rcases mem_jsObjSet h2 with rfl | h3
      · exact Or.inr ⟨a, List.mem_cons_self _ _, rfl⟩
      · exact Or.inl h3
    · exact Or.inr ⟨q, List.mem_cons_of_mem _ hq, rfl⟩

theorem sizeOf_mem_arr {x : Json} {xs : List Json} (h : x ∈ xs) :
    sizeOf x < sizeOf (Json.arr xs) := by
  have h2 := List.sizeOf_lt_of_mem h
  simp only [Json.arr.sizeOf_spec]
  omega

theorem sizeOf_mem_obj {k : String} {v : Json} {l : List (String × Json)}
    (h : (k, v) ∈ l) : sizeOf v < sizeOf (Json.obj l) := by
  have h2 := List.sizeOf_lt_of_mem h
  simp only [Prod.mk.sizeOf_spec] at h2
  simp only [Json.obj.sizeOf_spec]
  omega

theorem goodJson_str (s : String) : goodJson (.str s) = true := by
  simp [goodJson]

theorem goodJson_lookup {l : List (String × Json)} {k : String} {v : Json}
    (hg : goodJson (.obj l) = true) (hl : l.lookup k = some v) :
    goodJson v = true := by
  rw [goodJson_obj, Bool.and_eq_true, List.all_eq_true] at hg
  exact hg.2 (k, v) (mem_of_lookup_eq_some hl)

theorem goodJson_obj_nodup {l : List (String × Json)}
    (hg : goodJson (.obj l) = true) : (l.map Prod.fst).Nodup := by
  rw [goodJson_obj, Bool.and_eq_true] at hg
  exact pairwiseKeys_nodup hg.1

theorem goodJson_jsObjSet {l : List (String × Json)} {k : String} {v : Json}
    (hg : goodJson (.obj l) = true) (hv : goodJson v = true) :
    goodJson (.obj (jsObjSet l k v)) = true := by
  rw [goodJson_obj, Bool.and_eq_true, List.all_eq_true] at hg ⊢
  refine ⟨pairwiseKeys_jsObjSet hg.1, ?_⟩
  intro q hq
  rcases mem_jsObjSet hq with rfl | h2
  · exact hv
  · exact hg.2 q h2

theorem goodJson_arr_cons (x : Json) (xs : List Json) :
    goodJson (.arr (x :: xs)) = (goodJson x && goodJson (.arr xs)) := by
  rw [goodJson_arr, goodJson_arr, List.all_cons]

theorem zip_map_left_self {α β : Type} (f : α → β) :
    ∀ (xs : List α), (xs.map f).zip xs = xs.map (fun x => (f x, x)) := by
  intro xs
  induction xs with
  | nil => rfl
  | cons a t ih => simp [ih]

theorem jsNullish_canonJson (v : Json) : jsNullish (canonJson v) = jsNullish v := by
  cases v with
  | null => rw [canonJson_null]
  | bool b => rw [canonJson_bool]
  | num d => rw [canonJson_num]
  | str s => rw [canonJson_str]
  | arr xs => rw [canonJson_arr]; rfl
  | obj l => rw [canonJson_obj]; rfl

theorem jsTruthy_canonJson (v : Json) : jsTruthy (canonJson v) = jsTruthy v := by
  cases v with
  | null => rw [canonJson_null]
  | bool b => rw [canonJson_bool]
  | num d => rw [canonJson_num]
  | str s => rw [canonJson_str]
  | arr xs => rw [canonJson_arr]; rfl
  | obj l => rw [canonJson_obj]; rfl

theorem jsonEquiv_canon_aux :
    ∀ (N : Nat) (v : Json), sizeOf v ≤ N → goodJson v = true →
      jsonEquiv (canonJson v) v = true := by
  intro N
  induction N with
  | zero =>
    intro v hN hg
    cases v <;> simp at hN
  | succ N ih =>
    intro v hN hg
    match v with
    | .null =>
      rw [canonJson_null, jsonEquiv]
    | .bool b =>
      rw [canonJson_bool, jsonEquiv]
      simp
    | .num d =>
      rw [canonJson_num, jsonEquiv]
      simp
    | .str s =>
      rw [canonJson_str, jsonEquiv]
      simp
    | .arr xs =>
      rw [canonJson_arr, jsonEquiv_arr, Bool.and_eq_true]
      constructor
      · simp
      · rw [zip_map_left_self canonJson xs, all_map_fn, List.all_eq_true]
        intro x hx
        have hgx : goodJson x = true := by
          rw [goodJson_arr, List.all_eq_true] at hg
          exact hg x hx
        have hs := sizeOf_mem_arr hx
        have hNarr : sizeOf (Json.arr xs) ≤ N + 1 := hN
        exact ih x (by omega) hgx
    | .obj l =>
      have hnd : (l.map Prod.fst).Nodup := goodJson_obj_nodup hg
      rw [canonJson_obj, jsonEquiv_obj, Bool.and_eq_true]
      constructor
      · rw [List.all_eq_true]
        intro p hp
        rcases mem_foldl_jsObjSet (fun q => canonJson q.2) (orderedEntries l) [] hp
          with h0 | ⟨q, hq, rfl⟩
        · cases h0
        · have hqmem : q ∈ l := mem_of_mem_orderedEntries hq
          obtain ⟨qk, qv⟩ := q
          have hlk : l.lookup qk = some qv := lookup_eq_some_of_mem_nodup hnd hqmem
          show (match l.lookup qk with
                | some w => jsonEquiv (canonJson qv) w
                | none => false) = true
          rw [hlk]
          have hgq : goodJson qv = true := by
            rw [goodJson_obj, Bool.and_eq_true, List.all_eq_true] at hg
            exact hg.2 (qk, qv) hqmem
          have hs := sizeOf_mem_obj hqmem
          have hNobj : sizeOf (Json.obj l) ≤ N + 1 := hN
          exact ih qv (by omega) hgq
      · rw [List.all_eq_true]
        intro q hq2
        have hsome : (l.lookup q.1).isSome = true := by
          rw [lookup_isSome_eq_contains]
          have hkm : q.1 ∈ l.map Prod.fst := List.mem_map.mpr ⟨q, hq2, rfl⟩
          simpa using hkm
        have hm2 : ((orderedEntries l).foldl
            (fun acc q => jsObjSet acc q.1 (canonJson q.2)) []).lookup q.1
            = (l.lookup q.1).map canonJson := by
          have h2 := canonJson_obj_lookup hnd q.1
          rw [canonJson_obj] at h2
          exact h2
        rw [hm2]
        cases hlq : l.lookup q.1 with
        | none => rw [hlq] at hsome; simp at hsome
        | some w => rfl

theorem jsonEquiv_canon {v : Json} (hg : goodJson v = true) :
    jsonEquiv (canonJson v) v = true :=
  jsonEquiv_canon_aux (sizeOf v) v (le_refl _) hg

theorem readText_eq {text : String} {raw a t n : Json}
    (h1 : parseText text = some raw) (h2 : assetOf raw = some a)
    (h3 : jsTruthy a = true) (h4 : jsGet a "Terrain" = some t)
    (h5 : jsTruthy t = true) (h6 : jsGet t "Nodes" = some n)
    (h7 : jsNullish n = false) :
    readText text = some ⟨raw, none⟩ := by
  unfold readText
  simp only [h1, h2, h3, h4, h5, h6, h7]
  simp

/-- C1: round trip.  For a loaded document of the standard shape whose
raw tree satisfies the parse invariant (keys in enumeration order
without duplicates, decimals in normal form), writing produces the
serialization of `raw2`, which is exactly the original tree with the
two `DateLastSaved` timestamp fields rewritten (the explicit double
`jsObjSet` form); re-parsing that text succeeds and yields `canonJson
raw2`, loading it succeeds, and the re-loaded tree is structurally
identical to `raw2` (`jsonEquiv`: equal atoms, pointwise equal arrays,
objects equal as key-value maps) — so every value other than the two
timestamp fields, including the node mapping, ports, connection
records, and opaque sections, survives the serialize/re-parse cycle. -/
theorem claim_C1_round_trip (tf : TerrainFile) (nowIso : String)
    (rl al a0l tl ml ml2 : List (String × Json)) (nv : Json) (rest : List Json)
    (hiso : isoShape nowIso)
    (hgood : goodJson tf.raw = true)
    (hraw : tf.raw = .obj rl)
    (hA : rl.lookup "Assets" = some (.obj al))
    (hV : al.lookup "$values" = some (.arr (.obj a0l :: rest)))
    (hT : a0l.lookup "Terrain" = some (.obj tl))
    (hM : tl.lookup "Metadata" = some (.obj ml))
    (hM2 : rl.lookup "Metadata" = some (.obj ml2))
    (hN : tl.lookup "Nodes" = some nv)
    (hNnn : jsNullish nv = false) :
    ∃ raw2,
      stampRaw (formatNow nowIso) tf.raw = some raw2
      ∧ writeText nowIso tf = some (serializeJson raw2)
      ∧ raw2 = .obj (jsObjSet (jsObjSet rl "Assets" (.obj (jsObjSet al "$values" (.arr (
            .obj (jsObjSet a0l "Terrain" (.obj (jsObjSet tl "Metadata"
              (.obj (jsObjSet ml "DateLastSaved" (.str (formatNow nowIso))))))) :: rest)))))
          "Metadata" (.obj (jsObjSet ml2 "DateLastSaved" (.str (formatNow nowIso)))))
      ∧ parseText (serializeJson raw2) = some (canonJson raw2)
      ∧ readText (serializeJson raw2) = some ⟨canonJson raw2, none⟩
      ∧ jsonEquiv (canonJson raw2) raw2 = true := by
  rw [hraw] at hgood
  have hterr : terrainValOf tf.raw = some (.obj tl) := by
    unfold terrainValOf assetOf
    rw [hraw]
    simp [jsChain, jsChain0, jsGet, jsNullish, jsIdx0, hA, hV, hT]
  have hstamp1 : stampTerrainMeta (formatNow nowIso) tf.raw
      = some (setTerrainMetaRaw tf.raw (formatNow nowIso)) := by
    unfold stampTerrainMeta
    rw [hterr]
    simp only [jsGet, hM, jsTruthy, if_true]
  have hset1 : setTerrainMetaRaw tf.raw (formatNow nowIso)
      = .obj (jsObjSet rl "Assets" (.obj (jsObjSet al "$values" (.arr (
          (.obj (jsObjSet a0l "Terrain" (.obj (jsObjSet tl "Metadata"
            (.obj (jsObjSet ml "DateLastSaved" (.str (formatNow nowIso))))))))
          :: rest))))) := by
    rw [hraw]
    simp only [setTerrainMetaRaw, hA, hV, hT, hM]
  have hMpres : (jsObjSet rl "Assets" (.obj (jsObjSet al "$values" (.arr (
      (.obj (jsObjSet a0l "Terrain" (.obj (jsObjSet tl "Metadata"
        (.obj (jsObjSet ml "DateLastSaved" (.str (formatNow nowIso))))))))
      :: rest))))).lookup "Metadata" = some (.obj ml2) := by
    rw [jsObjSet_lookup_ne _ _ (by decide : "Metadata" ≠ "Assets")]
    exact hM2
  have hstamp2 : stampOuterMeta (formatNow nowIso)
      (setTerrainMetaRaw tf.raw (formatNow nowIso))
      = some (setOuterMetaRaw (setTerrainMetaRaw tf.raw (formatNow nowIso))
          (formatNow nowIso)) := by
    unfold stampOuterMeta
    rw [hset1]
    simp only [jsGet, hMpres, jsTruthy, if_true]
  have hset2 : setOuterMetaRaw (setTerrainMetaRaw tf.raw (formatNow nowIso))
      (formatNow nowIso)
      = .obj (jsObjSet (jsObjSet rl "Assets" (.obj (jsObjSet al "$values" (.arr (
          .obj (jsObjSet a0l "Terrain" (.obj (jsObjSet tl "Metadata"
            (.obj (jsObjSet ml "DateLastSaved" (.str (formatNow nowIso))))))) :: rest)))))
          "Metadata" (.obj (jsObjSet ml2 "DateLastSaved" (.str (formatNow nowIso))))) := by
    rw [hset1]
    simp only [setOuterMetaRaw, hMpres]
  rw [hset2] at hstamp2
  have hgal : goodJson (.obj al) = true := goodJson_lookup hgood hA
  have hgarr : goodJson (.arr (.obj a0l :: rest)) = true := goodJson_lookup hgal hV
  rw [goodJson_arr_cons, Bool.and_eq_true] at hgarr
  obtain ⟨hga0, hgrest⟩ := hgarr
  have hgtl : goodJson (.obj tl) = true := goodJson_lookup hga0 hT
  have hgml : goodJson (.obj ml) = true := goodJson_lookup hgtl hM
  have hgml2 : goodJson (.obj ml2) = true := goodJson_lookup hgood hM2
  have hgmlX : goodJson (.obj (jsObjSet ml "DateLastSaved"
      (.str (formatNow nowIso)))) = true :=
    goodJson_jsObjSet hgml (goodJson_str _)
  have hgT2 : goodJson (.obj (jsObjSet tl "Metadata"
      (.obj (jsObjSet ml "DateLastSaved" (.str (formatNow nowIso)))))) = true :=
    goodJson_jsObjSet hgtl hgmlX
  have hgA02 : goodJson (.obj (jsObjSet a0l "Terrain" (.obj (jsObjSet tl "Metadata"
      (.obj (jsObjSet ml "DateLastSaved" (.str (formatNow nowIso)))))))) = true :=
    goodJson_jsObjSet hga0 hgT2
  have hgarr2 : goodJson (.arr (.obj (jsObjSet a0l "Terrain" (.obj (jsObjSet tl "Metadata"
      (.obj (jsObjSet ml "DateLastSaved" (.str (formatNow nowIso))))))) :: rest)) = true := by
    rw [goodJson_arr_cons, Bool.and_eq_true]
    exact ⟨hgA02, hgrest⟩
  have hgal2 : goodJson (.obj (jsObjSet al "$values" (.arr (
      .obj (jsObjSet a0l "Terrain" (.obj (jsObjSet tl "Metadata"
        (.obj (jsObjSet ml "DateLastSaved" (.str (formatNow nowIso))))))) :: rest)))) = true :=
    goodJson_jsObjSet hgal hgarr2
  have hgrl2a : goodJson (.obj (jsObjSet rl "Assets" (.obj (jsObjSet al "$values" (.arr (
      .obj (jsObjSet a0l "Terrain" (.obj (jsObjSet tl "Metadata"
        (.obj (jsObjSet ml "DateLastSaved" (.str (formatNow nowIso))))))) :: rest)))))) = true :=
    goodJson_jsObjSet hgood hgal2
  have hgml2X : goodJson (.obj (jsObjSet ml2 "DateLastSaved"
      (.str (formatNow nowIso)))) = true :=
    goodJson_jsObjSet hgml2 (goodJson_str _)
  have hgraw2 : goodJson (.obj (jsObjSet (jsObjSet rl "Assets" (.obj (jsObjSet al "$values"
      (.arr (.obj (jsObjSet a0l "Terrain" (.obj (jsObjSet tl "Metadata"
        (.obj (jsObjSet ml "DateLastSaved" (.str (formatNow nowIso))))))) :: rest)))))
      "Metadata" (.obj (jsObjSet ml2 "DateLastSaved" (.str (formatNow nowIso)))))) = true :=
    goodJson_jsObjSet hgrl2a hgml2X
  have hparse := parseText_serializeJson hgraw2
  have hnd2 := goodJson_obj_nodup hgraw2
  have hndal2 := goodJson_obj_nodup hgal2
  have hndA02 := goodJson_obj_nodup hgA02
  have hndT2 := goodJson_obj_nodup hgT2
  have hlookA : (jsObjSet (jsObjSet rl "Assets" (.obj (jsObjSet al "$values"
      (.arr (.obj (jsObjSet a0l "Terrain" (.obj (jsObjSet tl "Metadata"
        (.obj (jsObjSet ml "DateLastSaved" (.str (formatNow nowIso))))))) :: rest)))))
      "Metadata" (.obj (jsObjSet ml2 "DateLastSaved"
        (.str (formatNow nowIso))))).lookup "Assets"
      = some (.obj (jsObjSet al "$values" (.arr (.obj (jsObjSet a0l "Terrain"
          (.obj (jsObjSet tl "Metadata" (.obj (jsObjSet ml "DateLastSaved"
            (.str (formatNow nowIso))))))) :: rest)))) := by
    rw [jsObjSet_lookup_ne _ _ (by decide : "Assets" ≠ "Metadata")]
    exact jsObjSet_lookup_self _ _ _
  have hg1 : jsGet (canonJson (.obj (jsObjSet (jsObjSet rl "Assets" (.obj (jsObjSet al
      "$values" (.arr (.obj (jsObjSet a0l "Terrain" (.obj (jsObjSet tl "Metadata"
        (.obj (jsObjSet ml "DateLastSaved" (.str (formatNow nowIso))))))) :: rest)))))
      "Metadata" (.obj (jsObjSet ml2 "DateLastSaved" (.str (formatNow nowIso)))))))
      "Assets"
      = some (canonJson (.obj (jsObjSet al "$values" (.arr (.obj (jsObjSet a0l "Terrain"
          (.obj (jsObjSet tl "Metadata" (.obj (jsObjSet ml "DateLastSaved"
            (.str (formatNow nowIso))))))) :: rest))))) := by
    rw [canonJson_obj_lookup hnd2, hlookA]
    rfl
  have hch1 : jsChain (some (canonJson (.obj (jsObjSet al "$values" (.arr (.obj (jsObjSet
      a0l "Terrain" (.obj (jsObjSet tl "Metadata" (.obj (jsObjSet ml "DateLastSaved"
        (.str (formatNow nowIso))))))) :: rest)))))) "$values"
      = some (canonJson (.arr (.obj (jsObjSet a0l "Terrain" (.obj (jsObjSet tl "Metadata"
          (.obj (jsObjSet ml "DateLastSaved" (.str (formatNow nowIso)))))))
          :: rest))) := by
    show (if jsNullish (canonJson (.obj (jsObjSet al "$values" (.arr (.obj (jsObjSet
        a0l "Terrain" (.obj (jsObjSet tl "Metadata" (.obj (jsObjSet ml "DateLastSaved"
          (.str (formatNow nowIso))))))) :: rest))))) then none
        else jsGet (canonJson (.obj (jsObjSet al "$values" (.arr (.obj (jsObjSet
        a0l "Terrain" (.obj (jsObjSet tl "Metadata" (.obj (jsObjSet ml "DateLastSaved"
          (.str (formatNow nowIso))))))) :: rest))))) "$values") = _
    rw [jsNullish_canonJson]
    rw [if_neg (by simp [jsNullish])]
    rw [canonJson_obj_lookup hndal2, jsObjSet_lookup_self]
    rfl
  have hch0 : jsChain0 (some (canonJson (.arr (.obj (jsObjSet a0l "Terrain"
      (.obj (jsObjSet tl "Metadata" (.obj (jsObjSet ml "DateLastSaved"
        (.str (formatNow nowIso))))))) :: rest))))
      = some (canonJson (.obj (jsObjSet a0l "Terrain" (.obj (jsObjSet tl "Metadata"
          (.obj (jsObjSet ml "DateLastSaved" (.str (formatNow nowIso))))))))) := by
    show (if jsNullish (canonJson (.arr (.obj (jsObjSet a0l "Terrain"
        (.obj (jsObjSet tl "Metadata" (.obj (jsObjSet ml "DateLastSaved"
          (.str (formatNow nowIso))))))) :: rest))) then none
        else jsIdx0 (canonJson (.arr (.obj (jsObjSet a0l "Terrain"
        (.obj (jsObjSet tl "Metadata" (.obj (jsObjSet ml "DateLastSaved"
          (.str (formatNow nowIso))))))) :: rest)))) = _
    rw [jsNullish_canonJson]
    rw [if_neg (by simp [jsNullish])]
    rw [canonJson_arr]
    rfl
  have hasset : assetOf (canonJson (.obj (jsObjSet (jsObjSet rl "Assets" (.obj (jsObjSet al
      "$values" (.arr (.obj (jsObjSet a0l "Terrain" (.obj (jsObjSet tl "Metadata"
        (.obj (jsObjSet ml "DateLastSaved" (.str (formatNow nowIso))))))) :: rest)))))
      "Metadata" (.obj (jsObjSet ml2 "DateLastSaved" (.str (formatNow nowIso)))))))
      = some (canonJson (.obj (jsObjSet a0l "Terrain" (.obj (jsObjSet tl "Metadata"
          (.obj (jsObjSet ml "DateLastSaved" (.str (formatNow nowIso))))))))) := by
    unfold assetOf
    rw [hg1, hch1, hch0]
  have hgTc : jsGet (canonJson (.obj (jsObjSet a0l "Terrain" (.obj (jsObjSet tl "Metadata"
      (.obj (jsObjSet ml "DateLastSaved" (.str (formatNow nowIso))))))))) "Terrain"
      = some (canonJson (.obj (jsObjSet tl "Metadata"
          (.obj (jsObjSet ml "DateLastSaved" (.str (formatNow nowIso))))))) := by
    rw [canonJson_obj_lookup hndA02, jsObjSet_lookup_self]
    rfl
  have hgNc : jsGet (canonJson (.obj (jsObjSet tl "Metadata"
      (.obj (jsObjSet ml "DateLastSaved" (.str (formatNow nowIso))))))) "Nodes"
      = some (canonJson nv) := by
    rw [canonJson_obj_lookup hndT2]
    rw [jsObjSet_lookup_ne _ _ (by decide : "Nodes" ≠ "Metadata"), hN]
    rfl
  refine ⟨.obj (jsObjSet (jsObjSet rl "Assets" (.obj (jsObjSet al "$values" (.arr (
      .obj (jsObjSet a0l "Terrain" (.obj (jsObjSet tl "Metadata"
        (.obj (jsObjSet ml "DateLastSaved" (.str (formatNow nowIso))))))) :: rest)))))
      "Metadata" (.obj (jsObjSet ml2 "DateLastSaved" (.str (formatNow nowIso))))),
    ?_, ?_, rfl, hparse, ?_, jsonEquiv_canon hgraw2⟩
  · unfold stampRaw
    rw [hstamp1]
    exact hstamp2
  · unfold writeText stampRaw
    rw [hstamp1]
    show (stampOuterMeta (formatNow nowIso)
      (setTerrainMetaRaw tf.raw (formatNow nowIso))).map serializeJson = _
    exact congrArg (Option.map serializeJson) hstamp2
  · refine readText_eq hparse hasset ?_ hgTc ?_ hgNc ?_
    · rw [jsTruthy_canonJson]
      rfl
    · rw [jsTruthy_canonJson]
      rfl
    · rw [jsNullish_canonJson]
      exact hNnn

theorem jsArrayIndex_none_of_nondigit {s : String}
    (h : s.data.all Char.isDigit = false) : jsArrayIndex? s = none := by
  unfold jsArrayIndex?
  by_cases hs : s = ""
  · rw [if_pos hs]
  · rw [if_neg hs]
    rw [String.all_eq, h]
    rfl

theorem jsKeyBefore_false_of_nondigit {a : String} (b : String)
    (ha : a.data.all Char.isDigit = false) :
    jsKeyBefore a b = false := by
  unfold jsKeyBefore
  rw [jsArrayIndex_none_of_nondigit ha]

theorem pairwiseKeys_nonindex : ∀ {l : List (String × Json)},
    (∀ q ∈ l, q.1.data.all Char.isDigit = false) →
    (l.map Prod.fst).Nodup → pairwiseKeys l = true := by
  intro l
  induction l with
  | nil => intro _ _; rfl
  | cons a t ih =>
    intro hall hnd
    obtain ⟨k, v⟩ := a
    rw [List.map_cons, List.nodup_cons] at hnd
    rw [pairwiseKeys_cons, Bool.and_eq_true, List.all_eq_true]
    constructor
    · intro q hq
      rw [Bool.and_eq_true]
      constructor
      · rw [jsKeyBefore_false_of_nondigit k (hall q (List.mem_cons_of_mem _ hq))]
        rfl
      · simp only [bne_iff_ne, ne_eq]
        intro he
        exact hnd.1 (List.mem_map.mpr ⟨q, hq, he⟩)
    · exact ih (fun q hq => hall q (List.mem_cons_of_mem _ hq)) hnd.2

/-- Witness for C1 at the concrete document `tfC1` and the ISO instant
`2026-10-12T01:23:45.678Z`. -/
theorem claim_C1_round_trip_witness :
    ∃ raw2,
      stampRaw (formatNow "2026-10-12T01:23:45.678Z") tfC1.raw = some raw2
      ∧ writeText "2026-10-12T01:23:45.678Z" tfC1 = some (serializeJson raw2)
      ∧ parseText (serializeJson raw2) = some (canonJson raw2)
      ∧ readText (serializeJson raw2) = some ⟨canonJson raw2, none⟩
      ∧ jsonEquiv (canonJson raw2) raw2 = true := by
  obtain ⟨raw2, h1, h2, -, h4, h5, h6⟩ :=
    claim_C1_round_trip tfC1 "2026-10-12T01:23:45.678Z"
      [("$id", .str "1"),
       ("Assets", .obj [("$values", .arr [Json.obj [("Terrain",
         .obj [("Metadata", .obj [("DateLastSaved", .str "old")]),
               ("Nodes", .obj [])])]])]),
       ("Metadata", .obj [("DateLastSaved", .str "old")])]
      [("$values", .arr [Json.obj [("Terrain",
         .obj [("Metadata", .obj [("DateLastSaved", .str "old")]),
               ("Nodes", .obj [])])]])]
      [("Terrain", .obj [("Metadata", .obj [("DateLastSaved", .str "old")]),
               ("Nodes", .obj [])])]
      [("Metadata", .obj [("DateLastSaved", .str "old")]), ("Nodes", .obj [])]
      [("DateLastSaved", .str "old")]
      [("DateLastSaved", .str "old")]
      (.obj []) []
      ⟨"2026-10-12".data, "01:23:45".data, "678".data, by decide, by decide,
        by decide, by decide, by decide, by decide, by decide⟩
      (by simp only [tfC1, goodJson_obj, goodJson_arr, goodJson_str,
            List.all_cons, List.all_nil, Bool.and_eq_true]
          and_intros
          all_goals first
          | trivial
          | exact pairwiseKeys_nonindex (by decide) (by decide))
      rfl rfl rfl rfl rfl rfl rfl rfl
  exact ⟨raw2, h1, h2, h4, h5, h6⟩

end Gaea
